import Mathlib

/-!
# mlog: a verification development

A shallow embedding of the Go package `mlog` (files `log.go`, `util.go`,
`mlog_file.go`, `mlog.go`) and theorems about it.

Conventions of the embedding.

* A Go `string` is a `String` where it is only compared (`log.go`), and a list of
  characters (`Bytes`) where it is cut and concatenated (`util.go`, `mlog_file.go`).
* Functions of the Go standard library are not part of the package.  Those that the
  theorems evaluate are written out next to their callers, with a doc comment that says
  so; the others are parameters of the definitions that call them.
* A goroutine, a channel and the operating system are explicit state; every function that
  touches them takes the state and returns the new one.
-/

set_option linter.dupNamespace false

namespace Mlog

/-! ## log.go : levels -/

/-- Go `type Level int`. -/
abbrev Level := Int

def PanicLevel : Level := 0
def FatalLevel : Level := 1
def ErrorLevel : Level := 2
def WarnLevel : Level := 3
def InfoLevel : Level := 4
def DebugLevel : Level := 5

/-- Go `func (level Level) String() string`. -/
def Level.String (level : Level) : String :=
  if level = DebugLevel then "debug"
  else if level = InfoLevel then "info"
  else if level = WarnLevel then "warning"
  else if level = ErrorLevel then "error"
  else if level = FatalLevel then "fatal"
  else if level = PanicLevel then "panic"
  else "unknown"

/-- The errors the package builds with `fmt.Errorf`, by the place that builds them. -/
inductive Error where
  | invalidLevel (lvl : String)
  | createDir (dir : List Char)
  | os
  deriving DecidableEq, Repr

/-- Go `unicode.ToLower` on one rune.  Below 128 it is the shift of `A..Z` onto `a..z`.
Above, the value comes from the case tables of package `unicode`; two of their rows lead
into ASCII, `{0x0130, 0x0130, d{0, -199, 0}}` (capital I with dot above, lower case `i`)
and `{0x212A, 0x212A, d{0, -8383, 0}}` (the Kelvin sign, lower case `k`), and they are
written out; the value on the remaining runes is the parameter `tbl`. -/
def lowerRune (tbl : Char → Char) (c : Char) : Char :=
  if c.toNat < 128 then
    (if 65 ≤ c.toNat ∧ c.toNat ≤ 90 then Char.ofNat (c.toNat + 32) else c)
  else if c.toNat = 304 then 'i'
  else if c.toNat = 8490 then 'k'
  else tbl c

/-- Go `strings.ToLower`: the string with every rune mapped to lower case.  The string is
read as its sequence of runes; a byte that is not part of a valid encoding reads as U+FFFD,
which is how `strings.Map` reads it and is its own lower case. -/
def ToLower (tbl : Char → Char) (s : String) : String :=
  String.mk (s.data.map (lowerRune tbl))

/-- Go `func ParseLevel(lvl string) (Level, error)`.  The second component is `nil`
(`none`) on success; on failure the first one is the zero value of `Level`. -/
def ParseLevel (tbl : Char → Char) (lvl : String) : Level × Option Error :=
  let s := ToLower tbl lvl
  if s = "panic" then (PanicLevel, none)
  else if s = "fatal" then (FatalLevel, none)
  else if s = "error" then (ErrorLevel, none)
  else if s = "warn" ∨ s = "warning" then (WarnLevel, none)
  else if s = "info" then (InfoLevel, none)
  else if s = "debug" then (DebugLevel, none)
  else (0, some (Error.invalidLevel lvl))

/-- Go `LogConfig`.  `Buffer` is a Go `int`; the integers outside the range of `int` are
either negative, and stand for 100 like every negative `int`, or more than any capacity of
a channel, like the largest `int`. -/
structure LogConfig where
  Dir : List Char
  Buffer : Int
  SubRelPath : List Char
  LogLevel : String
  ServerIP : List Char
  deriving DecidableEq, Repr

/-- The level `NewLogger` hands to `ilogger.SetLevel`: the first statements of
`func NewLogger(logConfig LogConfig) *Logger`. -/
def NewLogger.logLevel (tbl : Char → Char) (logConfig : LogConfig) : Level :=
  let (logLevel, err) := ParseLevel tbl logConfig.LogLevel
  if err ≠ none then DebugLevel else logLevel

/-- The names `ParseLevel` accepts for a level, in lower case. -/
def levelNames (l : Level) : List String :=
  if l = PanicLevel then ["panic"]
  else if l = FatalLevel then ["fatal"]
  else if l = ErrorLevel then ["error"]
  else if l = WarnLevel then ["warn", "warning"]
  else if l = InfoLevel then ["info"]
  else if l = DebugLevel then ["debug"]
  else []

/-- The seven names of the levels. -/
def allNames : List String := ["panic", "fatal", "error", "warn", "warning", "info", "debug"]

/-- The comparison in the words of the specification, "compared case-insensitively": `s`
is `name` up to the case of its letters.  `name` is in lower case; `Char.toLower` shifts
`A..Z` onto `a..z` and leaves every other character as it is.  (No name has a `k` or an
`s`, the two letters that Unicode case folding also identifies with a character outside
ASCII.) -/
def caseVariant (s name : String) : Prop := s.data.map Char.toLower = name.data

instance (s name : String) : Decidable (caseVariant s name) := by
  unfold caseVariant
  infer_instance

/-- The reading of one rune that decides what `ParseLevel` accepts: a letter `A..Z` reads
as its lower-case letter, U+0130 reads as `i`, U+212A reads as `k`, every other rune reads
as itself. -/
def caseFold (c : Char) : Char :=
  if c.toNat = 304 then 'i' else if c.toNat = 8490 then 'k' else Char.toLower c

/-- The string `İNFO`: U+0130 followed by `NFO`. -/
def dottedInfo : String := String.mk [Char.ofNat 304, 'N', 'F', 'O']

example : dottedInfo.length = 4 := by decide
example : caseVariant "iNfO" "info" := by decide
example : ¬ caseVariant dottedInfo "info" := by decide
example : ParseLevel id dottedInfo = (4, none) := by decide

example : ParseLevel id "WaRn" = (3, none) := by decide
example : ParseLevel id "trace" = (0, some (Error.invalidLevel "trace")) := by decide

/-! ## Time : the part of Go `time` the package uses -/

/-- A Go string where it is cut and concatenated: its sequence of characters. -/
abbrev Bytes := List Char

/-- Go `time.Hour`, a `time.Duration`: a count of nanoseconds. -/
def time.Hour : Int := 3600000000000

/-- The largest and the smallest `time.Duration` (an `int64`). -/
def maxDuration : Int := 9223372036854775807
def minDuration : Int := -9223372036854775808

/-- Go `time.Time`.  `unix` is the wall-clock reading, in nanoseconds since 1970-01-01
00:00:00 UTC; `offset` is the offset of the time's location at that instant, in nanoseconds
east of UTC; `mono` is the reading of the monotonic clock, in nanoseconds, which
`time.Now()` adds to the value and which `time.Date` and the zero value do not have. -/
structure Time where
  unix : Int
  offset : Int
  mono : Option Int
  deriving DecidableEq, Repr

/-- The zero value of `time.Time`: 0001-01-01 00:00:00 UTC, without a monotonic reading. -/
def Time.zero : Time := ⟨-62135596800000000000, 0, none⟩

/-- The clock face of `t` in its location (what `Date`, `Hour`, `Minute`, `Second` and
`Format` present), in nanoseconds since 1970-01-01 00:00:00 of that location. -/
def Time.ns (t : Time) : Int := t.unix + t.offset

/-- The time elapsed from `u` to `t` that `Sub` measures: the difference of the monotonic
readings when both values have one, and the difference of the wall-clock readings
otherwise. -/
def Time.since (t u : Time) : Int :=
  match t.mono, u.mono with
  | some a, some b => a - b
  | _, _ => t.unix - u.unix

/-- Go `func (t Time) Hour() int`: the hour within the day, in `[0, 23]`. -/
def Time.Hour (t : Time) : Int := (t.ns / 3600000000000) % 24

/-- Go `func (t Time) Sub(u Time) Duration`: `t - u`, saturated to the range of
`Duration`; "if t and u both contain a monotonic clock reading, the monotonic clock
readings alone are used". -/
def Time.Sub (t u : Time) : Int :=
  let d := t.since u
  if d > maxDuration then maxDuration
  else if d < minDuration then minDuration
  else d

/-- The day number of `t`, counted from 1970-01-01. -/
def Time.days (t : Time) : Int := t.ns / 86400000000000

/-- Go `func (t Time) Date() (year int, month Month, day int)`: the proleptic Gregorian
date of the day number, computed era by era (an era is 400 years, 146097 days, and
starts on a 1st of March). -/
def Time.Date (t : Time) : Int × Int × Int :=
  let z := t.days + 719468
  let era := z / 146097
  let doe := z - era * 146097
  let yoe := (doe - doe / 1460 + doe / 36524 - doe / 146096) / 365
  let doy := doe - (365 * yoe + yoe / 4 - yoe / 100)
  let mp := (5 * doy + 2) / 153
  let d := doy - (153 * mp + 2) / 5 + 1
  let m := if mp < 10 then mp + 3 else mp - 9
  let y := yoe + era * 400 + (if m ≤ 2 then 1 else 0)
  (y, m, d)

/-- The calendar hour of an instant: its year, month, day and hour. -/
def Time.calendarHour (t : Time) : Int × Int × Int × Int := (t.Date.1, t.Date.2.1, t.Date.2.2, t.Hour)

def Time.Year (t : Time) : Int := t.Date.1
def Time.Month (t : Time) : Int := t.Date.2.1
def Time.Day (t : Time) : Int := t.Date.2.2

/-- Go `func (t Time) Minute() int`. -/
def Time.Minute (t : Time) : Int := (t.ns / 60000000000) % 60

/-- Go `func (t Time) Second() int`. -/
def Time.Second (t : Time) : Int := (t.ns / 1000000000) % 60

/-- Go `time.Date(y, m, d, hh, mm, ss, 0, time.UTC)` for fields in their ranges: the time
in UTC with that date and time of day (the inverse of `Date`, `Hour`, `Minute`, `Second`),
without a monotonic reading. -/
def Time.civil (y m d hh mm ss : Int) : Time :=
  let y1 := if m ≤ 2 then y - 1 else y
  let era := y1 / 400
  let yoe := y1 - era * 400
  let mp := if m > 2 then m - 3 else m + 9
  let doy := (153 * mp + 2) / 5 + d - 1
  let doe := yoe * 365 + yoe / 4 - yoe / 100 + doy
  let days := era * 146097 + doe - 719468
  ⟨(((days * 24 + hh) * 60 + mm) * 60 + ss) * 1000000000, 0, none⟩

example : (Time.civil 2024 2 29 23 59 59).Date = (2024, 2, 29) := by decide
example : (Time.civil 2024 3 1 0 0 1).Date = (2024, 3, 1) := by decide
example : (Time.civil 1970 1 1 0 0 0).ns = 0 := by decide
example : Time.civil 1 1 1 0 0 0 = Time.zero := by decide
example : (Time.civil 2021 12 31 7 4 5).Hour = 7 := by decide
example : (Time.civil 1969 12 31 23 59 59).Date = (1969, 12, 31) := by decide
example : (Time.civil 2000 2 29 12 0 0).days = 11016 := by decide

/-! ## The standard library on the inputs of the examples -/

/-- The functions of `time` and `path/filepath` the package calls on strings:
`t.Format(layout)`, `filepath.Join(a, b)` and `filepath.Dir(p)`; and the largest capacity
`n` for which `make(chan string, n)` returns.  The runtime panics (`makechan: size out of
range`) when the buffer of `n` strings is more than it can allocate, and a buffer for which
the machine has no memory ends the program too. -/
structure Lib where
  Format : Time → Bytes → Bytes
  Join : Bytes → Bytes → Bytes
  Dir : Bytes → Bytes
  maxChan : Nat

/-- The decimal digit of `n`, for `n` in `[0, 9]`. -/
def digit (n : Int) : Char := Char.ofNat (48 + n.toNat)

/-- A number in `[0, 99]` on two digits. -/
def two (n : Int) : Bytes := [digit (n / 10 % 10), digit (n % 10)]

/-- A number in `[0, 9999]` on four digits. -/
def four (n : Int) : Bytes :=
  [digit (n / 1000 % 10), digit (n / 100 % 10), digit (n / 10 % 10), digit (n % 10)]

/-- Go `func (t Time) Format(layout string) string` for the layouts whose only chunks of the
reference time are `2006`, `01`, `02`, `15`, `04` and `05` (year, month, day, hour, minute,
second) and for the years `0..9999`; the other characters are copied. -/
def layoutFormat (t : Time) : Bytes → Bytes
  | '2' :: '0' :: '0' :: '6' :: rest => four t.Year ++ layoutFormat t rest
  | '0' :: '1' :: rest => two t.Month ++ layoutFormat t rest
  | '0' :: '2' :: rest => two t.Day ++ layoutFormat t rest
  | '1' :: '5' :: rest => two t.Hour ++ layoutFormat t rest
  | '0' :: '4' :: rest => two t.Minute ++ layoutFormat t rest
  | '0' :: '5' :: rest => two t.Second ++ layoutFormat t rest
  | c :: rest => c :: layoutFormat t rest
  | [] => []

/-- Go `filepath.Dir` of a clean path with a separator: the path without its last
element. -/
def dirOf (p : Bytes) : Bytes :=
  (p.reverse.dropWhile (fun c => c != '/')).drop 1 |>.reverse

/-- The library on clean relative names: `filepath.Join(a, b)` is `a/b`.  The bound on the
capacity of a channel is the one of the runtime on linux/amd64, where a string takes 16
bytes, an allocation is below `2^48` bytes and the header of a channel takes 96 bytes:
`(2^48 - 96) / 16`. -/
def goLib : Lib where
  Format := layoutFormat
  Join := fun a b => a ++ ['/'] ++ b
  Dir := dirOf
  maxChan := 17592186044410

example : goLib.maxChan = (2 ^ 48 - 96) / 16 := by decide

/-- The layout `2006-01-02-15.log`: one file an hour. -/
def hourly : Bytes := "2006-01-02-15.log".data

example : layoutFormat (Time.civil 2024 2 29 23 59 59) hourly = "2024-02-29-23.log".data := by
  decide
example : layoutFormat (Time.civil 2024 2 29 23 59 59) "2006-01/2006-01-02/2006-01-02-15.log".data
    = "2024-02/2024-02-29/2024-02-29-23.log".data := by decide
example : dirOf "/tmp/t/cat/2024-02-29-23.log".data = "/tmp/t/cat".data := by decide

/-! ## The operating system and `bufio` -/

/-- The outcome of one system call: success, or failure; a failed write has written its
first `n` bytes. -/
inductive CallRes where
  | ok
  | fail (n : Nat)
  deriving DecidableEq, Repr

/-- An `*os.File` obtained from `os.OpenFile(path, O_CREATE|O_WRONLY|O_APPEND, 0644)`:
`data` is what has been appended through it. -/
structure OSFile where
  path : Bytes
  data : Bytes
  closed : Bool
  deriving DecidableEq, Repr

/-- The operating system: the files opened so far, in the order of opening (an `*os.File`
is the index into this list), and the outcomes of the coming system calls (every call
succeeds once the list is used up). -/
structure World where
  files : List OSFile
  oracle : List CallRes
  deriving DecidableEq, Repr

/-- Take the outcome of the next system call. -/
def World.call (w : World) : CallRes × World :=
  match w.oracle with
  | [] => (CallRes.ok, w)
  | r :: rs => (r, { w with oracle := rs })

/-- No system call fails from now on. -/
def World.NoFailure (w : World) : Prop := ∀ r ∈ w.oracle, r = CallRes.ok

instance (w : World) : Decidable w.NoFailure := by
  unfold World.NoFailure; infer_instance

/-- Go `os.OpenFile` in append mode. -/
def os.OpenFile (w : World) (path : Bytes) : Except Error Nat × World :=
  match w.call with
  | (CallRes.ok, w1) =>
    (Except.ok w1.files.length, { w1 with files := w1.files ++ [⟨path, [], false⟩] })
  | (CallRes.fail _, w1) => (Except.error Error.os, w1)

/-- Go `func (f *File) Write(b []byte) (n int, err error)`; the Boolean is `err != nil`. -/
def os.File.Write (w : World) (fd : Nat) (b : Bytes) : Nat × Bool × World :=
  match w.files[fd]? with
  | none => (0, true, w)
  | some f =>
    if f.closed then (0, true, w)
    else
      match w.call with
      | (CallRes.ok, w1) =>
        (b.length, false, { w1 with files := w1.files.set fd { f with data := f.data ++ b } })
      | (CallRes.fail n, w1) =>
        (min n b.length, true,
          { w1 with files := w1.files.set fd { f with data := f.data ++ b.take n } })

/-- Go `func (f *File) Close() error`; the Boolean is `err != nil`. -/
def os.File.Close (w : World) (fd : Nat) : Bool × World :=
  match w.files[fd]? with
  | none => (true, w)
  | some f =>
    if f.closed then (true, w)
    else
      match w.call with
      | (r, w1) => (r != CallRes.ok, { w1 with files := w1.files.set fd { f with closed := true } })

/-- Go `bufio.Writer`: `wr` is the file it writes to, `buf` is `b.buf[0:b.n]`, `err` is
`b.err != nil`. -/
structure Writer where
  wr : Nat
  buf : Bytes
  err : Bool
  deriving DecidableEq, Repr

/-- The size of the buffer `bufio.NewWriter` allocates. -/
def defaultBufSize : Nat := 4096

/-- Go `bufio.NewWriter`. -/
def bufio.NewWriter (fd : Nat) : Writer := ⟨fd, [], false⟩

/-- Go `func (b *Writer) Available() int`. -/
def Writer.Available (b : Writer) : Nat := defaultBufSize - b.buf.length

/-- Go `func (b *Writer) Flush() error`. -/
def Writer.Flush (b : Writer) (w : World) : Writer × Bool × World :=
  if b.err then (b, true, w)
  else if b.buf.length = 0 then (b, false, w)
  else
    match os.File.Write w b.wr b.buf with
    | (n, e, w1) =>
      if e ∨ n < b.buf.length then ({ b with buf := b.buf.drop n, err := true }, true, w1)
      else ({ b with buf := [] }, false, w1)

/-- The loop of Go `func (b *Writer) WriteString(s string)`: while `s` does not fit, fill
the buffer and flush it.  `fuel` bounds the number of turns.  (A recent `bufio` hands a
string that does not fit to the file at once when the buffer is empty; the bytes reach the
file in the same order.) -/
def Writer.fill : Nat → Writer → Bytes → World → Writer × Bytes × World
  | 0, b, s, w => (b, s, w)
  | fuel + 1, b, s, w =>
    if s.length > b.Available ∧ b.err = false then
      let n := b.Available
      match Writer.Flush { b with buf := b.buf ++ s.take n } w with
      | (b1, _, w1) => Writer.fill fuel b1 (s.drop n) w1
    else (b, s, w)

/-- Go `func (b *Writer) WriteString(s string) (int, error)`; the Boolean is
`err != nil`. -/
def Writer.WriteString (b : Writer) (s : Bytes) (w : World) : Writer × Bool × World :=
  match Writer.fill (s.length + 1) b s w with
  | (b1, s1, w1) =>
    if b1.err then (b1, true, w1)
    else ({ b1 with buf := b1.buf ++ s1.take b1.Available }, false, w1)

/-! ## util.go : EnsureDir -/

/-- Go `func EnsureDir(dir string, mode os.FileMode) error`.  Whether the directory is
there or can be made is one outcome of the operating system. -/
def EnsureDir (w : World) (dir : Bytes) : Option Error × World :=
  match w.call with
  | (CallRes.ok, w1) => (none, w1)
  | (CallRes.fail _, w1) => (some (Error.createDir dir), w1)

/-! ## util.go : the address of the client -/

/-- Go `unicode.IsSpace`. -/
def isSpace (c : Char) : Bool :=
  c.toNat ∈ [9, 10, 11, 12, 13, 32, 133, 160, 5760, 8232, 8233, 8239, 8287, 12288] ||
    (8192 ≤ c.toNat && c.toNat ≤ 8202)

/-- Go `strings.TrimSpace`. -/
def TrimSpace (s : Bytes) : Bytes :=
  ((s.dropWhile isSpace).reverse.dropWhile isSpace).reverse

/-- Go `strings.Split(s, sep)` for a separator of one character: never empty. -/
def Split (sep : Char) : Bytes → List Bytes
  | [] => [[]]
  | c :: cs =>
    if c = sep then [] :: Split sep cs
    else
      match Split sep cs with
      | [] => [[c]]
      | x :: xs => (c :: x) :: xs

/-- Go `strings.IndexByte`. -/
def indexByte (c : Char) : Bytes → Option Nat
  | [] => none
  | d :: ds => if d = c then some 0 else (indexByte c ds).map (· + 1)

/-- Go `strings.LastIndexByte`. -/
def lastIndexByte (c : Char) (s : Bytes) : Option Nat :=
  (indexByte c s.reverse).map (fun i => s.length - 1 - i)

/-- Go `net.SplitHostPort`, the host part; `none` when it returns an error. -/
def SplitHostPort (hostport : Bytes) : Option Bytes :=
  match lastIndexByte ':' hostport with
  | none => none
  | some i =>
    if hostport.head? = some '[' then
      match indexByte ']' hostport with
      | none => none
      | some e =>
        if e + 1 = hostport.length then none
        else if e + 1 = i then
          if (indexByte '[' (hostport.drop 1)).isSome then none
          else if (indexByte ']' (hostport.drop (e + 1))).isSome then none
          else some ((hostport.take e).drop 1)
        else none
    else
      if (indexByte ':' (hostport.take i)).isSome then none
      else if (indexByte '[' hostport).isSome then none
      else if (indexByte ']' hostport).isSome then none
      else some (hostport.take i)

/-- Go `net.IP`: a list of 4 or 16 bytes, and the empty list for `nil`. -/
abbrev IP := List Nat

/-- Go `net.IPv4(a, b, c, d)`: the address in its 16-byte form. -/
def IPv4 (a b c d : Nat) : IP := [0, 0, 0, 0, 0, 0, 0, 0, 0, 0, 255, 255, a, b, c, d]

/-- The number written by decimal digits, most significant first. -/
def decimal (s : Bytes) : Nat := s.foldl (fun n c => 10 * n + (c.toNat - 48)) 0

/-- One field of a dotted address, as `parseIPv4` reads it: decimal digits, no leading
zero before another digit, at most 255. -/
def octet (s : Bytes) : Option Nat :=
  if s = [] then none
  else if ¬ s.all (fun c => 48 ≤ c.toNat && c.toNat ≤ 57) then none
  else if s.length > 1 ∧ s.head? = some '0' then none
  else if s.length > 3 then none
  else if decimal s > 255 then none
  else some (decimal s)

/-- The function `parseIPv4` of Go `net`: four fields separated by dots. -/
def parseIPv4 (s : Bytes) : IP :=
  match (Split '.' s).map octet with
  | [some a, some b, some c, some d] => IPv4 a b c d
  | _ => []

/-- Go `net.ParseIP`: the text is read as an IPv4 address when its first `.` comes before
any `:`, and as an IPv6 address, by `parseIPv6`, when a `:` comes first. -/
def ParseIP (parseIPv6 : Bytes → IP) (s : Bytes) : IP :=
  match s.find? (fun c => c = '.' || c = ':') with
  | some '.' => parseIPv4 s
  | some _ => parseIPv6 s
  | none => []

/-- Go `func (ip IP) To4() IP`. -/
def IP.To4 (ip : IP) : IP :=
  if ip.length = 4 then ip
  else if ip.length = 16 ∧ ip.take 10 = [0, 0, 0, 0, 0, 0, 0, 0, 0, 0] ∧
      (ip.drop 10).take 2 = [255, 255] then ip.drop 12
  else []

/-- Go `func (ip IP) Equal(x IP) bool`, for an `x` in 16-byte form. -/
def IP.Equal (ip x : IP) : Bool :=
  if ip.length = 4 then IPv4 (ip.getD 0 0) (ip.getD 1 0) (ip.getD 2 0) (ip.getD 3 0) = x
  else ip = x

/-- Go `func (ip IP) IsGlobalUnicast() bool`. -/
def IP.IsGlobalUnicast (ip : IP) : Bool :=
  (ip.length = 4 || ip.length = 16) &&
  !ip.Equal (IPv4 255 255 255 255) &&
  !(ip.Equal (IPv4 0 0 0 0) || ip.Equal (List.replicate 16 0)) &&
  !(if ip.To4 ≠ [] then ip.To4.getD 0 0 = 127
    else ip.Equal (List.replicate 15 0 ++ [1])) &&
  !(if ip.To4 ≠ [] then 224 ≤ ip.To4.getD 0 0 ∧ ip.To4.getD 0 0 < 240
    else ip.length = 16 ∧ ip.getD 0 0 = 255) &&
  !(if ip.To4 ≠ [] then ip.To4.getD 0 0 = 169 ∧ ip.To4.getD 1 0 = 254
    else ip.length = 16 ∧ ip.getD 0 0 = 254 ∧ 128 ≤ ip.getD 1 0 ∧ ip.getD 1 0 < 192)

/-- A byte in decimal. -/
def decByte (n : Nat) : Bytes :=
  if n < 10 then [digit n]
  else if n < 100 then [digit (n / 10), digit (n % 10)]
  else [digit (n / 100), digit (n / 10 % 10), digit (n % 10)]

/-- Go `func (ip IP) String() string` on the results of `To4`: `<nil>` for `nil`, the dotted
form for four bytes. -/
def IP.String (ip : IP) : Bytes :=
  match ip with
  | [a, b, c, d] => decByte a ++ ['.'] ++ decByte b ++ ['.'] ++ decByte c ++ ['.'] ++ decByte d
  | _ => "<nil>".data

/-- Go `func ParseIPTo4(s string) string`. -/
def ParseIPTo4 (parseIPv6 : Bytes → IP) (s : Bytes) : Bytes :=
  (ParseIP parseIPv6 (TrimSpace s)).To4.String

/-- Go `func IsValidateIP(s string) bool`. -/
def IsValidateIP (parseIPv6 : Bytes → IP) (s : Bytes) : Bool :=
  let ip := ParseIP parseIPv6 (TrimSpace s)
  if ip.IsGlobalUnicast then
    let ip4 := ip.To4
    if ip4 ≠ [] then
      if ip4.getD 0 0 = 10 then false
      else if ip4.getD 0 0 = 172 ∧ ip4.getD 1 0 ≥ 16 ∧ ip4.getD 1 0 ≤ 31 then false
      else if ip4.getD 0 0 = 192 ∧ ip4.getD 1 0 = 168 then false
      else true
    else false
  else false

/-- Go `*http.Request`, the part `GetRequestIP` reads: `RemoteAddr` and `Header.Get`. -/
structure Request where
  RemoteAddr : Bytes
  Header : Bytes → Bytes

/-- Go `var forwardList`. -/
def forwardList : List Bytes :=
  ["X-FORWARDED-FOR".data, "x-forwarded-for".data, "X-Forwarded-For".data]

/-- The variable `onlineip` of `GetRequestIP`. -/
def GetRequestIP.onlineip (parseIPv6 : Bytes → IP) (r : Request) : Bytes :=
  ParseIPTo4 parseIPv6
    (match SplitHostPort r.RemoteAddr with
      | some host => host
      | none => r.RemoteAddr)

/-- The variable `res` of `GetRequestIP`, trimmed: the first header of `forwardList` that is
not empty. -/
def GetRequestIP.res (r : Request) : Bytes :=
  TrimSpace (((forwardList.map r.Header).find? (fun v => v.length > 0)).getD [])

/-- The variable `forwards` of `GetRequestIP`. -/
def GetRequestIP.forwards (r : Request) : List Bytes :=
  if (GetRequestIP.res r).contains ',' then Split ',' (GetRequestIP.res r)
  else if (GetRequestIP.res r).contains ':' then Split ':' (GetRequestIP.res r)
  else [GetRequestIP.res r]

/-- Go `func GetRequestIP(r *http.Request) string`. -/
def GetRequestIP (parseIPv6 : Bytes → IP) (r : Request) : Bytes :=
  let onlineip := GetRequestIP.onlineip parseIPv6 r
  if GetRequestIP.res r = [] then onlineip
  else
    let forwards := GetRequestIP.forwards r
    if IsValidateIP parseIPv6 (forwards.headD []) then ParseIPTo4 parseIPv6 (forwards.headD [])
    else if onlineip ≠ [] ∧ IsValidateIP parseIPv6 onlineip then onlineip
    else
      match forwards.reverse.find? (IsValidateIP parseIPv6) with
      | some f => ParseIPTo4 parseIPv6 f
      | none => onlineip

/-- A request from `remote` with the header `X-Forwarded-For: xff`. -/
def request (remote xff : Bytes) : Request :=
  ⟨remote, fun k => if k ∈ forwardList then xff else []⟩

/-! ## mlog_file.go -/

/-- Go `chan string` made by `make(chan string, buffer)`. -/
structure Chan where
  queue : List Bytes
  cap : Nat
  closed : Bool
  deriving DecidableEq, Repr

/-- The goroutine started by `go mlogFile.write()`: not yet scheduled, in its loop,
returned, or stopped by `panic(err)`. -/
inductive Worker where
  | spawned
  | running
  | returned
  | panicked
  deriving DecidableEq, Repr

/-- Go `type MlogFile struct`.  `wg` is the counter of the `sync.WaitGroup`; the mutex
`mux` is not a field: every function that holds it is one step.  `worker` is the state of
the goroutine of this `MlogFile`. -/
structure MlogFile where
  wg : Nat
  bufWrite : Option Writer
  fd : Option Nat
  lastTime : Time
  msgChan : Chan
  dir : Bytes
  relPath : Bytes
  worker : Worker
  deriving DecidableEq, Repr

/-- A `MlogFile` together with the operating system it runs on. -/
structure Sys where
  m : MlogFile
  w : World
  deriving DecidableEq, Repr

/-- How a call ends: it returns, it blocks, or the program panics. -/
inductive Outcome (α : Type) where
  | ret (a : α)
  | blocked
  | panic
  deriving DecidableEq, Repr

/-- The line feed `"\n"`. -/
def newline : Bytes := [Char.ofNat 10]

/-- The object that `NewMlogFile` returns once `make` has returned a channel of capacity
`cap`: the fields `dir`, `relPath` and `msgChan` are set, the others have their zero value,
`wg.Add(1)` has run and the goroutine `write` is started. -/
def NewMlogFile.object (dir relPath : Bytes) (cap : Nat) : MlogFile :=
  { wg := 1, bufWrite := none, fd := none, lastTime := Time.zero,
    msgChan := ⟨[], cap, false⟩, dir := dir, relPath := relPath,
    worker := Worker.spawned }

/-- Go `func NewMlogFile(dir, relPath string, buffer int) *MlogFile`.  The call
`make(chan string, buffer)` panics when `buffer` is more than `L.maxChan`; nothing of the
object exists then. -/
def NewMlogFile (L : Lib) (dir relPath : Bytes) (buffer : Int) : Outcome MlogFile :=
  let buffer := if buffer ≤ 0 then 100 else buffer
  if buffer.toNat ≤ L.maxChan then Outcome.ret (NewMlogFile.object dir relPath buffer.toNat)
  else Outcome.panic

example : NewMlogFile goLib "logs/cat".data hourly 0 =
    Outcome.ret (NewMlogFile.object "logs/cat".data hourly 100) := by decide
example : NewMlogFile goLib "logs/cat".data hourly (-3) =
    Outcome.ret (NewMlogFile.object "logs/cat".data hourly 100) := by decide
example : NewMlogFile goLib "logs/cat".data hourly 7 =
    Outcome.ret (NewMlogFile.object "logs/cat".data hourly 7) := by decide
example : NewMlogFile goLib "logs/cat".data hourly 4611686018427387904 = Outcome.panic := by
  decide

/-- Go `func (m *MlogFile) Write(msg string)`: the send `m.msgChan <- msg`. -/
def MlogFile.Write (m : MlogFile) (msg : Bytes) : Outcome MlogFile :=
  if m.msgChan.closed then Outcome.panic
  else if m.msgChan.queue.length ≥ m.msgChan.cap then Outcome.blocked
  else Outcome.ret { m with msgChan := { m.msgChan with queue := m.msgChan.queue ++ [msg] } }

/-- Go `func (m *MlogFile) makeFile(t time.Time) (fd *os.File, err error)`. -/
def MlogFile.makeFile (L : Lib) (m : MlogFile) (w : World) (t : Time) :
    Except Error Nat × World :=
  let relPath := L.Format t m.relPath
  let absPath := L.Join m.dir relPath
  match EnsureDir w (L.Dir absPath) with
  | (some err, w1) => (Except.error err, w1)
  | (none, w1) => os.OpenFile w1 absPath

/-- The test of `checkFile`: a new file is due. -/
def MlogFile.due (m : MlogFile) (now : Time) : Prop :=
  m.fd = none ∨ now.Hour ≠ m.lastTime.Hour ∨ now.Sub m.lastTime > time.Hour * 1

instance (m : MlogFile) (now : Time) : Decidable (m.due now) := by
  unfold MlogFile.due; infer_instance

/-- Go `func (m *MlogFile) checkFile() (err error)`; `now` is the value of
`time.Now()`. -/
def MlogFile.checkFile (L : Lib) (m : MlogFile) (w : World) (now : Time) :
    MlogFile × Option Error × World :=
  if m.due now then
    match m.makeFile L w now with
    | (Except.error err, w1) => (m, some err, w1)
    | (Except.ok fd, w1) =>
      let w2 := match m.bufWrite with
        | some b => (b.Flush w1).2.2
        | none => w1
      let w3 := match m.fd with
        | some old => (os.File.Close w2 old).2
        | none => w2
      ({ m with fd := some fd, bufWrite := some (bufio.NewWriter fd), lastTime := now },
        none, w3)
  else (m, none, w)

/-- Go `func (m *MlogFile) writeString(s string) (err error)`. -/
def MlogFile.writeString (m : MlogFile) (s : Bytes) (w : World) :
    MlogFile × Bool × World :=
  match m.bufWrite with
  | some b =>
    match b.WriteString s w with
    | (b1, e, w1) => ({ m with bufWrite := some b1 }, e, w1)
  | none => (m, false, w)

/-- Go `func (m *MlogFile) Flush()`. -/
def MlogFile.Flush (m : MlogFile) (w : World) : MlogFile × World :=
  match m.bufWrite with
  | some b =>
    match b.Flush w with
    | (b1, _, w1) => ({ m with bufWrite := some b1 }, w1)
  | none => (m, w)

/-- What the `select` of the worker loop takes: a tick of the one-second ticker, read at
`now`, or a receive on `msgChan`. -/
inductive Event where
  | tick (now : Time)
  | recv
  deriving DecidableEq, Repr

/-- The deferred calls of `func (m *MlogFile) write()`, run when it returns or panics:
`m.Flush()`, then `m.wg.Done()`. -/
def MlogFile.write.deferred (s : Sys) (final : Worker) : Sys :=
  match s.m.Flush s.w with
  | (m1, w1) => ⟨{ m1 with wg := m1.wg - 1, worker := final }, w1⟩

/-- The first statements of `func (m *MlogFile) write()`, up to the loop: `checkFile`, and
`panic(err)` when it fails. -/
def MlogFile.write.enter (L : Lib) (s : Sys) (now : Time) : Sys :=
  if s.m.worker = Worker.spawned then
    match s.m.checkFile L s.w now with
    | (m1, some _, w1) => MlogFile.write.deferred ⟨m1, w1⟩ Worker.panicked
    | (m1, none, w1) => ⟨{ m1 with worker := Worker.running }, w1⟩
  else s

/-- One turn of the `for { select { ... } }` loop of `func (m *MlogFile) write()`.  A
receive on an empty channel that is not closed is not ready: the state stays. -/
def MlogFile.write.turn (L : Lib) (s : Sys) (e : Event) : Sys :=
  if s.m.worker = Worker.running then
    match e with
    | Event.tick now =>
      match s.m.Flush s.w with
      | (m1, w1) =>
        match m1.checkFile L w1 now with
        | (m2, _, w2) => ⟨m2, w2⟩
    | Event.recv =>
      match s.m.msgChan.queue with
      | msg :: rest =>
        let m1 := { s.m with msgChan := { s.m.msgChan with queue := rest } }
        match m1.writeString (msg ++ newline) s.w with
        | (m2, _, w2) => ⟨m2, w2⟩
      | [] =>
        if s.m.msgChan.closed then MlogFile.write.deferred s Worker.returned
        else s
  else s

/-- Go `func (m *MlogFile) write()`, as far as the events `es` take it: the first
statements at `t0`, then one turn of the loop for each event. -/
def MlogFile.write (L : Lib) (s : Sys) (t0 : Time) (es : List Event) : Sys :=
  es.foldl (MlogFile.write.turn L) (MlogFile.write.enter L s t0)

/-- The worker takes the ticks read at `ts`, one after the other. -/
def MlogFile.write.ticks (L : Lib) (s : Sys) (ts : List Time) : Sys :=
  ts.foldl (fun s t => MlogFile.write.turn L s (Event.tick t)) s

/-- The worker on a closed channel that holds `n` messages: before its `k`-th receive it
takes the ticks read at `sched k`; the receive number `n` finds the channel empty. -/
def MlogFile.write.drain (L : Lib) : Nat → Sys → (Nat → List Time) → Sys
  | 0, s, sched => MlogFile.write.turn L (MlogFile.write.ticks L s (sched 0)) Event.recv
  | n + 1, s, sched =>
    MlogFile.write.drain L n
      (MlogFile.write.turn L (MlogFile.write.ticks L s (sched 0)) Event.recv)
      (fun k => sched (k + 1))

/-- The first two statements of Go `func (m *MlogFile) Close() error` on an open channel:
`close(m.msgChan)`, then `m.wg.Wait()`, which lets the worker run to its end: it enters its
loop at `t0` if it has not yet, and drains the channel under the tick schedule `sched`. -/
def MlogFile.Close.wait (L : Lib) (s : Sys) (t0 : Time) (sched : Nat → List Time) : Sys :=
  let s1 : Sys := ⟨{ s.m with msgChan := { s.m.msgChan with closed := true } }, s.w⟩
  let s2 := MlogFile.write.enter L s1 t0
  if s2.m.wg = 0 then s2
  else MlogFile.write.drain L s2.m.msgChan.queue.length s2 sched

/-- Go `func (m *MlogFile) Close() error`.  `close(m.msgChan)` panics on a closed channel;
a worker stopped by `panic` has stopped the program.  The result is the error of
`m.fd.Close()`. -/
def MlogFile.Close (L : Lib) (s : Sys) (t0 : Time) (sched : Nat → List Time) :
    Outcome (Bool × Sys) :=
  if s.m.msgChan.closed then Outcome.panic
  else
    let s3 := MlogFile.Close.wait L s t0 sched
    if s3.m.worker = Worker.panicked then Outcome.panic
    else
      match s3.m.Flush s3.w with
      | (m4, w4) =>
        match m4.fd with
        | some fd =>
          match os.File.Close w4 fd with
          | (e, w5) => Outcome.ret (e, ⟨m4, w5⟩)
        | none => Outcome.ret (false, ⟨m4, w4⟩)

/-- What happens to one `MlogFile` between its creation and its `Close`: a caller sends a
message, a caller flushes, the worker enters its loop, the worker takes an event. -/
inductive Action where
  | Write (msg : Bytes)
  | Flush
  | enter (now : Time)
  | turn (e : Event)
  deriving DecidableEq, Repr

/-- One action; `none` when it cannot happen in this state (a send on a full channel
waits, a send on a closed channel panics). -/
def Sys.step (L : Lib) (s : Sys) : Action → Option Sys
  | Action.Write msg =>
    match s.m.Write msg with
    | Outcome.ret m1 => some ⟨m1, s.w⟩
    | _ => none
  | Action.Flush =>
    match s.m.Flush s.w with
    | (m1, w1) => some ⟨m1, w1⟩
  | Action.enter now => some (MlogFile.write.enter L s now)
  | Action.turn e => some (MlogFile.write.turn L s e)

/-- A sequence of actions, in order. -/
def Sys.run (L : Lib) : Sys → List Action → Option Sys
  | s, [] => some s
  | s, a :: as =>
    match s.step L a with
    | some s1 => Sys.run L s1 as
    | none => none

/-- The messages sent by a sequence of actions. -/
def sent : List Action → List Bytes
  | [] => []
  | Action.Write msg :: as => msg :: sent as
  | _ :: as => sent as

/-- The lines of a list of messages: each message followed by one line feed. -/
def lines (msgs : List Bytes) : Bytes := (msgs.map (fun m => m ++ newline)).flatten

/-- All the bytes appended to the files opened after the first `k`, in the order of
opening. -/
def World.appended (w : World) (k : Nat) : Bytes := ((w.files.drop k).map OSFile.data).flatten

/-! ## mlog.go -/

/-- Go `type Mlog struct`: the configuration and the map `logFile` from a directory to its
`*MlogFile`, a pointer being an index into the objects of the program.  The read-write
lock `mux` is not a field: what runs under it is one step, and `Mlog.write`, `Mlog.Flush`
and `Mlog.Close` are the calls that get the lock; the state of the lock between the calls
is `Mux`, and the calls from their first statement are `Mlog.write.call` and
`Mlog.Flush.call`. -/
structure Mlog where
  logCfg : LogConfig
  logFile : List (Bytes × Nat)
  deriving DecidableEq, Repr

/-- A program that uses one `Mlog`: the `Mlog`, the `MlogFile` objects allocated so far and
the operating system. -/
structure Prog where
  mlog : Mlog
  heap : List MlogFile
  w : World
  deriving DecidableEq, Repr

/-- Go `func NewMlog(logCfg *LogConfig) *Mlog`. -/
def NewMlog (logCfg : LogConfig) : Mlog := ⟨logCfg, []⟩

/-- The part of Go `func (m *Mlog) write(relPath, msg string)` between `m.mux.Lock()` and
`m.mux.Unlock()`: the map is read and, on a miss, extended with a new `MlogFile`.  The
result is the program and the pointer `logFile`; when `NewMlogFile` panics the map has not
been assigned. -/
def Mlog.write.locked (L : Lib) (P : Prog) (relPath : Bytes) : Outcome (Prog × Nat) :=
  let msgDir := L.Join P.mlog.logCfg.Dir relPath
  match P.mlog.logFile.lookup msgDir with
  | some ptr => Outcome.ret (P, ptr)
  | none =>
    match NewMlogFile L msgDir P.mlog.logCfg.SubRelPath P.mlog.logCfg.Buffer with
    | Outcome.ret logFile =>
      Outcome.ret
        ({ P with
            mlog := { P.mlog with logFile := P.mlog.logFile ++ [(msgDir, P.heap.length)] },
            heap := P.heap ++ [logFile] },
          P.heap.length)
    | _ => Outcome.panic

/-- Go `func (m *Mlog) write(relPath, msg string)`, for a call that gets the lock.  The
first component is the program after the locked part; the second one is the end of the
call: the end of the send `logFile.Write(msg)` that follows the locked part, or the panic
of `NewMlogFile` inside it. -/
def Mlog.write (L : Lib) (P : Prog) (relPath msg : Bytes) : Prog × Outcome Unit :=
  match Mlog.write.locked L P relPath with
  | Outcome.ret r =>
    match r.1.heap[r.2]? with
    | none => (r.1, Outcome.panic)
    | some f =>
      match f.Write msg with
      | Outcome.ret f1 => ({ r.1 with heap := r.1.heap.set r.2 f1 }, Outcome.ret ())
      | Outcome.blocked => (r.1, Outcome.blocked)
      | Outcome.panic => (r.1, Outcome.panic)
  | _ => (P, Outcome.panic)

/-- The loop of Go `func (m *Mlog) Flush()` over the entries of the map. -/
def Mlog.Flush.loop : List (Bytes × Nat) → Prog → Prog
  | [], P => P
  | (_, ptr) :: rest, P =>
    match P.heap[ptr]? with
    | none => Mlog.Flush.loop rest P
    | some f =>
      match f.Flush P.w with
      | (f1, w1) => Mlog.Flush.loop rest { P with heap := P.heap.set ptr f1, w := w1 }

/-- Go `func (m *Mlog) Flush()`. -/
def Mlog.Flush (P : Prog) : Prog := Mlog.Flush.loop P.mlog.logFile P

/-- The loop of Go `func (m *Mlog) Close()` over the entries of the map: `Flush`, then
`Close`, of each `MlogFile`; `env k` is the instant and the tick schedule given to the
worker of the entry number `k`.  The Boolean tells that the program has panicked. -/
def Mlog.Close.loop (L : Lib) :
    List (Bytes × Nat) → Prog → (Nat → Time × (Nat → List Time)) → Prog × Bool
  | [], P, _ => (P, false)
  | (_, ptr) :: rest, P, env =>
    match P.heap[ptr]? with
    | none => (P, true)
    | some f =>
      match f.Flush P.w with
      | (f1, w1) =>
        match MlogFile.Close L ⟨f1, w1⟩ (env 0).1 (env 0).2 with
        | Outcome.ret (_, s2) =>
          Mlog.Close.loop L rest { P with heap := P.heap.set ptr s2.m, w := s2.w }
            (fun k => env (k + 1))
        | _ => ({ P with heap := P.heap.set ptr f1, w := w1 }, true)

/-- Go `func (m *Mlog) Close()`. -/
def Mlog.Close (L : Lib) (P : Prog) (env : Nat → Time × (Nat → List Time)) : Prog × Bool :=
  Mlog.Close.loop L P.mlog.logFile P env

/-- The lock `mux` of an `Mlog` between two calls.  A call that returns has released the
lock, so the lock is held between two calls only by a call that panicked while it held
it: `write` calls `NewMlogFile` between `m.mux.Lock()` and `m.mux.Unlock()` and `Close`
calls `mlogFile.Close()` between `m.mux.RLock()` and `m.mux.RUnlock()`, both without
`defer`.  `writeHeld`: a `write` has panicked in its locked part.  `readHeld pending`: a
`Close` has panicked in its loop; `pending` tells that a later `write` waits in `Lock`. -/
inductive Mux where
  | free
  | writeHeld
  | readHeld (pending : Bool)
  deriving DecidableEq, Repr

/-- A call of `write` from its first statement.  `m.mux.Lock()` waits while the lock is
held, for ever when the holder has panicked; a waiting `Lock` keeps later `RLock`s out. -/
def Mlog.write.call (L : Lib) (S : Prog × Mux) (relPath msg : Bytes) :
    (Prog × Mux) × Outcome Unit :=
  match S.2 with
  | Mux.free =>
    match Mlog.write.locked L S.1 relPath with
    | Outcome.ret _ =>
      (((Mlog.write L S.1 relPath msg).1, Mux.free), (Mlog.write L S.1 relPath msg).2)
    | _ => ((S.1, Mux.writeHeld), Outcome.panic)
  | Mux.writeHeld => (S, Outcome.blocked)
  | Mux.readHeld _ => ((S.1, Mux.readHeld true), Outcome.blocked)

/-- A call of `Flush` from its first statement.  `m.mux.RLock()` waits while a writer holds
the lock or waits for it. -/
def Mlog.Flush.call (S : Prog × Mux) : (Prog × Mux) × Outcome Unit :=
  match S.2 with
  | Mux.free => ((Mlog.Flush S.1, Mux.free), Outcome.ret ())
  | Mux.readHeld false => ((Mlog.Flush S.1, Mux.readHeld false), Outcome.ret ())
  | _ => (S, Outcome.blocked)

/-- What a program does with its `Mlog` before it closes it: a call of `write`, a call of
`Flush`, or an action on one of the `MlogFile` objects (of its worker, mostly). -/
inductive Op where
  | write (relPath msg : Bytes)
  | Flush
  | file (ptr : Nat) (a : Action)
  deriving DecidableEq, Repr

/-- One operation on the program and the lock of its `Mlog`.  A call that waits or panics
leaves the state it has reached. -/
def Prog.step (L : Lib) (S : Prog × Mux) : Op → Prog × Mux
  | Op.write relPath msg => (Mlog.write.call L S relPath msg).1
  | Op.Flush => (Mlog.Flush.call S).1
  | Op.file ptr a =>
    match S.1.heap[ptr]? with
    | none => S
    | some f =>
      match Sys.step L ⟨f, S.1.w⟩ a with
      | none => S
      | some s => ({ S.1 with heap := S.1.heap.set ptr s.m, w := s.w }, S.2)

def Prog.run (L : Lib) (S : Prog × Mux) (ops : List Op) : Prog × Mux :=
  ops.foldl (Prog.step L) S

/-- The operation is a call of `write` or of `Flush`. -/
def Op.isCall : Op → Bool
  | Op.file _ _ => false
  | _ => true

/-- The number of entries of the map under the key `k`. -/
def Mlog.entries (m : Mlog) (k : Bytes) : Nat := (m.logFile.filter (fun e => e.1 = k)).length

/-- A program with the default configuration and the destinations `access/web` and
`error/web`, both open at 10 o'clock: the first one holds `x` in its buffer. -/
def twoFiles : Prog :=
  let cfg : LogConfig :=
    ⟨"logs".data, 100, hourly, "info", "111.111.111.111".data⟩
  ⟨⟨cfg, [("logs/access/web".data, 0), ("logs/error/web".data, 1)]⟩,
   [{ wg := 1, bufWrite := some ⟨0, "x\n".data, false⟩, fd := some 0,
      lastTime := Time.civil 2024 1 1 10 0 0, msgChan := ⟨[], 100, false⟩,
      dir := "logs/access/web".data, relPath := hourly, worker := Worker.running },
    { wg := 1, bufWrite := some ⟨1, [], false⟩, fd := some 1,
      lastTime := Time.civil 2024 1 1 10 0 0, msgChan := ⟨["e".data], 100, false⟩,
      dir := "logs/error/web".data, relPath := hourly, worker := Worker.running }],
   ⟨[⟨"logs/access/web/2024-01-01-10.log".data, [], false⟩,
     ⟨"logs/error/web/2024-01-01-10.log".data, [], false⟩], []⟩⟩

/-- A program with no destination yet, whose configuration asks for channels of capacity
`2^62`. -/
def hugeBuffer : Prog :=
  ⟨NewMlog ⟨"logs".data, 4611686018427387904, hourly, "info", "111.111.111.111".data⟩, [],
   ⟨[], []⟩⟩

/-! ## The files of one destination, as the worker leaves them -/

/-- What a sound worker has written: the files it has closed (path and content, in the
order of opening), the time of its last rotation, and the path and the content of the file
it has open, the bytes still in the buffer included. -/
structure Ghost where
  hist : List (Bytes × Bytes)
  last : Time
  p : Bytes
  cur : Bytes
  deriving DecidableEq, Repr

/-- The effect of a tick read at `now`: a new file when the hour of the day has changed or
more than an hour has passed. -/
def Ghost.tick (L : Lib) (dir relPath : Bytes) (γ : Ghost) (now : Time) : Ghost :=
  if now.Hour ≠ γ.last.Hour ∨ now.Sub γ.last > time.Hour * 1 then
    ⟨γ.hist ++ [(γ.p, γ.cur)], now, L.Join dir (L.Format now relPath), []⟩
  else γ

/-- The effect of the receipt of `msg`: its line goes to the open file. -/
def Ghost.recv (γ : Ghost) (msg : Bytes) : Ghost :=
  { γ with cur := γ.cur ++ (msg ++ newline) }

def Ghost.ticks (L : Lib) (dir relPath : Bytes) (γ : Ghost) (ts : List Time) : Ghost :=
  ts.foldl (Ghost.tick L dir relPath) γ

/-- The effect of draining the queue under a tick schedule. -/
def Ghost.drain (L : Lib) (dir relPath : Bytes) : Ghost → List Bytes → (Nat → List Time) → Ghost
  | γ, [], sched => Ghost.ticks L dir relPath γ (sched 0)
  | γ, msg :: rest, sched =>
    Ghost.drain L dir relPath ((Ghost.ticks L dir relPath γ (sched 0)).recv msg) rest
      (fun k => sched (k + 1))

/-- All the bytes of the destination, in the order of the files. -/
def Ghost.total (γ : Ghost) : Bytes := (γ.hist.map Prod.snd).flatten ++ γ.cur

/-- A file that has been closed. -/
def closedFile (q : Bytes × Bytes) : OSFile := ⟨q.1, q.2, true⟩

/-- The worker of `s` runs, nothing has failed nor will, and the files opened after `base`
are those of `γ`: the closed ones, then the open one, whose content is `γ.cur` less what
is still in the buffer. -/
def Sound (base : List OSFile) (s : Sys) (γ : Ghost) : Prop :=
  s.m.worker = Worker.running ∧ s.m.wg = 1 ∧ s.w.NoFailure ∧ s.m.lastTime = γ.last ∧
  ∃ data b, s.w.files = base ++ γ.hist.map closedFile ++ [⟨γ.p, data, false⟩] ∧
    s.m.fd = some (base.length + γ.hist.length) ∧ s.m.bufWrite = some b ∧
    b.wr = base.length + γ.hist.length ∧ b.err = false ∧ data ++ b.buf = γ.cur ∧
    b.buf.length ≤ defaultBufSize

/-- The worker of `s` has returned, nothing has failed nor will, the buffer is empty and
the files opened after `base` are those of `γ`, the last one still open. -/
def Done (base : List OSFile) (s : Sys) (γ : Ghost) : Prop :=
  s.m.worker = Worker.returned ∧ s.m.wg = 0 ∧ s.w.NoFailure ∧ s.m.lastTime = γ.last ∧
  s.w.files = base ++ γ.hist.map closedFile ++ [⟨γ.p, γ.cur, false⟩] ∧
  s.m.fd = some (base.length + γ.hist.length) ∧
  s.m.bufWrite = some ⟨base.length + γ.hist.length, [], false⟩

/-- The messages of the groups `G`, then those of `g`. -/
def written (G : List (Time × List Bytes)) (g : List Bytes) : List Bytes :=
  (G.map Prod.snd).flatten ++ g

/-- The ghost is made of whole lines: the closed files hold the lines of the groups of `G`,
each under the name the layout gives at the time of the group, and the open file, named at
the time of the last rotation, holds the lines of `g`. -/
def Grouped (L : Lib) (dir relPath : Bytes) (γ : Ghost) (G : List (Time × List Bytes))
    (g : List Bytes) : Prop :=
  γ.hist = G.map (fun q => (L.Join dir (L.Format q.1 relPath), lines q.2)) ∧
  γ.p = L.Join dir (L.Format γ.last relPath) ∧ γ.cur = lines g

/-- The abstract destination: the ghost of its worker (`none` until the worker has
entered its loop) and the messages waiting in the channel. -/
structure Abs where
  ghost : Option Ghost
  queue : List Bytes
  deriving DecidableEq, Repr

/-- The ghost of a worker that enters its loop at `now`. -/
def Ghost.init (L : Lib) (dir relPath : Bytes) (now : Time) : Ghost :=
  ⟨[], now, L.Join dir (L.Format now relPath), []⟩

/-- The effect of one action on the abstract destination. -/
def Abs.step (L : Lib) (dir relPath : Bytes) (α : Abs) : Action → Abs
  | Action.Write msg => { α with queue := α.queue ++ [msg] }
  | Action.Flush => α
  | Action.enter now =>
    match α.ghost with
    | none => { α with ghost := some (Ghost.init L dir relPath now) }
    | some _ => α
  | Action.turn (Event.tick now) =>
    match α.ghost with
    | none => α
    | some γ => { α with ghost := some (γ.tick L dir relPath now) }
  | Action.turn Event.recv =>
    match α.ghost, α.queue with
    | some γ, msg :: rest => ⟨some (γ.recv msg), rest⟩
    | _, _ => α

def Abs.run (L : Lib) (dir relPath : Bytes) (α : Abs) (acts : List Action) : Abs :=
  acts.foldl (Abs.step L dir relPath) α

/-- The ghost once `Close` has returned: the worker enters its loop at `t0` if it has not
yet, and drains the channel. -/
def Abs.close (L : Lib) (dir relPath : Bytes) (α : Abs) (t0 : Time)
    (sched : Nat → List Time) : Ghost :=
  (match α.ghost with
    | none => Ghost.init L dir relPath t0
    | some γ => γ).drain L dir relPath α.queue sched

/-- The files of a ghost once the last one is closed. -/
def Ghost.files (γ : Ghost) : List OSFile := (γ.hist ++ [(γ.p, γ.cur)]).map closedFile

/-- The state `s` of a `MlogFile` made by `NewMlogFile dir relPath` on the files `base`,
before `Close` and with no failure, is the abstract destination `α`. -/
def Rep (dir relPath : Bytes) (base : List OSFile) (s : Sys) (α : Abs) : Prop :=
  s.m.dir = dir ∧ s.m.relPath = relPath ∧ s.m.msgChan.closed = false ∧
  s.m.msgChan.queue = α.queue ∧
  ((α.ghost = none ∧ s.m.worker = Worker.spawned ∧ s.m.wg = 1 ∧ s.m.fd = none ∧
      s.m.bufWrite = none ∧ s.w.files = base ∧ s.w.NoFailure) ∨
    (∃ γ, α.ghost = some γ ∧ Sound base s γ))

/-- The abstract destination is made of whole lines, those of the messages `msgs`: written
group by group, then waiting. -/
def Abs.Whole (L : Lib) (dir relPath : Bytes) (α : Abs) (msgs : List Bytes) : Prop :=
  match α.ghost with
  | none => α.queue = msgs
  | some γ => ∃ G g, Grouped L dir relPath γ G g ∧ written G g ++ α.queue = msgs

/-- The closed file of a group of messages: named by the layout at the time of the group,
it holds their lines. -/
def fileOf (L : Lib) (dir relPath : Bytes) (q : Time × List Bytes) : OSFile :=
  ⟨L.Join dir (L.Format q.1 relPath), lines q.2, true⟩

/-- The writer of `m` has nothing to write: there is none, or it is empty, or it has met an
error. -/
def MlogFile.quiet (m : MlogFile) : Prop :=
  ∀ b, m.bufWrite = some b → b.err = true ∨ b.buf = []

/-- The world `w1` comes after `w`: outcomes were consumed, files were added. -/
def World.after (w1 w : World) : Prop :=
  w1.oracle.length ≤ w.oracle.length ∧ w.files.length ≤ w1.files.length

/-! ## Example states -/

/-- A value of `time.Now()`: the clock face is that of `wall`, the zone is `offset`
nanoseconds east of UTC, and the monotonic clock reads `mono` nanoseconds. -/
def Time.reading (wall : Time) (offset mono : Int) : Time :=
  ⟨wall.ns - offset, offset, some mono⟩

example : ((Time.civil 2024 11 3 1 30 0).reading (-18000000000000) 7).Hour = 1 := by decide
example : ((Time.civil 2024 11 3 1 30 0).reading (-18000000000000) 7).unix =
    (Time.civil 2024 11 3 6 30 0).unix := by decide

/-- A destination `logs/cat` with the hourly layout whose worker runs with the file of
`last` open (handle 0) and an empty buffer. -/
def openAt (last : Time) : Sys :=
  ⟨{ wg := 1, bufWrite := some ⟨0, [], false⟩, fd := some 0, lastTime := last,
     msgChan := ⟨[], 100, false⟩, dir := "logs/cat".data, relPath := hourly,
     worker := Worker.running },
   ⟨[⟨goLib.Join "logs/cat".data (goLib.Format last hourly), [], false⟩], []⟩⟩

/-- The hour from 01:00 to 02:00 comes twice when summer time ends: the file was opened
at 01:29 at four hours west of UTC, and 61 minutes later the clock face shows 01:30 at five
hours west.  The hour of the day is the same and `Sub` gives 61 minutes: a rotation is
due. -/
example : (openAt ((Time.civil 2024 11 3 1 29 0).reading (-14400000000000) 0)).m.due
    ((Time.civil 2024 11 3 1 30 0).reading (-18000000000000) 3660000000000) := by decide

/-- The machine sleeps for a day, during which its monotonic clock stands still: the clock
face shows the same hour of the next day and `Sub` gives one second: no rotation is due. -/
example : ¬ (openAt ((Time.civil 2024 1 1 10 30 0).reading 0 5000000000)).m.due
    ((Time.civil 2024 1 2 10 30 1).reading 0 6000000000) := by decide

/-- The state `openAt last` with the messages `q` waiting in the channel. -/
def queued (last : Time) (q : List Bytes) : Sys :=
  ⟨{ (openAt last).m with msgChan := ⟨q, 100, false⟩ }, (openAt last).w⟩

example : MlogFile.Close goLib (queued (Time.civil 2024 1 1 10 0 0) ["a".data, "b".data])
    (Time.civil 2024 1 1 10 0 1) (fun _ => []) =
    Outcome.ret (false,
      ⟨{ (openAt (Time.civil 2024 1 1 10 0 0)).m with
          msgChan := ⟨[], 100, true⟩, wg := 0, worker := Worker.returned },
       ⟨[⟨"logs/cat/2024-01-01-10.log".data, "a\nb\n".data, true⟩], []⟩⟩) := by
  decide

/-- A run of the destination `logs/cat`: `a` is sent before the worker starts at 10:59:58,
`b` is sent and the tick of 11:00:00 is taken before `b` is received, `c` is sent last. -/
def demoActs : List Action :=
  [Action.Write "a".data, Action.enter (Time.civil 2024 1 1 10 59 58), Action.turn Event.recv,
   Action.Write "b".data, Action.turn (Event.tick (Time.civil 2024 1 1 11 0 0)), Action.Flush,
   Action.turn Event.recv, Action.Write "c".data]

/-- The state after `demoActs`. -/
def demoState : Sys :=
  ⟨⟨1, some ⟨1, "b\n".data, false⟩, some 1, Time.civil 2024 1 1 11 0 0,
    ⟨["c".data], 2, false⟩, "logs/cat".data, hourly, Worker.running⟩,
   ⟨[⟨"logs/cat/2024-01-01-10.log".data, "a\n".data, true⟩,
     ⟨"logs/cat/2024-01-01-11.log".data, [], false⟩], []⟩⟩

example : Sys.run goLib ⟨NewMlogFile.object "logs/cat".data hourly 2, ⟨[], []⟩⟩ demoActs =
    some demoState := by decide

/-- The state `queued last q` on an operating system whose next call fails. -/
def failing (last : Time) (q : List Bytes) : Sys :=
  ⟨(queued last q).m, { (queued last q).w with oracle := [CallRes.fail 0] }⟩

/-- A destination just made, with `a` already sent, on an operating system whose next call
fails. -/
def failingNew : Sys :=
  ⟨{ NewMlogFile.object "logs/cat".data hourly 100 with
      msgChan := ⟨["a".data], 100, false⟩ },
   ⟨[], [CallRes.fail 0]⟩⟩

/-- An action with the instant at which it happens. -/
structure Stamped where
  time : Time
  act : Action
  deriving DecidableEq, Repr

/-- The start of the worker and a tick read the clock at the instant they happen; the other
actions do not read it. -/
def Stamped.reads (x : Stamped) : Bool :=
  match x.act with
  | Action.enter now => now = x.time
  | Action.turn (Event.tick now) => now = x.time
  | _ => true

/-- The instants of a trace do not decrease, and its actions read the clock when they
happen. -/
def wellTimed : List Stamped → Bool
  | [] => true
  | [x] => x.reads
  | x :: y :: rest => x.reads && decide (x.time.unix ≤ y.time.unix) && wellTimed (y :: rest)

/-- The instant `ms` milliseconds after `t`, read from the same clocks in the same zone. -/
def Time.plus (t : Time) (ms : Int) : Time :=
  { t with unix := t.unix + ms * 1000000, mono := t.mono.map (fun a => a + ms * 1000000) }

/-- The worker of `logs/cat` starts at 10:59:59.2, so that its ticker first fires at
11:00:00.2; it receives `a` at 10:59:59.5 and `b` at 11:00:00.1. -/
def lateTrace : List Stamped :=
  [⟨(Time.civil 2024 1 1 10 59 59).plus 200,
      Action.enter ((Time.civil 2024 1 1 10 59 59).plus 200)⟩,
   ⟨(Time.civil 2024 1 1 10 59 59).plus 300, Action.Write "a".data⟩,
   ⟨(Time.civil 2024 1 1 10 59 59).plus 500, Action.turn Event.recv⟩,
   ⟨(Time.civil 2024 1 1 11 0 0).plus 50, Action.Write "b".data⟩,
   ⟨(Time.civil 2024 1 1 11 0 0).plus 100, Action.turn Event.recv⟩]

/-- The state after `lateTrace`. -/
def lateState : Sys :=
  ⟨⟨1, some ⟨0, "a\nb\n".data, false⟩, some 0, (Time.civil 2024 1 1 10 59 59).plus 200,
    ⟨[], 100, false⟩, "logs/cat".data, hourly, Worker.running⟩,
   ⟨[⟨"logs/cat/2024-01-01-10.log".data, [], false⟩], []⟩⟩

/-- The worker of `logs/cat` starts at 10:59:58, receives `a`, takes the tick of 11:00:00
and receives `b`. -/
def tickActs : List Action :=
  [Action.enter (Time.civil 2024 1 1 10 59 58), Action.Write "a".data, Action.turn Event.recv,
   Action.turn (Event.tick (Time.civil 2024 1 1 11 0 0)), Action.Write "b".data,
   Action.turn Event.recv]

/-- The state after `tickActs`. -/
def tickState : Sys :=
  ⟨⟨1, some ⟨1, "b\n".data, false⟩, some 1, Time.civil 2024 1 1 11 0 0,
    ⟨[], 100, false⟩, "logs/cat".data, hourly, Worker.running⟩,
   ⟨[⟨"logs/cat/2024-01-01-10.log".data, "a\n".data, true⟩,
     ⟨"logs/cat/2024-01-01-11.log".data, [], false⟩], []⟩⟩

/-- The state `queued last q` after a `Close` at the instant `last`, with no tick. -/
def closedOnce (last : Time) (q : List Bytes) : Sys :=
  match MlogFile.Close goLib (queued last q) last (fun _ => []) with
  | Outcome.ret (_, s2) => s2
  | _ => queued last q

/-- The instant and the tick schedule given to every worker of `twoFiles`. -/
def noTicks : Nat → Time × (Nat → List Time) := fun _ => (Time.civil 2024 1 1 10 0 1, fun _ => [])

/-! ## Theorems: log.go -/

theorem lowerRune_ascii (tbl : Char → Char) (c : Char) (h : c.toNat < 128) :
    lowerRune tbl c = Char.toLower c := by
  unfold lowerRune Char.toLower
  simp only [h, if_true, ge_iff_le, UInt32.le_def, Fin.le_def]

theorem ToLower_ascii (tbl : Char → Char) (s : String) (h : ∀ c ∈ s.data, c.toNat < 128) :
    ToLower tbl s = String.mk (s.data.map Char.toLower) := by
  unfold ToLower
  congr 1
  exact List.map_congr_left (fun c hc => lowerRune_ascii tbl c (h c hc))

theorem ParseLevel_of_mem (tbl : Char → Char) (s : String) (l : Level)
    (hl : ToLower tbl s ∈ levelNames l) : ParseLevel tbl s = (l, none) := by
  unfold ParseLevel
  generalize ToLower tbl s = t at hl
  unfold levelNames at hl
  split_ifs at hl with h0 h1 h2 h3 h4 h5
  · simp at hl; subst hl; subst h0; rfl
  · simp at hl; subst hl; subst h1; rfl
  · simp at hl; subst hl; subst h2; rfl
  · simp at hl; subst h3; rcases hl with hl | hl <;> subst hl <;> rfl
  · simp at hl; subst hl; subst h4; rfl
  · simp at hl; subst hl; subst h5; rfl
  · simp at hl

theorem ToLower_levelString (tbl : Char → Char) (l : Int) (h0 : 0 ≤ l) (h5 : l ≤ 5) :
    ToLower tbl (Level.String l) ∈ levelNames l := by
  have : l = 0 ∨ l = 1 ∨ l = 2 ∨ l = 3 ∨ l = 4 ∨ l = 5 := by omega
  rcases this with h | h | h | h | h | h <;> subst h <;>
    rw [ToLower_ascii tbl _ (by decide)] <;> decide

theorem toLower_high (c : Char) (h : 128 ≤ c.toNat) : Char.toLower c = c := by
  unfold Char.toLower
  have : ¬ (c.toNat ≥ 65 ∧ c.toNat ≤ 90) := by omega
  simp only [this, if_false]

theorem lowerRune_caseFold (tbl : Char → Char)
    (htbl : ∀ c : Char, 128 ≤ c.toNat → c.toNat ≠ 304 → c.toNat ≠ 8490 → 128 ≤ (tbl c).toNat)
    (c : Char) :
    lowerRune tbl c = caseFold c ∨ (128 ≤ (lowerRune tbl c).toNat ∧ 128 ≤ (caseFold c).toNat) := by
  by_cases h : c.toNat < 128
  · left
    rw [lowerRune_ascii tbl c h]
    unfold caseFold
    rw [if_neg (by omega), if_neg (by omega)]
  · by_cases h1 : c.toNat = 304
    · left
      unfold lowerRune caseFold
      rw [if_neg h, if_pos h1, if_pos h1]
    · by_cases h2 : c.toNat = 8490
      · left
        unfold lowerRune caseFold
        rw [if_neg h, if_neg h1, if_pos h2, if_neg h1, if_pos h2]
      · right
        unfold lowerRune caseFold
        rw [if_neg h, if_neg h1, if_neg h2, if_neg h1, if_neg h2, toLower_high c (by omega)]
        exact ⟨htbl c (by omega) h1 h2, by omega⟩

theorem map_eq_ascii_iff (f g : Char → Char)
    (h : ∀ c, f c = g c ∨ (128 ≤ (f c).toNat ∧ 128 ≤ (g c).toNat)) :
    ∀ (s n : List Char), (∀ c ∈ n, c.toNat < 128) → (s.map f = n ↔ s.map g = n) := by
  intro s
  induction s with
  | nil => intro n _; simp
  | cons a s ih =>
    intro n hn
    cases n with
    | nil => simp
    | cons b n =>
      have hb : b.toNat < 128 := hn b (List.mem_cons_self _ _)
      have ih2 := ih n (fun c hc => hn c (List.mem_cons_of_mem _ hc))
      simp only [List.map_cons, List.cons.injEq]
      rcases h a with e | ⟨e1, e2⟩
      · rw [e, ih2]
      · constructor
        · rintro ⟨x, _⟩
          rw [x] at e1
          omega
        · rintro ⟨x, _⟩
          rw [x] at e2
          omega

theorem levelNames_ascii (l : Level) : ∀ name ∈ levelNames l, ∀ c ∈ name.data, c.toNat < 128 := by
  unfold levelNames
  split_ifs <;> decide

theorem mk_mem_iff (f g : Char → Char)
    (h : ∀ c, f c = g c ∨ (128 ≤ (f c).toNat ∧ 128 ≤ (g c).toNat)) (s : List Char) :
    ∀ (names : List String), (∀ name ∈ names, ∀ c ∈ name.data, c.toNat < 128) →
      (String.mk (s.map f) ∈ names ↔ String.mk (s.map g) ∈ names) := by
  intro names
  induction names with
  | nil => intro _; simp
  | cons a names ih =>
    intro hn
    have ih2 := ih (fun name hname => hn name (List.mem_cons_of_mem _ hname))
    have ha := map_eq_ascii_iff f g h s a.data (hn a (List.mem_cons_self _ _))
    have e : ∀ t : List Char, String.mk t = a ↔ t = a.data := by
      intro t
      constructor
      · intro x; rw [← x]
      · intro x; rw [x]
    simp only [List.mem_cons, e, ha, ih2]

theorem ParseLevel_ok_mem (tbl : Char → Char) (s : String) (l : Level)
    (h : ParseLevel tbl s = (l, none)) : ToLower tbl s ∈ levelNames l := by
  unfold ParseLevel at h
  generalize ToLower tbl s = t at h
  simp only at h
  split_ifs at h with h0 h1 h2 h3 h4 h5
  all_goals simp only [Prod.mk.injEq, and_true, reduceCtorEq, and_false] at h
  all_goals subst h
  · rw [h0]; decide
  · rw [h1]; decide
  · rw [h2]; decide
  · rcases h3 with h3 | h3 <;> rw [h3] <;> decide
  · rw [h4]; decide
  · rw [h5]; decide

theorem caseVariant_ascii (s name : String) (hn : ∀ c ∈ name.data, c.toNat < 128)
    (h : caseVariant s name) : ∀ c ∈ s.data, c.toNat < 128 := by
  intro c hc
  by_contra hlt
  have h1 : Char.toLower c ∈ name.data := by
    rw [← h]
    exact List.mem_map_of_mem _ hc
  have h2 := hn _ h1
  rw [toLower_high c (by omega)] at h2
  exact hlt h2

/-- C9.  `ParseLevel` lowers its argument with `strings.ToLower` and compares the result
with the seven names.  The lower case of a rune above U+007F is again above U+007F, except
for U+0130 and U+212A (hypothesis `htbl`, a fact of the Unicode case tables); so
`ParseLevel s` returns the level `l` and no error exactly when `s`, read rune by rune with
`A..Z` as `a..z`, U+0130 as `i` and U+212A as `k`, is a name of `l` (`warn` and `warning`
both name `WarnLevel`), and it returns the error for every other string.  In particular
every case variant of a name is accepted.  `NewLogger` uses the parsed level when there is
no error and `DebugLevel` otherwise, and `ParseLevel (l.String ())` is `l` for each of the
six levels. -/
theorem ParseLevel_case_insensitive (tbl : Char → Char)
    (htbl : ∀ c : Char, 128 ≤ c.toNat → c.toNat ≠ 304 → c.toNat ≠ 8490 → 128 ≤ (tbl c).toNat)
    (s : String) :
    (∀ l : Level, ParseLevel tbl s = (l, none) ↔
      String.mk (s.data.map caseFold) ∈ levelNames l) ∧
    ((∀ l : Level, String.mk (s.data.map caseFold) ∉ levelNames l) →
      ParseLevel tbl s = (0, some (Error.invalidLevel s))) ∧
    (∀ l : Level, ∀ name ∈ levelNames l, caseVariant s name →
      ParseLevel tbl s = (l, none)) ∧
    (∀ cfg : LogConfig, cfg.LogLevel = s →
      ((ParseLevel tbl s).2 = none → NewLogger.logLevel tbl cfg = (ParseLevel tbl s).1) ∧
      ((ParseLevel tbl s).2 ≠ none → NewLogger.logLevel tbl cfg = DebugLevel)) ∧
    (∀ l : Level, 0 ≤ l → l ≤ 5 → ParseLevel tbl (Level.String l) = (l, none)) := by
  have key : ∀ l : Level, ToLower tbl s ∈ levelNames l ↔
      String.mk (s.data.map caseFold) ∈ levelNames l := fun l =>
    mk_mem_iff (lowerRune tbl) caseFold (lowerRune_caseFold tbl htbl) s.data (levelNames l)
      (levelNames_ascii l)
  refine ⟨?_, ?_, ?_, ?_, ?_⟩
  · intro l
    rw [← key l]
    exact ⟨ParseLevel_ok_mem tbl s l, ParseLevel_of_mem tbl s l⟩
  · intro h
    have h0 := (key PanicLevel).not.mpr (h PanicLevel)
    have h1 := (key FatalLevel).not.mpr (h FatalLevel)
    have h2 := (key ErrorLevel).not.mpr (h ErrorLevel)
    have h3 := (key WarnLevel).not.mpr (h WarnLevel)
    have h4 := (key InfoLevel).not.mpr (h InfoLevel)
    have h5 := (key DebugLevel).not.mpr (h DebugLevel)
    simp [levelNames, PanicLevel, FatalLevel, ErrorLevel, WarnLevel, InfoLevel, DebugLevel]
      at h0 h1 h2 h3 h4 h5
    simp [ParseLevel, h0, h1, h2, h3, h4, h5]
  · intro l name hn hv
    apply ParseLevel_of_mem tbl s l
    rw [ToLower_ascii tbl s (caseVariant_ascii s name (levelNames_ascii l name hn) hv), hv]
    exact hn
  · intro cfg hcfg
    unfold NewLogger.logLevel
    rw [hcfg]
    constructor
    · intro h
      simp [h]
    · intro h
      simp [h]
  · intro l h0 h5
    exact ParseLevel_of_mem tbl _ l (ToLower_levelString tbl l h0 h5)

theorem Sub_gt_hour (now last : Time) :
    now.Sub last > time.Hour * 1 ↔ now.since last > 3600000000000 := by
  have e1 : (time.Hour * 1 : Int) = 3600000000000 := by decide
  have e2 : (maxDuration : Int) = 9223372036854775807 := rfl
  have e3 : (minDuration : Int) = -9223372036854775808 := rfl
  unfold Time.Sub
  simp only [gt_iff_lt, e1, e2, e3]
  split_ifs with h1 h2
  · constructor <;> intro _ <;> omega
  · constructor <;> intro _ <;> omega
  · exact Iff.rfl

theorem calendarHour_eq_of_div_eq (a b : Time)
    (h : a.ns / 3600000000000 = b.ns / 3600000000000) : a.calendarHour = b.calendarHour := by
  have hd : a.days = b.days := by
    unfold Time.days
    omega
  have hh : a.Hour = b.Hour := by
    unfold Time.Hour
    rw [h]
  unfold Time.calendarHour Time.Date
  rw [hd, hh]

theorem calendarHour_eq_of_close (now last : Time) (hoff : now.offset = last.offset)
    (hmono : last.unix ≤ now.unix) (hH : now.Hour = last.Hour)
    (hS : now.unix - last.unix ≤ 3600000000000) :
    now.calendarHour = last.calendarHour := by
  apply calendarHour_eq_of_div_eq
  unfold Time.Hour at hH
  unfold Time.ns at hH ⊢
  omega

theorem since_mono (now last : Time) (a b : Int) (ha : now.mono = some a)
    (hb : last.mono = some b) : now.since last = a - b := by
  unfold Time.since
  rw [ha, hb]

theorem since_wall (now last : Time) (h : now.mono = none ∨ last.mono = none) :
    now.since last = now.unix - last.unix := by
  unfold Time.since
  rcases h with h | h
  · rw [h]
  · rw [h]
    cases now.mono <;> rfl

/-! ## Theorems: system calls only consume outcomes and only add files -/

theorem World.after_refl (w : World) : w.after w := ⟨le_refl _, le_refl _⟩

theorem World.after_trans {a b c : World} (h1 : b.after a) (h2 : c.after b) : c.after a :=
  ⟨le_trans h2.1 h1.1, le_trans h1.2 h2.2⟩

theorem call_after (w : World) : (w.call).2.after w ∧ (w.call).2.files = w.files := by
  unfold World.call World.after
  cases h : w.oracle <;> simp [h]

theorem Write_after (w : World) (fd : Nat) (b : Bytes) : (os.File.Write w fd b).2.2.after w := by
  unfold os.File.Write
  have hc := call_after w
  cases hf : w.files[fd]? with
  | none => exact World.after_refl w
  | some f =>
    simp only []
    split_ifs
    · exact World.after_refl w
    · rcases hcall : w.call with ⟨r, w1⟩
      rw [hcall] at hc
      cases r <;> simp only [World.after, List.length_set] <;>
        exact ⟨hc.1.1, by rw [hc.2]⟩

theorem Close_after (w : World) (fd : Nat) : (os.File.Close w fd).2.after w := by
  unfold os.File.Close
  have hc := call_after w
  cases hf : w.files[fd]? with
  | none => exact World.after_refl w
  | some f =>
    simp only []
    split_ifs
    · exact World.after_refl w
    · rcases hcall : w.call with ⟨r, w1⟩
      rw [hcall] at hc
      simp only [World.after, List.length_set]
      exact ⟨hc.1.1, by rw [hc.2]⟩

theorem Flush_after (b : Writer) (w : World) : (b.Flush w).2.2.after w := by
  unfold Writer.Flush
  split_ifs
  · exact World.after_refl w
  · exact World.after_refl w
  · have := Write_after w b.wr b.buf
    rcases hw : os.File.Write w b.wr b.buf with ⟨n, e, w1⟩
    rw [hw] at this
    simp only []
    split_ifs <;> exact this

theorem makeFile_changes (L : Lib) (m : MlogFile) (w : World) (t : Time) :
    (m.makeFile L w t).2.after w ∧
    ((m.makeFile L w t).2.oracle.length < w.oracle.length ∨
      w.files.length < (m.makeFile L w t).2.files.length) := by
  unfold MlogFile.makeFile EnsureDir os.OpenFile World.call World.after
  rcases w with ⟨files, oracle⟩
  cases oracle with
  | nil => simp
  | cons r rs =>
    cases r with
    | fail n => simp
    | ok =>
      cases rs with
      | nil => simp
      | cons r2 rs2 =>
        cases r2 <;> simp <;> omega

/-- C9, witness: `WARNING` in capitals is the level `WarnLevel`.  The identity leaves every
rune above U+007F above U+007F. -/
theorem ParseLevel_case_insensitive_witness :
    (∀ c : Char, 128 ≤ c.toNat → c.toNat ≠ 304 → c.toNat ≠ 8490 → 128 ≤ (id c).toNat) ∧
    ParseLevel id "WARNING" = (WarnLevel, none) :=
  ⟨fun _ h _ _ => h,
   (ParseLevel_case_insensitive id (fun _ h _ _ => h) "WARNING").2.2.1 WarnLevel "warning"
    (by decide) (by decide)⟩

/-- C9, counterexample: the string `İNFO`, U+0130 followed by `NFO`, is a case variant of
none of the seven names, and `ParseLevel` returns `InfoLevel` and no error for it:
`strings.ToLower` maps U+0130 to `i`.  (The string has no other rune above U+007F, so the
table is not consulted.) -/
theorem ParseLevel_dotted_counterexample :
    dottedInfo.data = [Char.ofNat 304, 'N', 'F', 'O'] ∧
    (∀ name ∈ allNames, ¬ caseVariant dottedInfo name) ∧
    (∀ l : Level, levelNames l ⊆ allNames) ∧
    ParseLevel id dottedInfo = (InfoLevel, none) := by
  refine ⟨rfl, by decide, ?_, by decide⟩
  intro l
  unfold levelNames
  split_ifs <;> decide

/-! ## Theorems: the rotation test -/

theorem checkFile_not_due (L : Lib) (m : MlogFile) (w : World) (now : Time)
    (h : ¬ m.due now) : m.checkFile L w now = (m, none, w) := by
  unfold MlogFile.checkFile
  rw [if_neg h]

theorem checkFile_after (L : Lib) (m : MlogFile) (w : World) (now : Time) :
    (m.checkFile L w now).2.2.after w := by
  unfold MlogFile.checkFile
  split_ifs with h
  · have hm := (makeFile_changes L m w now).1
    rcases hmk : m.makeFile L w now with ⟨r, w1⟩
    rw [hmk] at hm
    cases r with
    | error err => exact hm
    | ok fd =>
      simp only []
      have h2 : (match m.bufWrite with
          | some b => (b.Flush w1).2.2
          | none => w1).after w1 := by
        cases m.bufWrite with
        | none => exact World.after_refl w1
        | some b => exact Flush_after b w1
      have h3 : ∀ w2 : World, (match m.fd with
          | some old => (os.File.Close w2 old).2
          | none => w2).after w2 := by
        intro w2
        cases m.fd with
        | none => exact World.after_refl w2
        | some old => exact Close_after w2 old
      exact World.after_trans hm (World.after_trans h2 (h3 _))
  · exact World.after_refl w

theorem checkFile_due_changes (L : Lib) (m : MlogFile) (w : World) (now : Time)
    (h : m.due now) : (m.checkFile L w now).2.2 ≠ w := by
  have hm := makeFile_changes L m w now
  intro heq
  unfold MlogFile.checkFile at heq
  rw [if_pos h] at heq
  rcases hmk : m.makeFile L w now with ⟨r, w1⟩
  rw [hmk] at hm heq
  dsimp only at hm
  cases r with
  | error err =>
    simp only [] at heq
    subst heq
    rcases hm.2 with h1 | h1 <;> omega
  | ok fd =>
    simp only [] at heq
    have h2 : (match m.bufWrite with
        | some b => (b.Flush w1).2.2
        | none => w1).after w1 := by
      cases m.bufWrite with
      | none => exact World.after_refl w1
      | some b => exact Flush_after b w1
    have h3 : ∀ w2 : World, (match m.fd with
        | some old => (os.File.Close w2 old).2
        | none => w2).after w2 := by
      intro w2
      cases m.fd with
      | none => exact World.after_refl w2
      | some old => exact Close_after w2 old
    have h4 := World.after_trans h2 (h3 _)
    rw [heq] at h4
    unfold World.after at h4
    rcases hm.2 with h1 | h1 <;> omega

/-! ## Theorems: the system calls when nothing fails -/

theorem call_ok (w : World) (h : w.NoFailure) :
    ∃ w1, w.call = (CallRes.ok, w1) ∧ w1.files = w.files ∧ w1.NoFailure := by
  unfold World.call
  rcases w with ⟨files, oracle⟩
  cases oracle with
  | nil => exact ⟨_, rfl, rfl, h⟩
  | cons r rs =>
    have hr : r = CallRes.ok := h r (by simp)
    subst hr
    refine ⟨_, rfl, rfl, ?_⟩
    intro r hr
    exact h r (by simp at hr ⊢; exact Or.inr hr)

theorem Write_ok (w : World) (fd : Nat) (b : Bytes) (f : OSFile) (h : w.NoFailure)
    (hf : w.files[fd]? = some f) (hc : f.closed = false) :
    ∃ w1, os.File.Write w fd b = (b.length, false, w1) ∧
      w1.files = w.files.set fd { f with data := f.data ++ b } ∧ w1.NoFailure := by
  obtain ⟨w1, h1, h2, h3⟩ := call_ok w h
  unfold os.File.Write
  rw [hf]
  simp only [hc, h1]
  exact ⟨_, rfl, by rw [h2], h3⟩

theorem Close_ok (w : World) (fd : Nat) (f : OSFile) (h : w.NoFailure)
    (hf : w.files[fd]? = some f) (hc : f.closed = false) :
    ∃ w1, os.File.Close w fd = (false, w1) ∧
      w1.files = w.files.set fd { f with closed := true } ∧ w1.NoFailure := by
  obtain ⟨w1, h1, h2, h3⟩ := call_ok w h
  unfold os.File.Close
  rw [hf]
  simp only [hc, h1]
  exact ⟨_, rfl, by rw [h2], h3⟩

theorem set_self {α : Type} (l : List α) (i : Nat) (a : α) (h : l[i]? = some a) :
    l.set i a = l := by
  apply List.ext_getElem?
  intro j
  by_cases hj : i = j
  · subst hj
    rw [List.getElem?_set_self', h]
    rfl
  · rw [List.getElem?_set_ne hj]

theorem Flush_ok (b : Writer) (w : World) (f : OSFile) (h : w.NoFailure) (he : b.err = false)
    (hf : w.files[b.wr]? = some f) (hc : f.closed = false) :
    ∃ w1, b.Flush w = ({ b with buf := [] }, false, w1) ∧
      w1.files = w.files.set b.wr { f with data := f.data ++ b.buf } ∧ w1.NoFailure := by
  unfold Writer.Flush
  rw [he]
  by_cases hb : b.buf.length = 0
  · have hnil : b.buf = [] := List.length_eq_zero.mp hb
    refine ⟨w, ?_, ?_, h⟩
    · rcases b with ⟨wr, buf, err⟩
      simp only at hnil he
      subst hnil he
      rfl
    · rw [hnil, List.append_nil]
      exact (set_self _ _ _ hf).symm
  · obtain ⟨w1, h1, h2, h3⟩ := Write_ok w b.wr b.buf f h hf hc
    refine ⟨w1, ?_, h2, h3⟩
    simp [hb, h1]

theorem makeFile_ok_inv (L : Lib) (m : MlogFile) (w : World) (t : Time) (fd : Nat)
    (w1 : World) (h : m.makeFile L w t = (Except.ok fd, w1)) :
    fd = w.files.length ∧
      w1.files = w.files ++ [⟨L.Join m.dir (L.Format t m.relPath), [], false⟩] := by
  unfold MlogFile.makeFile EnsureDir os.OpenFile at h
  have c1 := call_after w
  rcases hc1 : w.call with ⟨r1, wa⟩
  rw [hc1] at h c1
  cases r1 with
  | fail n => simp at h
  | ok =>
    simp only [] at h
    have c2 := call_after wa
    rcases hc2 : wa.call with ⟨r2, wb⟩
    rw [hc2] at h c2
    cases r2 with
    | fail n => simp at h
    | ok =>
      simp only [Prod.mk.injEq, Except.ok.injEq] at h
      obtain ⟨h1, h2⟩ := h
      subst h2
      simp only [] at c1 c2
      refine ⟨?_, ?_⟩
      · rw [← h1, c2.2, c1.2]
      · simp only [c2.2, c1.2]

theorem makeFile_ok (L : Lib) (m : MlogFile) (w : World) (t : Time) (h : w.NoFailure) :
    ∃ w1, m.makeFile L w t = (Except.ok w.files.length, w1) ∧
      w1.files = w.files ++ [⟨L.Join m.dir (L.Format t m.relPath), [], false⟩] ∧
      w1.NoFailure := by
  obtain ⟨wa, a1, a2, a3⟩ := call_ok w h
  obtain ⟨wb, b1, b2, b3⟩ := call_ok wa a3
  refine ⟨{ wb with files := wb.files ++ [⟨L.Join m.dir (L.Format t m.relPath), [], false⟩] },
    ?_, ?_, b3⟩
  · unfold MlogFile.makeFile EnsureDir os.OpenFile
    simp only [a1, b1]
    rw [b2, a2]
  · simp only [b2, a2]

theorem lt_length_of_getElem? {α : Type} (l : List α) (i : Nat) (a : α) (h : l[i]? = some a) :
    i < l.length := by
  by_contra hn
  rw [List.getElem?_eq_none (by omega)] at h
  exact Option.noConfusion h

/-- A rotation when nothing fails and the writer is sound: the old file receives the buffer
and is closed, the new file is opened after all the others. -/
theorem checkFile_rotate_ok (L : Lib) (m : MlogFile) (w : World) (now : Time)
    (hdue : m.due now) (hnf : w.NoFailure) (old : Nat) (b : Writer) (f : OSFile)
    (hfd : m.fd = some old) (hb : m.bufWrite = some b) (hwr : b.wr = old)
    (he : b.err = false) (hf : w.files[old]? = some f) (hc : f.closed = false) :
    ∃ w3, m.checkFile L w now =
        ({ m with fd := some w.files.length, bufWrite := some ⟨w.files.length, [], false⟩,
                  lastTime := now }, none, w3) ∧
      w3.files = w.files.set old ⟨f.path, f.data ++ b.buf, true⟩ ++
        [⟨L.Join m.dir (L.Format now m.relPath), [], false⟩] ∧
      w3.NoFailure := by
  have hlt := lt_length_of_getElem? _ _ _ hf
  obtain ⟨w1, a1, a2, a3⟩ := makeFile_ok L m w now hnf
  have hf1 : w1.files[b.wr]? = some f := by
    rw [a2, hwr, List.getElem?_append_left hlt, hf]
  obtain ⟨w2, b1, b2, b3⟩ := Flush_ok b w1 f a3 he hf1 hc
  have hf2 : w2.files[old]? = some { f with data := f.data ++ b.buf } := by
    rw [b2, hwr, List.getElem?_set_self]
    rw [a2]
    simp
    omega
  obtain ⟨w3, c1, c2, c3⟩ := Close_ok w2 old _ b3 hf2 hc
  refine ⟨w3, ?_, ?_, c3⟩
  · unfold MlogFile.checkFile
    rw [if_pos hdue, a1]
    simp only [hb, hfd, b1, c1]
    rfl
  · rw [c2, b2, a2, hwr, List.set_set, List.set_append_left _ _ hlt]

/-- The first opening when nothing fails. -/
theorem checkFile_first_ok (L : Lib) (m : MlogFile) (w : World) (now : Time)
    (hnf : w.NoFailure) (hfd : m.fd = none) (hb : m.bufWrite = none) :
    ∃ w1, m.checkFile L w now =
        ({ m with fd := some w.files.length, bufWrite := some ⟨w.files.length, [], false⟩,
                  lastTime := now }, none, w1) ∧
      w1.files = w.files ++ [⟨L.Join m.dir (L.Format now m.relPath), [], false⟩] ∧
      w1.NoFailure := by
  obtain ⟨w1, a1, a2, a3⟩ := makeFile_ok L m w now hnf
  refine ⟨w1, ?_, a2, a3⟩
  unfold MlogFile.checkFile
  have hdue : m.due now := Or.inl hfd
  rw [if_pos hdue, a1]
  simp only [hb, hfd]
  rfl

/-! ## Theorems: the rotation test of `checkFile` -/

theorem due_iff (m : MlogFile) (now : Time) :
    m.due now ↔
      (m.fd = none ∨ now.Hour ≠ m.lastTime.Hour ∨
        now.since m.lastTime > 3600000000000) := by
  unfold MlogFile.due
  rw [Sub_gt_hour]

theorem due_calendar (m : MlogFile) (now : Time) (h : m.due now) :
    m.fd = none ∨ now.calendarHour ≠ m.lastTime.calendarHour ∨
      now.since m.lastTime > 3600000000000 := by
  rw [due_iff] at h
  rcases h with h | h | h
  · exact Or.inl h
  · right; left
    intro hc
    apply h
    have := congrArg (fun q : Int × Int × Int × Int => q.2.2.2) hc
    exact this
  · exact Or.inr (Or.inr h)

theorem due_iff_calendar (m : MlogFile) (now : Time) (hoff : now.offset = m.lastTime.offset)
    (hmono : m.lastTime.unix ≤ now.unix)
    (hwall : now.unix - m.lastTime.unix ≤ now.since m.lastTime) :
    m.due now ↔
      (m.fd = none ∨ now.calendarHour ≠ m.lastTime.calendarHour ∨
        now.since m.lastTime > 3600000000000) := by
  constructor
  · exact due_calendar m now
  · rw [due_iff]
    rintro (h | h | h)
    · exact Or.inl h
    · by_cases hS : now.since m.lastTime > 3600000000000
      · exact Or.inr (Or.inr hS)
      · right; left
        intro hH
        apply h
        exact calendarHour_eq_of_close now m.lastTime hoff hmono hH (by omega)
    · exact Or.inr (Or.inr h)

theorem checkFile_changes_iff (L : Lib) (m : MlogFile) (w : World) (now : Time) :
    (m.checkFile L w now).2.2 ≠ w ↔ m.due now := by
  constructor
  · intro h
    by_contra hd
    exact h (by rw [checkFile_not_due L m w now hd])
  · exact checkFile_due_changes L m w now

/-- C4 (amended).  `checkFile` starts a rotation (it calls `makeFile`, which changes the
operating system) if and only if no file is open, or `now.Hour()` differs from
`lastTime.Hour()` (the hour within the day, on the clock face of each value), or
`now.Sub(lastTime)` exceeds one hour; `Sub` measures the difference of the monotonic
readings when both values have one (they have, when both come from `time.Now()`), and the
difference of the wall-clock readings otherwise.  A rotation therefore happens only if no
file is open, or the calendar hour differs, or more than one hour has elapsed; the converse
holds when both values are in one zone offset, the wall clock has not gone back and it has
not advanced by more than the measured elapsed time (no step of the clock, no suspension).
When the rotation is due and `makeFile` succeeds, the state becomes: `fd` the new file, at
`Join(dir, now.Format(relPath))`, `bufWrite` a new empty writer on it, `lastTime = now`,
and no error; if nothing fails, the old file has received the old buffer and is closed.
When `makeFile` fails its error is returned and the state is unchanged.  When no rotation
is due nothing changes and no error is returned. -/
theorem checkFile_rotation (L : Lib) (m : MlogFile) (w : World) (now : Time) :
    ((m.checkFile L w now).2.2 ≠ w ↔
      (m.fd = none ∨ now.Hour ≠ m.lastTime.Hour ∨
        now.Sub m.lastTime > time.Hour * 1)) ∧
    ((now.Sub m.lastTime > time.Hour * 1 ↔ now.since m.lastTime > 3600000000000) ∧
      (∀ a b, now.mono = some a → m.lastTime.mono = some b →
        now.since m.lastTime = a - b) ∧
      (now.mono = none ∨ m.lastTime.mono = none →
        now.since m.lastTime = now.unix - m.lastTime.unix)) ∧
    ((m.checkFile L w now).2.2 ≠ w →
      (m.fd = none ∨ now.calendarHour ≠ m.lastTime.calendarHour ∨
        now.since m.lastTime > 3600000000000)) ∧
    (now.offset = m.lastTime.offset → m.lastTime.unix ≤ now.unix →
      now.unix - m.lastTime.unix ≤ now.since m.lastTime →
      ((m.checkFile L w now).2.2 ≠ w ↔
        (m.fd = none ∨ now.calendarHour ≠ m.lastTime.calendarHour ∨
          now.since m.lastTime > 3600000000000))) ∧
    (∀ fd w1, (m.checkFile L w now).2.2 ≠ w → m.makeFile L w now = (Except.ok fd, w1) →
      (m.checkFile L w now).1 =
        { m with fd := some fd, bufWrite := some ⟨fd, [], false⟩, lastTime := now } ∧
      (m.checkFile L w now).2.1 = none ∧
      w1.files[fd]? = some ⟨L.Join m.dir (L.Format now m.relPath), [], false⟩) ∧
    (∀ old b f, (m.checkFile L w now).2.2 ≠ w → w.NoFailure → m.fd = some old →
      m.bufWrite = some b → b.wr = old → b.err = false → w.files[old]? = some f →
      f.closed = false →
      (m.checkFile L w now).1.fd = some w.files.length ∧
      (m.checkFile L w now).2.2.files =
        w.files.set old ⟨f.path, f.data ++ b.buf, true⟩ ++
          [⟨L.Join m.dir (L.Format now m.relPath), [], false⟩]) ∧
    (∀ err w1, (m.checkFile L w now).2.2 ≠ w → m.makeFile L w now = (Except.error err, w1) →
      m.checkFile L w now = (m, some err, w1)) ∧
    ((m.checkFile L w now).2.2 = w → m.checkFile L w now = (m, none, w)) := by
  refine ⟨?_, ⟨Sub_gt_hour now m.lastTime, since_mono now m.lastTime,
    since_wall now m.lastTime⟩, ?_, ?_, ?_, ?_, ?_, ?_⟩
  · rw [checkFile_changes_iff]
    exact Iff.rfl
  · intro hch
    rw [checkFile_changes_iff] at hch
    exact due_calendar m now hch
  · intro hoff hmono hwall
    rw [checkFile_changes_iff, due_iff_calendar m now hoff hmono hwall]
  · intro fd w1 hch hmk
    rw [checkFile_changes_iff] at hch
    have hinv := makeFile_ok_inv L m w now fd w1 hmk
    refine ⟨?_, ?_, ?_⟩
    · unfold MlogFile.checkFile
      rw [if_pos hch, hmk]
      rfl
    · unfold MlogFile.checkFile
      rw [if_pos hch, hmk]
    · rw [hinv.2, hinv.1]
      exact List.getElem?_concat_length _ _
  · intro old b f hch hnf hfd hb hwr he hf hc
    rw [checkFile_changes_iff] at hch
    obtain ⟨w3, h1, h2, _⟩ := checkFile_rotate_ok L m w now hch hnf old b f hfd hb hwr he hf hc
    rw [h1]
    exact ⟨rfl, h2⟩
  · intro err w1 hch hmk
    rw [checkFile_changes_iff] at hch
    unfold MlogFile.checkFile
    rw [if_pos hch, hmk]
  · intro heq
    apply checkFile_not_due
    intro hd
    exact checkFile_due_changes L m w now hd heq

/-- C4, witness: the file of 10 o'clock is open with `ab` in the buffer and the worker
checks at 11:00:01 of the same day. -/
theorem checkFile_rotation_witness :
    ((⟨1, some ⟨0, ['a', 'b'], false⟩, some 0, Time.civil 2024 1 1 10 59 59,
        ⟨[], 100, false⟩, "logs/cat".data, hourly, Worker.running⟩ : MlogFile).checkFile goLib
        ⟨[⟨"logs/cat/2024-01-01-10.log".data, [], false⟩], []⟩
        (Time.civil 2024 1 1 11 0 1)).2.2.files =
      [⟨"logs/cat/2024-01-01-10.log".data, ['a', 'b'], true⟩,
       ⟨"logs/cat/2024-01-01-11.log".data, [], false⟩] :=
  ((checkFile_rotation goLib
      ⟨1, some ⟨0, ['a', 'b'], false⟩, some 0, Time.civil 2024 1 1 10 59 59,
        ⟨[], 100, false⟩, "logs/cat".data, hourly, Worker.running⟩
      ⟨[⟨"logs/cat/2024-01-01-10.log".data, [], false⟩], []⟩
      (Time.civil 2024 1 1 11 0 1)).2.2.2.2.2.1 0 ⟨0, ['a', 'b'], false⟩
      ⟨"logs/cat/2024-01-01-10.log".data, [], false⟩ (by decide)
      (fun r hr => by simp at hr) rfl rfl rfl rfl rfl rfl).2

/-- C4, counterexample: the calendar hour of `now` differs from that of `lastTime` and
`checkFile` does not rotate, in two runs.  In both, `lastTime` and `now` are values of
`time.Now()` in UTC and the monotonic clock advances by one second between them.  In the
first the file of 2024-01-01 10:30:00 is open and the wall clock reads 2024-01-02 10:30:01
(the machine was suspended for a day, or the clock was set forward).  In the second the
file of 2024-01-02 10:30:00 is open and the wall clock reads 2024-01-01 10:30:01 (the clock
was set back). -/
theorem checkFile_calendar_hour_counterexample :
    ((Time.civil 2024 1 2 10 30 1).reading 0 6000000000).calendarHour ≠
      ((Time.civil 2024 1 1 10 30 0).reading 0 5000000000).calendarHour ∧
    (openAt ((Time.civil 2024 1 1 10 30 0).reading 0 5000000000)).m.fd ≠ none ∧
    (openAt ((Time.civil 2024 1 1 10 30 0).reading 0 5000000000)).m.lastTime =
      (Time.civil 2024 1 1 10 30 0).reading 0 5000000000 ∧
    (openAt ((Time.civil 2024 1 1 10 30 0).reading 0 5000000000)).m.checkFile goLib
        (openAt ((Time.civil 2024 1 1 10 30 0).reading 0 5000000000)).w
        ((Time.civil 2024 1 2 10 30 1).reading 0 6000000000) =
      ((openAt ((Time.civil 2024 1 1 10 30 0).reading 0 5000000000)).m, none,
        (openAt ((Time.civil 2024 1 1 10 30 0).reading 0 5000000000)).w) ∧
    ((Time.civil 2024 1 1 10 30 1).reading 0 6000000000).calendarHour ≠
      ((Time.civil 2024 1 2 10 30 0).reading 0 5000000000).calendarHour ∧
    (openAt ((Time.civil 2024 1 2 10 30 0).reading 0 5000000000)).m.checkFile goLib
        (openAt ((Time.civil 2024 1 2 10 30 0).reading 0 5000000000)).w
        ((Time.civil 2024 1 1 10 30 1).reading 0 6000000000) =
      ((openAt ((Time.civil 2024 1 2 10 30 0).reading 0 5000000000)).m, none,
        (openAt ((Time.civil 2024 1 2 10 30 0).reading 0 5000000000)).w) := by
  decide

/-- C10.  With a file open, `now` and `lastTime` in one zone offset and the wall clock of
`now` not before that of `lastTime`: if `now.Hour()` equals `lastTime.Hour()` and the wall
clock has advanced by at most one hour, then `now` and `lastTime` have the same year,
month, day and hour, so the open file is the one a layout that depends on the calendar hour
only names for `now`; and `checkFile` does not rotate, provided the elapsed time that `Sub`
measures is at most one hour too, as it is when it is the difference of the wall-clock
readings or is not larger than it.  For some `now` whose wall clock is before that of
`lastTime`, with a different calendar hour and a monotonic clock that has advanced,
`checkFile` does not rotate either. -/
theorem rotation_test_complete :
    (∀ (L : Lib) (m : MlogFile) (w : World) (now : Time), m.fd ≠ none →
      now.offset = m.lastTime.offset →
      m.lastTime.unix ≤ now.unix → now.Hour = m.lastTime.Hour →
      now.unix - m.lastTime.unix ≤ 3600000000000 →
        (m.checkFile L w now = (m, none, w) ↔ now.since m.lastTime ≤ 3600000000000) ∧
        (now.since m.lastTime ≤ now.unix - m.lastTime.unix →
          m.checkFile L w now = (m, none, w)) ∧
        now.Year = m.lastTime.Year ∧ now.Month = m.lastTime.Month ∧
        now.Day = m.lastTime.Day ∧ now.Hour = m.lastTime.Hour ∧
        ((∀ a b : Time, a.calendarHour = b.calendarHour →
            L.Format a m.relPath = L.Format b m.relPath) →
          L.Join m.dir (L.Format now m.relPath) =
            L.Join m.dir (L.Format m.lastTime m.relPath))) ∧
    (∃ (m : MlogFile) (w : World) (now : Time), m.fd ≠ none ∧
      now.offset = m.lastTime.offset ∧ now.unix < m.lastTime.unix ∧
      (∃ a b, now.mono = some a ∧ m.lastTime.mono = some b ∧ b ≤ a) ∧
      now.calendarHour ≠ m.lastTime.calendarHour ∧ m.checkFile goLib w now = (m, none, w)) := by
  constructor
  · intro L m w now hfd hoff hmono hH hS
    have hcal : now.calendarHour = m.lastTime.calendarHour :=
      calendarHour_eq_of_close now m.lastTime hoff hmono hH hS
    have hnd : now.since m.lastTime ≤ 3600000000000 → ¬ m.due now := by
      intro hle
      rw [due_iff]
      rintro (h | h | h)
      · exact hfd h
      · exact h hH
      · omega
    refine ⟨⟨?_, fun hle => checkFile_not_due L m w now (hnd hle)⟩,
      fun hle => checkFile_not_due L m w now (hnd (by omega)), ?_, ?_, ?_, hH, ?_⟩
    · intro heq
      by_contra hgt
      have hd : m.due now := by
        rw [due_iff]
        exact Or.inr (Or.inr (by omega))
      apply checkFile_due_changes L m w now hd
      rw [heq]
    · exact congrArg (fun q : Int × Int × Int × Int => q.1) hcal
    · exact congrArg (fun q : Int × Int × Int × Int => q.2.1) hcal
    · exact congrArg (fun q : Int × Int × Int × Int => q.2.2.1) hcal
    · intro hfmt
      rw [hfmt now m.lastTime hcal]
  · exact ⟨(openAt ((Time.civil 2024 1 2 10 30 0).reading 0 5000000000)).m,
      (openAt ((Time.civil 2024 1 2 10 30 0).reading 0 5000000000)).w,
      (Time.civil 2024 1 1 10 30 1).reading 0 6000000000, by decide, by decide, by decide,
      ⟨6000000000, 5000000000, rfl, rfl, by decide⟩, by decide, by decide⟩

/-- C10, witness: the file of 2024-01-01 10:00:00 is open and the clock reads 10:59:59. -/
theorem rotation_test_complete_witness :
    (Time.civil 2024 1 1 10 59 59).Day = (Time.civil 2024 1 1 10 0 0).Day ∧
    (Time.civil 2024 1 1 10 59 59).Hour = 10 ∧
    (openAt (Time.civil 2024 1 1 10 0 0)).m.checkFile goLib
        (openAt (Time.civil 2024 1 1 10 0 0)).w (Time.civil 2024 1 1 10 59 59) =
      ((openAt (Time.civil 2024 1 1 10 0 0)).m, none, (openAt (Time.civil 2024 1 1 10 0 0)).w) :=
  ⟨(rotation_test_complete.1 goLib (openAt (Time.civil 2024 1 1 10 0 0)).m
      (openAt (Time.civil 2024 1 1 10 0 0)).w (Time.civil 2024 1 1 10 59 59)
      (by decide) (by decide) (by decide) (by decide) (by decide)).2.2.2.2.1, by decide,
   (rotation_test_complete.1 goLib (openAt (Time.civil 2024 1 1 10 0 0)).m
      (openAt (Time.civil 2024 1 1 10 0 0)).w (Time.civil 2024 1 1 10 59 59)
      (by decide) (by decide) (by decide) (by decide) (by decide)).2.1 (by decide)⟩

/-! ## Theorems: `bufio.Writer.WriteString` when nothing fails -/

theorem fill_ok : ∀ (fuel : Nat) (b : Writer) (s : Bytes) (w : World) (f : OSFile),
    w.NoFailure → b.err = false → w.files[b.wr]? = some f → f.closed = false →
    b.buf.length ≤ defaultBufSize →
    s.length + (if b.buf.length = defaultBufSize then 1 else 0) ≤ fuel →
    ∃ b1 s1 w1 data, Writer.fill fuel b s w = (b1, s1, w1) ∧ b1.err = false ∧ b1.wr = b.wr ∧
      w1.files = w.files.set b.wr { f with data := data } ∧
      data ++ b1.buf ++ s1 = f.data ++ b.buf ++ s ∧ s1.length ≤ b1.Available ∧
      b1.buf.length ≤ defaultBufSize ∧ w1.NoFailure := by
  intro fuel
  induction fuel with
  | zero =>
    intro b s w f hnf he hf hc hlen hfuel
    have hs : s = [] := by
      apply List.length_eq_zero.mp
      omega
    subst hs
    refine ⟨b, [], w, f.data, rfl, he, rfl, ?_, rfl, Nat.zero_le _, hlen, hnf⟩
    exact (set_self _ _ _ hf).symm
  | succ fuel ih =>
    intro b s w f hnf he hf hc hlen hfuel
    unfold Writer.fill
    by_cases hgt : s.length > b.Available ∧ b.err = false
    · rw [if_pos hgt]
      have hav : b.Available = defaultBufSize - b.buf.length := rfl
      obtain ⟨w1, a1, a2, a3⟩ :=
        Flush_ok { b with buf := b.buf ++ s.take b.Available } w f hnf he hf hc
      simp only [a1]
      have hlt := lt_length_of_getElem? _ _ _ hf
      have hf1 : w1.files[b.wr]? =
          some { f with data := f.data ++ (b.buf ++ s.take b.Available) } := by
        rw [a2]
        exact List.getElem?_set_self hlt
      have hfuel1 : (s.drop b.Available).length +
          (if ([] : Bytes).length = defaultBufSize then 1 else 0) ≤ fuel := by
        have hd : (s.drop b.Available).length = s.length - b.Available := List.length_drop _ _
        have hz : ¬ (([] : Bytes).length = defaultBufSize) := by decide
        rw [if_neg hz, hd]
        by_cases h0 : b.buf.length = defaultBufSize
        · rw [if_pos h0] at hfuel
          omega
        · rw [if_neg h0] at hfuel
          omega
      obtain ⟨b1, s1, w2, data, c1, c2, c3, c4, c5, c6, c7, c8⟩ :=
        ih { b with buf := [], err := false } (s.drop b.Available) w1 _ a3 rfl hf1 hc
          (Nat.zero_le _) hfuel1
      have hb0 : ({ b with buf := b.buf ++ s.take b.Available, } : Writer) =
          { wr := b.wr, buf := b.buf ++ s.take b.Available, err := b.err } := rfl
      refine ⟨b1, s1, w2, data, ?_, c2, c3, ?_, ?_, c6, c7, c8⟩
      · rw [← c1]
        congr 1
        rcases b with ⟨wr, buf, err⟩
        simp only at he
        subst he
        rfl
      · rw [c4, a2]
        simp only [List.set_set]
      · rw [c5]
        simp only [List.append_nil, List.append_assoc, List.take_append_drop]
    · rw [if_neg hgt]
      have hle : s.length ≤ b.Available := by
        by_contra hn
        exact hgt ⟨by omega, he⟩
      refine ⟨b, s, w, f.data, rfl, he, rfl, ?_, rfl, hle, hlen, hnf⟩
      exact (set_self _ _ _ hf).symm

theorem WriteString_ok (b : Writer) (s : Bytes) (w : World) (f : OSFile)
    (hnf : w.NoFailure) (he : b.err = false) (hf : w.files[b.wr]? = some f)
    (hc : f.closed = false) (hlen : b.buf.length ≤ defaultBufSize) :
    ∃ b1 w1 data, b.WriteString s w = (b1, false, w1) ∧ b1.err = false ∧ b1.wr = b.wr ∧
      w1.files = w.files.set b.wr { f with data := data } ∧
      data ++ b1.buf = f.data ++ b.buf ++ s ∧
      b1.buf.length ≤ defaultBufSize ∧ w1.NoFailure := by
  have hfuel : s.length + (if b.buf.length = defaultBufSize then 1 else 0) ≤ s.length + 1 := by
    split_ifs <;> omega
  obtain ⟨b1, s1, w1, data, c1, c2, c3, c4, c5, c6, c7, c8⟩ :=
    fill_ok (s.length + 1) b s w f hnf he hf hc hlen hfuel
  unfold Writer.WriteString
  rw [c1]
  simp only [c2]
  have htake : s1.take b1.Available = s1 := List.take_of_length_le c6
  refine ⟨_, w1, data, rfl, rfl, c3, c4, ?_, ?_, c8⟩
  · simp only [htake]
    rw [← c5, List.append_assoc]
  · simp only [htake, List.length_append]
    unfold Writer.Available at c6
    omega

/-! ## Theorems: a sound worker simulates its ghost -/

theorem files_get (base : List OSFile) (H : List OSFile) (f : OSFile) (n : Nat)
    (hn : H.length = n) : (base ++ H ++ [f])[base.length + n]? = some f := by
  have : base.length + n = (base ++ H).length := by simp [hn]
  rw [this]
  exact List.getElem?_concat_length _ _

theorem files_set (base : List OSFile) (H : List OSFile) (f g : OSFile) (n : Nat)
    (hn : H.length = n) : (base ++ H ++ [f]).set (base.length + n) g = base ++ H ++ [g] := by
  have : base.length + n = (base ++ H).length := by simp [hn]
  rw [this, List.set_append_right _ _ (le_refl _)]
  simp

theorem Flush_sound (base : List OSFile) (s : Sys) (γ : Ghost) (h : Sound base s γ) :
    ∃ w1, s.m.Flush s.w =
        ({ s.m with bufWrite := some ⟨base.length + γ.hist.length, [], false⟩ }, w1) ∧
      w1.files = base ++ γ.hist.map closedFile ++ [⟨γ.p, γ.cur, false⟩] ∧ w1.NoFailure := by
  obtain ⟨_, _, hnf, _, data, b, h1, h2, h3, h4, h5, h6, h7⟩ := h
  have hf : s.w.files[b.wr]? = some ⟨γ.p, data, false⟩ := by
    rw [h1, h4]
    exact files_get _ _ _ _ (by simp)
  obtain ⟨w1, a1, a2, a3⟩ := Flush_ok b s.w _ hnf h5 hf rfl
  refine ⟨w1, ?_, ?_, a3⟩
  · unfold MlogFile.Flush
    rw [h3]
    simp only [a1, h4, h5]
  · rw [a2, h1, h4, files_set _ _ _ _ _ (by simp)]
    simp only [h6]

theorem Sound_after_Flush (base : List OSFile) (s : Sys) (γ : Ghost) (h : Sound base s γ) :
    Sound base ⟨(s.m.Flush s.w).1, (s.m.Flush s.w).2⟩ γ := by
  obtain ⟨w1, a1, a2, a3⟩ := Flush_sound base s γ h
  obtain ⟨r1, r2, _, r4, _, _, _, h2, _⟩ := h
  rw [a1]
  exact ⟨r1, r2, a3, r4, γ.cur, ⟨base.length + γ.hist.length, [], false⟩, a2, h2, rfl, rfl,
    rfl, by simp, by simp⟩

theorem turn_tick_sound (L : Lib) (base : List OSFile) (s : Sys) (γ : Ghost) (now : Time)
    (h : Sound base s γ) :
    Sound base (MlogFile.write.turn L s (Event.tick now))
        (γ.tick L s.m.dir s.m.relPath now) ∧
      (MlogFile.write.turn L s (Event.tick now)).m.msgChan = s.m.msgChan ∧
      (MlogFile.write.turn L s (Event.tick now)).m.dir = s.m.dir ∧
      (MlogFile.write.turn L s (Event.tick now)).m.relPath = s.m.relPath := by
  obtain ⟨w1, a1, a2, a3⟩ := Flush_sound base s γ h
  have hS1 := Sound_after_Flush base s γ h
  rw [a1] at hS1
  obtain ⟨r1, r2, _, r4, _, _, _, h2, _⟩ := h
  unfold MlogFile.write.turn
  rw [if_pos r1]
  simp only [a1]
  generalize hm1 : ({ s.m with bufWrite := some ⟨base.length + γ.hist.length, [], false⟩ } :
    MlogFile) = m1 at hS1
  have e1 : m1.fd = some (base.length + γ.hist.length) := by rw [← hm1]; exact h2
  have e2 : m1.lastTime = γ.last := by rw [← hm1]; exact r4
  have e3 : m1.bufWrite = some ⟨base.length + γ.hist.length, [], false⟩ := by rw [← hm1]
  have e4 : m1.msgChan = s.m.msgChan := by rw [← hm1]
  have e5 : m1.dir = s.m.dir := by rw [← hm1]
  have e6 : m1.relPath = s.m.relPath := by rw [← hm1]
  have e7 : m1.worker = Worker.running := by rw [← hm1]; exact r1
  have e8 : m1.wg = 1 := by rw [← hm1]; exact r2
  have hdue : m1.due now ↔ (now.Hour ≠ γ.last.Hour ∨ now.Sub γ.last > time.Hour * 1) := by
    unfold MlogFile.due
    rw [e1, e2]
    simp
  by_cases hd : m1.due now
  · have hf : w1.files[base.length + γ.hist.length]? = some ⟨γ.p, γ.cur, false⟩ := by
      rw [a2]
      exact files_get _ _ _ _ (by simp)
    obtain ⟨w3, c1, c2, c3⟩ := checkFile_rotate_ok L m1 w1 now hd a3
      (base.length + γ.hist.length) ⟨base.length + γ.hist.length, [], false⟩
      ⟨γ.p, γ.cur, false⟩ e1 e3 rfl rfl hf rfl
    rw [c1]
    have hg : γ.tick L s.m.dir s.m.relPath now =
        ⟨γ.hist ++ [(γ.p, γ.cur)], now, L.Join s.m.dir (L.Format now s.m.relPath), []⟩ := by
      unfold Ghost.tick
      rw [if_pos (hdue.mp hd)]
    rw [hg]
    have hlen : w1.files.length = base.length + (γ.hist.length + 1) := by
      rw [a2]
      simp [Nat.add_assoc]
    refine ⟨⟨e7, e8, c3, rfl, [], ⟨w1.files.length, [], false⟩, ?_, ?_, rfl, ?_, rfl, rfl,
      by simp⟩, e4, e5, e6⟩
    · rw [c2, a2, files_set _ _ _ _ _ (by simp), e5, e6]
      simp [closedFile]
    · simp only [hlen, List.length_append, List.length_singleton]
    · simp only [hlen, List.length_append, List.length_singleton]
  · rw [checkFile_not_due L m1 w1 now hd]
    have hg : γ.tick L s.m.dir s.m.relPath now = γ := by
      unfold Ghost.tick
      rw [if_neg (fun hh => hd (hdue.mpr hh))]
    rw [hg]
    exact ⟨hS1, e4, e5, e6⟩

theorem turn_recv_sound (L : Lib) (base : List OSFile) (s : Sys) (γ : Ghost)
    (msg : Bytes) (rest : List Bytes) (h : Sound base s γ)
    (hq : s.m.msgChan.queue = msg :: rest) :
    Sound base (MlogFile.write.turn L s Event.recv) (γ.recv msg) ∧
      (MlogFile.write.turn L s Event.recv).m.msgChan = { s.m.msgChan with queue := rest } ∧
      (MlogFile.write.turn L s Event.recv).m.dir = s.m.dir ∧
      (MlogFile.write.turn L s Event.recv).m.relPath = s.m.relPath := by
  obtain ⟨r1, r2, hnf, r4, data, b, h1, h2, h3, h4, h5, h6, h7⟩ := h
  have hf : s.w.files[b.wr]? = some ⟨γ.p, data, false⟩ := by
    rw [h1, h4]
    exact files_get _ _ _ _ (by simp)
  obtain ⟨b1, w1, data1, c1, c2, c3, c4, c5, c6, c7⟩ :=
    WriteString_ok b (msg ++ newline) s.w _ hnf h5 hf rfl h7
  have hturn : MlogFile.write.turn L s Event.recv =
      ⟨{ s.m with msgChan := { s.m.msgChan with queue := rest }, bufWrite := some b1 }, w1⟩ := by
    unfold MlogFile.write.turn
    rw [if_pos r1]
    simp only [hq]
    unfold MlogFile.writeString
    simp only [h3, c1]
  rw [hturn]
  refine ⟨⟨r1, r2, c7, r4, data1, b1, ?_, h2, rfl, ?_, c2, ?_, c6⟩, rfl, rfl, rfl⟩
  · rw [c4, h1, h4, files_set _ _ _ _ _ (by simp)]
    rfl
  · rw [c3, h4]
    rfl
  · rw [c5]
    unfold Ghost.recv
    simp only [← h6]

theorem turn_recv_empty (L : Lib) (s : Sys) (hq : s.m.msgChan.queue = [])
    (hc : s.m.msgChan.closed = false) : MlogFile.write.turn L s Event.recv = s := by
  unfold MlogFile.write.turn
  by_cases h : s.m.worker = Worker.running
  · rw [if_pos h]
    simp [hq, hc]
  · rw [if_neg h]

theorem turn_recv_closed (L : Lib) (base : List OSFile) (s : Sys) (γ : Ghost)
    (h : Sound base s γ) (hq : s.m.msgChan.queue = []) (hc : s.m.msgChan.closed = true) :
    Done base (MlogFile.write.turn L s Event.recv) γ ∧
      (MlogFile.write.turn L s Event.recv).m.msgChan = s.m.msgChan ∧
      (MlogFile.write.turn L s Event.recv).m.dir = s.m.dir ∧
      (MlogFile.write.turn L s Event.recv).m.relPath = s.m.relPath := by
  obtain ⟨w1, a1, a2, a3⟩ := Flush_sound base s γ h
  obtain ⟨r1, r2, hnf, r4, data, b, h1, h2, h3, h4, h5, h6, h7⟩ := h
  have hturn : MlogFile.write.turn L s Event.recv =
      ⟨{ s.m with bufWrite := some ⟨base.length + γ.hist.length, [], false⟩,
                  wg := s.m.wg - 1, worker := Worker.returned }, w1⟩ := by
    unfold MlogFile.write.turn
    rw [if_pos r1]
    simp only [hq, hc, if_true]
    unfold MlogFile.write.deferred
    simp only [a1]
  rw [hturn]
  exact ⟨⟨rfl, by simp [r2], a3, r4, a2, h2, rfl⟩, rfl, rfl, rfl⟩

theorem ticks_sound (L : Lib) (base : List OSFile) (ts : List Time) :
    ∀ (s : Sys) (γ : Ghost), Sound base s γ →
      Sound base (MlogFile.write.ticks L s ts) (γ.ticks L s.m.dir s.m.relPath ts) ∧
      (MlogFile.write.ticks L s ts).m.msgChan = s.m.msgChan ∧
      (MlogFile.write.ticks L s ts).m.dir = s.m.dir ∧
      (MlogFile.write.ticks L s ts).m.relPath = s.m.relPath := by
  induction ts with
  | nil =>
    intro s γ h
    exact ⟨h, rfl, rfl, rfl⟩
  | cons t ts ih =>
    intro s γ h
    obtain ⟨a1, a2, a3, a4⟩ := turn_tick_sound L base s γ t h
    obtain ⟨b1, b2, b3, b4⟩ := ih _ _ a1
    unfold MlogFile.write.ticks Ghost.ticks at *
    simp only [List.foldl_cons]
    rw [a3, a4] at b1
    exact ⟨b1, b2.trans a2, b3.trans a3, b4.trans a4⟩

theorem drain_sound (L : Lib) (base : List OSFile) (q : List Bytes) :
    ∀ (s : Sys) (γ : Ghost) (sched : Nat → List Time), Sound base s γ →
      s.m.msgChan.queue = q → s.m.msgChan.closed = true →
      Done base (MlogFile.write.drain L q.length s sched)
          (γ.drain L s.m.dir s.m.relPath q sched) ∧
        (MlogFile.write.drain L q.length s sched).m.msgChan = { s.m.msgChan with queue := [] } ∧
        (MlogFile.write.drain L q.length s sched).m.dir = s.m.dir ∧
        (MlogFile.write.drain L q.length s sched).m.relPath = s.m.relPath := by
  induction q with
  | nil =>
    intro s γ sched h hq hc
    obtain ⟨a1, a2, a3, a4⟩ := ticks_sound L base (sched 0) s γ h
    obtain ⟨b1, b2, b3, b4⟩ := turn_recv_closed L base _ _ a1 (by rw [a2]; exact hq)
      (by rw [a2]; exact hc)
    simp only [List.length_nil, MlogFile.write.drain, Ghost.drain]
    refine ⟨b1, ?_, b3.trans a3, b4.trans a4⟩
    rw [b2, a2, ← hq]
  | cons msg rest ih =>
    intro s γ sched h hq hc
    obtain ⟨a1, a2, a3, a4⟩ := ticks_sound L base (sched 0) s γ h
    obtain ⟨b1, b2, b3, b4⟩ := turn_recv_sound L base _ _ msg rest a1 (by rw [a2]; exact hq)
    obtain ⟨c1, c2, c3, c4⟩ := ih _ _ (fun k => sched (k + 1)) b1 (by rw [b2])
      (by rw [b2, a2]; exact hc)
    simp only [List.length_cons, MlogFile.write.drain, Ghost.drain]
    rw [b3, b4, a3, a4] at c1
    refine ⟨c1, ?_, c3.trans (b3.trans a3), c4.trans (b4.trans a4)⟩
    rw [c2, b2, a2]

/-- The state of `s` once `close(m.msgChan)` has run. -/
theorem Close_of_entered (L : Lib) (base : List OSFile) (s : Sys) (γ : Ghost) (t0 : Time)
    (sched : Nat → List Time) (hopen : s.m.msgChan.closed = false)
    (h : Sound base (MlogFile.write.enter L
      ⟨{ s.m with msgChan := { s.m.msgChan with closed := true } }, s.w⟩ t0) γ)
    (hq : (MlogFile.write.enter L
      ⟨{ s.m with msgChan := { s.m.msgChan with closed := true } }, s.w⟩ t0).m.msgChan =
        { s.m.msgChan with closed := true })
    (hdir : (MlogFile.write.enter L
      ⟨{ s.m with msgChan := { s.m.msgChan with closed := true } }, s.w⟩ t0).m.dir = s.m.dir)
    (hrel : (MlogFile.write.enter L
      ⟨{ s.m with msgChan := { s.m.msgChan with closed := true } }, s.w⟩ t0).m.relPath =
        s.m.relPath) :
    ∃ s2, MlogFile.Close L s t0 sched = Outcome.ret (false, s2) ∧
      s2.m.worker = Worker.returned ∧ s2.m.wg = 0 ∧
      s2.m.msgChan = ⟨[], s.m.msgChan.cap, true⟩ ∧
      (∃ b2, s2.m.bufWrite = some b2 ∧ b2.buf = []) ∧
      s2.w.files = base ++
        ((γ.drain L s.m.dir s.m.relPath s.m.msgChan.queue sched).hist ++
          [((γ.drain L s.m.dir s.m.relPath s.m.msgChan.queue sched).p,
            (γ.drain L s.m.dir s.m.relPath s.m.msgChan.queue sched).cur)]).map closedFile ∧
      s2.w.NoFailure := by
  generalize hs2 : MlogFile.write.enter L
    ⟨{ s.m with msgChan := { s.m.msgChan with closed := true } }, s.w⟩ t0 = e at h hq hdir hrel
  have hwg : e.m.wg = 1 := h.2.1
  obtain ⟨d1, d2, d3, d4⟩ := drain_sound L base e.m.msgChan.queue e γ sched h rfl
    (by rw [hq])
  have hqq : e.m.msgChan.queue = s.m.msgChan.queue := by rw [hq]
  rw [hqq, hdir, hrel] at d1
  rw [hqq] at d2
  generalize hγ : γ.drain L s.m.dir s.m.relPath s.m.msgChan.queue sched = γ1 at d1
  generalize hs3 : MlogFile.write.drain L s.m.msgChan.queue.length e sched = s3 at d1 d2 d3 d4
  obtain ⟨r1, r2, r3, r4, r5, r6, r7⟩ := d1
  have hfl : s3.m.Flush s3.w = (s3.m, s3.w) := by
    unfold MlogFile.Flush
    rw [r7]
    simp [Writer.Flush]
    rcases hm : s3.m with ⟨_, bw, _, _, _, _, _, _⟩
    rw [hm] at r7
    simp only at r7
    rw [r7]
  have hf : s3.w.files[base.length + γ1.hist.length]? = some ⟨γ1.p, γ1.cur, false⟩ := by
    rw [r5]
    exact files_get _ _ _ _ (by simp)
  obtain ⟨w5, c1, c2, c3⟩ := Close_ok s3.w _ _ r3 hf rfl
  refine ⟨⟨s3.m, w5⟩, ?_, r1, r2, ?_, ⟨_, r7, rfl⟩, ?_, c3⟩
  · unfold MlogFile.Close MlogFile.Close.wait
    simp [hopen, hs2, hwg, hqq, hs3, r1, hfl, r6, c1]
  · rw [d2, hq]
  · rw [c2, r5, files_set _ _ _ _ _ (by simp)]
    simp [closedFile]

/-! ## Theorems: the bytes of the ghost -/

theorem lines_nil : lines [] = [] := rfl

theorem lines_cons (m : Bytes) (ms : List Bytes) : lines (m :: ms) = m ++ newline ++ lines ms := by
  simp [lines]

theorem lines_append (a b : List Bytes) : lines (a ++ b) = lines a ++ lines b := by
  simp [lines]

theorem total_tick (L : Lib) (dir relPath : Bytes) (γ : Ghost) (now : Time) :
    (γ.tick L dir relPath now).total = γ.total := by
  unfold Ghost.tick
  split_ifs <;> simp [Ghost.total]

theorem total_recv (γ : Ghost) (msg : Bytes) :
    (γ.recv msg).total = γ.total ++ (msg ++ newline) := by
  simp [Ghost.total, Ghost.recv]

theorem total_ticks (L : Lib) (dir relPath : Bytes) (ts : List Time) :
    ∀ γ : Ghost, (γ.ticks L dir relPath ts).total = γ.total := by
  induction ts with
  | nil => intro γ; rfl
  | cons t ts ih =>
    intro γ
    unfold Ghost.ticks at *
    simp only [List.foldl_cons]
    rw [ih, total_tick]

theorem total_drain (L : Lib) (dir relPath : Bytes) (q : List Bytes) :
    ∀ (γ : Ghost) (sched : Nat → List Time),
      (γ.drain L dir relPath q sched).total = γ.total ++ lines q := by
  induction q with
  | nil =>
    intro γ sched
    simp [Ghost.drain, total_ticks, lines_nil]
  | cons msg rest ih =>
    intro γ sched
    simp only [Ghost.drain]
    rw [ih, total_recv, total_ticks, lines_cons]
    simp

theorem appended_closed (w : World) (base : List OSFile) (γ : Ghost)
    (h : w.files = base ++ (γ.hist ++ [(γ.p, γ.cur)]).map closedFile) :
    w.appended base.length = γ.total ∧ w.files.take base.length = base ∧
      ∀ g ∈ w.files.drop base.length, g.closed = true := by
  unfold World.appended Ghost.total
  rw [h]
  refine ⟨?_, ?_, ?_⟩
  · simp [closedFile, Function.comp_def]
  · simp
  · intro g hg
    simp at hg
    rcases hg with ⟨a, b, _, rfl⟩ | rfl <;> rfl

/-! ## Theorems: the ghost of a fresh destination is made of whole lines -/

theorem Grouped_tick (L : Lib) (dir relPath : Bytes) (γ : Ghost) (G : List (Time × List Bytes))
    (g : List Bytes) (now : Time) (h : Grouped L dir relPath γ G g) :
    ∃ G1 g1, Grouped L dir relPath (γ.tick L dir relPath now) G1 g1 ∧
      written G1 g1 = written G g := by
  unfold Ghost.tick
  split_ifs with hd
  · refine ⟨G ++ [(γ.last, g)], [], ⟨?_, rfl, rfl⟩, ?_⟩
    · simp only [List.map_append, List.map_cons, List.map_nil]
      rw [← h.1, h.2.1, h.2.2]
    · simp [written]
  · exact ⟨G, g, h, rfl⟩

theorem Grouped_recv (L : Lib) (dir relPath : Bytes) (γ : Ghost) (G : List (Time × List Bytes))
    (g : List Bytes) (msg : Bytes) (h : Grouped L dir relPath γ G g) :
    Grouped L dir relPath (γ.recv msg) G (g ++ [msg]) ∧
      written G (g ++ [msg]) = written G g ++ [msg] := by
  refine ⟨⟨h.1, h.2.1, ?_⟩, ?_⟩
  · show γ.cur ++ (msg ++ newline) = lines (g ++ [msg])
    rw [h.2.2, lines_append, lines_cons, lines_nil]
    simp
  · simp [written]

theorem Grouped_ticks (L : Lib) (dir relPath : Bytes) (ts : List Time) :
    ∀ (γ : Ghost) (G : List (Time × List Bytes)) (g : List Bytes),
      Grouped L dir relPath γ G g →
      ∃ G1 g1, Grouped L dir relPath (γ.ticks L dir relPath ts) G1 g1 ∧
        written G1 g1 = written G g := by
  induction ts with
  | nil => intro γ G g h; exact ⟨G, g, h, rfl⟩
  | cons t ts ih =>
    intro γ G g h
    obtain ⟨G1, g1, a1, a2⟩ := Grouped_tick L dir relPath γ G g t h
    obtain ⟨G2, g2, b1, b2⟩ := ih _ G1 g1 a1
    exact ⟨G2, g2, b1, b2.trans a2⟩

theorem Grouped_drain (L : Lib) (dir relPath : Bytes) (q : List Bytes) :
    ∀ (γ : Ghost) (G : List (Time × List Bytes)) (g : List Bytes) (sched : Nat → List Time),
      Grouped L dir relPath γ G g →
      ∃ G1 g1, Grouped L dir relPath (γ.drain L dir relPath q sched) G1 g1 ∧
        written G1 g1 = written G g ++ q := by
  induction q with
  | nil =>
    intro γ G g sched h
    obtain ⟨G1, g1, a1, a2⟩ := Grouped_ticks L dir relPath (sched 0) γ G g h
    exact ⟨G1, g1, a1, by rw [a2]; simp⟩
  | cons msg rest ih =>
    intro γ G g sched h
    obtain ⟨G1, g1, a1, a2⟩ := Grouped_ticks L dir relPath (sched 0) γ G g h
    obtain ⟨b1, b2⟩ := Grouped_recv L dir relPath _ G1 g1 msg a1
    obtain ⟨G2, g2, c1, c2⟩ := ih _ G1 (g1 ++ [msg]) (fun k => sched (k + 1)) b1
    refine ⟨G2, g2, c1, ?_⟩
    rw [c2, b2, a2]
    simp

/-! ## Theorems: the invariant of a run -/

theorem Sound_chan (base : List OSFile) (s : Sys) (γ : Ghost) (c : Chan)
    (h : Sound base s γ) : Sound base ⟨{ s.m with msgChan := c }, s.w⟩ γ := h

theorem enter_spawned_ok (L : Lib) (s : Sys) (t0 : Time)
    (hw : s.m.worker = Worker.spawned) (hwg : s.m.wg = 1) (hfd : s.m.fd = none)
    (hb : s.m.bufWrite = none) (hnf : s.w.NoFailure) :
    Sound s.w.files (MlogFile.write.enter L s t0)
        ⟨[], t0, L.Join s.m.dir (L.Format t0 s.m.relPath), []⟩ ∧
      (MlogFile.write.enter L s t0).m.msgChan = s.m.msgChan ∧
      (MlogFile.write.enter L s t0).m.dir = s.m.dir ∧
      (MlogFile.write.enter L s t0).m.relPath = s.m.relPath := by
  obtain ⟨w1, a1, a2, a3⟩ := checkFile_first_ok L s.m s.w t0 hnf hfd hb
  have he : MlogFile.write.enter L s t0 =
      ⟨{ s.m with fd := some s.w.files.length,
                  bufWrite := some ⟨s.w.files.length, [], false⟩,
                  lastTime := t0, worker := Worker.running }, w1⟩ := by
    unfold MlogFile.write.enter
    rw [if_pos hw]
    simp only [a1]
  rw [he]
  refine ⟨⟨rfl, hwg, a3, rfl, [], ⟨s.w.files.length, [], false⟩, ?_, rfl, rfl, rfl, rfl, rfl,
    by simp⟩, rfl, rfl, rfl⟩
  rw [a2]
  simp

theorem enter_running (L : Lib) (s : Sys) (t0 : Time) (h : s.m.worker ≠ Worker.spawned) :
    MlogFile.write.enter L s t0 = s := by
  unfold MlogFile.write.enter
  rw [if_neg h]

theorem turn_not_running (L : Lib) (s : Sys) (e : Event) (h : s.m.worker ≠ Worker.running) :
    MlogFile.write.turn L s e = s := by
  unfold MlogFile.write.turn
  rw [if_neg h]

theorem step_rep (L : Lib) (dir relPath : Bytes) (base : List OSFile) (s s1 : Sys)
    (α : Abs) (a : Action) (h : Rep dir relPath base s α)
    (hs : s.step L a = some s1) : Rep dir relPath base s1 (α.step L dir relPath a) := by
  obtain ⟨hdir, hrel, hopen, hqueue, hcase⟩ := h
  cases a with
  | Write msg =>
    have hw : s.m.Write msg = Outcome.ret s1.m ∧ s1.w = s.w := by
      simp only [Sys.step] at hs
      cases hW : s.m.Write msg with
      | ret m1 =>
        rw [hW] at hs
        simp only [Option.some.injEq] at hs
        rw [← hs]
        exact ⟨rfl, rfl⟩
      | blocked => rw [hW] at hs; simp at hs
      | panic => rw [hW] at hs; simp at hs
    obtain ⟨hW, hw1⟩ := hw
    unfold MlogFile.Write at hW
    rw [if_neg (by simp [hopen])] at hW
    split_ifs at hW with hfull
    simp only [Outcome.ret.injEq] at hW
    have hs1 : s1 = ⟨{ s.m with msgChan :=
        { s.m.msgChan with queue := s.m.msgChan.queue ++ [msg] } }, s.w⟩ := by
      rcases s1 with ⟨m1, w1⟩
      simp only at hW hw1
      rw [hW, hw1]
    rw [hs1]
    refine ⟨hdir, hrel, hopen, ?_, ?_⟩
    · show s.m.msgChan.queue ++ [msg] = α.queue ++ [msg]
      rw [hqueue]
    · rcases hcase with ⟨c0, c1, c2, c3, c4, c5, c6⟩ | ⟨γ, c0, c1⟩
      · exact Or.inl ⟨c0, c1, c2, c3, c4, c5, c6⟩
      · exact Or.inr ⟨γ, c0, Sound_chan base s γ _ c1⟩
  | Flush =>
    have hs1 : s1 = ⟨(s.m.Flush s.w).1, (s.m.Flush s.w).2⟩ := by
      simp only [Sys.step, Option.some.injEq] at hs
      rw [← hs]
    rw [hs1]
    rcases hcase with ⟨c0, c1, c2, c3, c4, c5, c6⟩ | ⟨γ, c0, c1⟩
    · have : s.m.Flush s.w = (s.m, s.w) := by
        unfold MlogFile.Flush
        rw [c4]
      rw [this]
      exact ⟨hdir, hrel, hopen, hqueue, Or.inl ⟨c0, c1, c2, c3, c4, c5, c6⟩⟩
    · have hS := Sound_after_Flush base s γ c1
      obtain ⟨w1, a1, _, _⟩ := Flush_sound base s γ c1
      rw [a1] at hS ⊢
      exact ⟨hdir, hrel, hopen, hqueue, Or.inr ⟨γ, c0, hS⟩⟩
  | enter now =>
    have hs1 : s1 = MlogFile.write.enter L s now := by
      simp only [Sys.step, Option.some.injEq] at hs
      rw [← hs]
    rw [hs1]
    rcases hcase with ⟨c0, c1, c2, c3, c4, c5, c6⟩ | ⟨γ, c0, c1⟩
    · obtain ⟨a1, a2, a3, a4⟩ := enter_spawned_ok L s now c1 c2 c3 c4 c6
      refine ⟨a3.trans hdir, a4.trans hrel, by rw [a2]; exact hopen, ?_, Or.inr ?_⟩
      · rw [a2, hqueue]
        simp [Abs.step, c0]
      · refine ⟨Ghost.init L dir relPath now, by simp [Abs.step, c0], ?_⟩
        rw [← c5, ← hdir, ← hrel]
        exact a1
    · rw [enter_running L s now (by rw [c1.1]; decide)]
      refine ⟨hdir, hrel, hopen, ?_, Or.inr ⟨γ, ?_, c1⟩⟩
      · simp [Abs.step, c0, hqueue]
      · simp [Abs.step, c0]
  | turn e =>
    have hs1 : s1 = MlogFile.write.turn L s e := by
      simp only [Sys.step, Option.some.injEq] at hs
      rw [← hs]
    rw [hs1]
    rcases hcase with ⟨c0, c1, c2, c3, c4, c5, c6⟩ | ⟨γ, c0, c1⟩
    · rw [turn_not_running L s e (by rw [c1]; decide)]
      have : α.step L dir relPath (Action.turn e) = α := by
        cases e <;> simp [Abs.step, c0]
      rw [this]
      exact ⟨hdir, hrel, hopen, hqueue, Or.inl ⟨c0, c1, c2, c3, c4, c5, c6⟩⟩
    · cases e with
      | tick now =>
        obtain ⟨a1, a2, a3, a4⟩ := turn_tick_sound L base s γ now c1
        rw [hdir, hrel] at a1
        refine ⟨a3.trans hdir, a4.trans hrel, by rw [a2]; exact hopen, ?_, Or.inr ?_⟩
        · rw [a2, hqueue]
          simp [Abs.step, c0]
        · exact ⟨_, by simp [Abs.step, c0], a1⟩
      | recv =>
        cases hq : s.m.msgChan.queue with
        | nil =>
          rw [turn_recv_empty L s hq hopen]
          have : α.step L dir relPath (Action.turn Event.recv) = α := by
            rw [hq] at hqueue
            simp [Abs.step, c0, ← hqueue]
          rw [this]
          exact ⟨hdir, hrel, hopen, hq ▸ hqueue, Or.inr ⟨γ, c0, c1⟩⟩
        | cons msg rest =>
          obtain ⟨a1, a2, a3, a4⟩ := turn_recv_sound L base s γ msg rest c1 hq
          have : α.step L dir relPath (Action.turn Event.recv) = ⟨some (γ.recv msg), rest⟩ := by
            rw [hq] at hqueue
            simp [Abs.step, c0, ← hqueue]
          rw [this]
          refine ⟨a3.trans hdir, a4.trans hrel, by rw [a2]; exact hopen, by rw [a2],
            Or.inr ⟨_, rfl, a1⟩⟩

theorem run_rep (L : Lib) (dir relPath : Bytes) (base : List OSFile) (acts : List Action) :
    ∀ (s s1 : Sys) (α : Abs), Rep dir relPath base s α →
      Sys.run L s acts = some s1 → Rep dir relPath base s1 (α.run L dir relPath acts) := by
  induction acts with
  | nil =>
    intro s s1 α h hr
    simp only [Sys.run, Option.some.injEq] at hr
    rw [← hr]
    exact h
  | cons a as ih =>
    intro s s1 α h hr
    simp only [Sys.run] at hr
    cases hst : s.step L a with
    | none => rw [hst] at hr; simp at hr
    | some s' =>
      rw [hst] at hr
      exact ih s' s1 _ (step_rep L dir relPath base s s' α a h hst) hr

theorem sent_cons (a : Action) (as : List Action) : sent (a :: as) = sent [a] ++ sent as := by
  cases a <;> simp [sent]

theorem NewMlogFile_eq (L : Lib) (dir relPath : Bytes) (buffer : Int) :
    NewMlogFile L dir relPath buffer =
      if (if buffer ≤ 0 then (100 : Int) else buffer).toNat ≤ L.maxChan then
        Outcome.ret (NewMlogFile.object dir relPath
          (if buffer ≤ 0 then (100 : Int) else buffer).toNat)
      else Outcome.panic := rfl

theorem NewMlogFile_ret (L : Lib) (dir relPath : Bytes) (buffer : Int) (m0 : MlogFile)
    (h : NewMlogFile L dir relPath buffer = Outcome.ret m0) :
    m0 = NewMlogFile.object dir relPath (if buffer ≤ 0 then (100 : Int) else buffer).toNat ∧
      0 < (if buffer ≤ 0 then (100 : Int) else buffer).toNat ∧
      (if buffer ≤ 0 then (100 : Int) else buffer).toNat ≤ L.maxChan := by
  rw [NewMlogFile_eq] at h
  by_cases hc : (if buffer ≤ 0 then (100 : Int) else buffer).toNat ≤ L.maxChan
  · rw [if_pos hc] at h
    simp only [Outcome.ret.injEq] at h
    refine ⟨h.symm, ?_, hc⟩
    by_cases h1 : buffer ≤ 0
    · rw [if_pos h1]
      decide
    · rw [if_neg h1]
      omega
  · rw [if_neg hc] at h
    exact Outcome.noConfusion h

theorem Rep_new (L : Lib) (dir relPath : Bytes) (buffer : Int) (m0 : MlogFile) (w0 : World)
    (hnf : w0.NoFailure) (hnew : NewMlogFile L dir relPath buffer = Outcome.ret m0) :
    Rep dir relPath w0.files ⟨m0, w0⟩ ⟨none, []⟩ := by
  rw [(NewMlogFile_ret L dir relPath buffer m0 hnew).1]
  exact ⟨rfl, rfl, rfl, rfl, Or.inl ⟨rfl, rfl, rfl, rfl, rfl, rfl, hnf⟩⟩

theorem Close_rep (L : Lib) (dir relPath : Bytes) (base : List OSFile) (s : Sys) (α : Abs)
    (t0 : Time) (sched : Nat → List Time) (h : Rep dir relPath base s α) :
    ∃ s2, MlogFile.Close L s t0 sched = Outcome.ret (false, s2) ∧
      s2.m.worker = Worker.returned ∧ s2.m.wg = 0 ∧
      s2.m.msgChan = ⟨[], s.m.msgChan.cap, true⟩ ∧
      (∃ b2, s2.m.bufWrite = some b2 ∧ b2.buf = []) ∧
      s2.w.files = base ++ (α.close L dir relPath t0 sched).files ∧ s2.w.NoFailure := by
  obtain ⟨hdir, hrel, hopen, hqueue, hcase⟩ := h
  rcases hcase with ⟨c0, c1, c2, c3, c4, c5, c6⟩ | ⟨γ, c0, c1⟩
  · obtain ⟨a1, a2, a3, a4⟩ := enter_spawned_ok L
      ⟨{ s.m with msgChan := { s.m.msgChan with closed := true } }, s.w⟩ t0 c1 c2 c3 c4 c6
    obtain ⟨s2, b1, b2, b3, b4, b5, b6, b7⟩ :=
      Close_of_entered L s.w.files s _ t0 sched hopen a1 a2 a3 a4
    refine ⟨s2, b1, b2, b3, b4, b5, ?_, b7⟩
    rw [b6, c5]
    simp only [Abs.close, c0, Ghost.files, Ghost.init, hdir, hrel, hqueue]
  · have hne : ({ s.m with msgChan := { s.m.msgChan with closed := true } } : MlogFile).worker ≠
        Worker.spawned := by
      show s.m.worker ≠ Worker.spawned
      rw [c1.1]
      decide
    have hent := enter_running L
      ⟨{ s.m with msgChan := { s.m.msgChan with closed := true } }, s.w⟩ t0 hne
    obtain ⟨s2, b1, b2, b3, b4, b5, b6, b7⟩ :=
      Close_of_entered L base s γ t0 sched hopen
        (by rw [hent]; exact Sound_chan base s γ _ c1)
        (by rw [hent]) (by rw [hent]) (by rw [hent])
    refine ⟨s2, b1, b2, b3, b4, b5, ?_, b7⟩
    rw [b6]
    simp only [Abs.close, c0, Ghost.files, hdir, hrel, hqueue]

/-! ## Theorems: the abstract destination is made of whole lines -/

theorem Whole_step (L : Lib) (dir relPath : Bytes) (α : Abs) (msgs : List Bytes) (a : Action)
    (h : α.Whole L dir relPath msgs) :
    (α.step L dir relPath a).Whole L dir relPath (msgs ++ sent [a]) := by
  unfold Abs.Whole at h ⊢
  cases a with
  | Write msg =>
    cases hg : α.ghost with
    | none =>
      rw [hg] at h
      simp only [Abs.step, hg]
      rw [h]
      rfl
    | some γ =>
      rw [hg] at h
      obtain ⟨G, g, h1, h2⟩ := h
      simp only [Abs.step, hg]
      exact ⟨G, g, h1, by rw [← h2]; simp [sent]⟩
  | Flush =>
    simp only [Abs.step, sent, List.append_nil]
    exact h
  | enter now =>
    cases hg : α.ghost with
    | none =>
      rw [hg] at h
      simp only [Abs.step, hg, sent, List.append_nil]
      exact ⟨[], [], ⟨rfl, rfl, rfl⟩, by rw [← h]; rfl⟩
    | some γ =>
      rw [hg] at h
      simp only [Abs.step, hg, sent, List.append_nil]
      exact h
  | turn e =>
    cases e with
    | tick now =>
      cases hg : α.ghost with
      | none =>
        rw [hg] at h
        simp only [Abs.step, hg, sent, List.append_nil]
        exact h
      | some γ =>
        rw [hg] at h
        obtain ⟨G, g, h1, h2⟩ := h
        obtain ⟨G1, g1, a1, a2⟩ := Grouped_tick L dir relPath γ G g now h1
        simp only [Abs.step, hg, sent, List.append_nil]
        exact ⟨G1, g1, a1, by rw [a2]; exact h2⟩
    | recv =>
      cases hg : α.ghost with
      | none =>
        rw [hg] at h
        simp only [Abs.step, hg, sent, List.append_nil]
        exact h
      | some γ =>
        rw [hg] at h
        obtain ⟨G, g, h1, h2⟩ := h
        cases hq : α.queue with
        | nil =>
          simp only [Abs.step, hg, hq, sent, List.append_nil]
          exact ⟨G, g, h1, by rw [← h2, hq]; simp⟩
        | cons msg rest =>
          obtain ⟨b1, b2⟩ := Grouped_recv L dir relPath γ G g msg h1
          simp only [Abs.step, hg, hq, sent, List.append_nil]
          exact ⟨G, g ++ [msg], b1, by rw [b2, ← h2, hq]; simp⟩

theorem Whole_run (L : Lib) (dir relPath : Bytes) (acts : List Action) :
    ∀ (α : Abs) (msgs : List Bytes), α.Whole L dir relPath msgs →
      (α.run L dir relPath acts).Whole L dir relPath (msgs ++ sent acts) := by
  induction acts with
  | nil =>
    intro α msgs h
    simpa [Abs.run, sent] using h
  | cons a as ih =>
    intro α msgs h
    have := ih _ _ (Whole_step L dir relPath α msgs a h)
    rw [sent_cons, ← List.append_assoc]
    exact this

theorem Grouped_files (L : Lib) (dir relPath : Bytes) (γ : Ghost)
    (G : List (Time × List Bytes)) (g : List Bytes) (h : Grouped L dir relPath γ G g) :
    γ.files = (G ++ [(γ.last, g)]).map (fileOf L dir relPath) := by
  unfold Ghost.files
  rw [h.1, h.2.1, h.2.2]
  simp [closedFile, fileOf]

theorem Whole_close (L : Lib) (dir relPath : Bytes) (α : Abs) (msgs : List Bytes)
    (t0 : Time) (sched : Nat → List Time) (h : α.Whole L dir relPath msgs) :
    ∃ G : List (Time × List Bytes),
      (α.close L dir relPath t0 sched).files = G.map (fileOf L dir relPath) ∧
      (G.map Prod.snd).flatten = msgs := by
  unfold Abs.Whole at h
  unfold Abs.close
  cases hg : α.ghost with
  | none =>
    rw [hg] at h
    obtain ⟨G1, g1, a1, a2⟩ := Grouped_drain L dir relPath α.queue
      (Ghost.init L dir relPath t0) [] [] sched ⟨rfl, rfl, rfl⟩
    refine ⟨_, Grouped_files L dir relPath _ G1 g1 a1, ?_⟩
    have : written G1 g1 = msgs := by rw [a2, ← h]; rfl
    rw [← this]
    simp [written]
  | some γ =>
    rw [hg] at h
    obtain ⟨G, g, h1, h2⟩ := h
    obtain ⟨G1, g1, a1, a2⟩ := Grouped_drain L dir relPath α.queue γ G g sched h1
    refine ⟨_, Grouped_files L dir relPath _ G1 g1 a1, ?_⟩
    have : written G1 g1 = msgs := by rw [a2, h2]
    rw [← this]
    simp [written]

theorem lines_flatten (gs : List (List Bytes)) :
    (gs.map lines).flatten = lines gs.flatten := by
  induction gs with
  | nil => rfl
  | cons g gs ih =>
    simp only [List.map_cons, List.flatten_cons, ih, lines_append]

theorem appended_of_files (L : Lib) (dir relPath : Bytes) (w : World) (base : List OSFile)
    (G : List (Time × List Bytes)) (h : w.files = base ++ G.map (fileOf L dir relPath)) :
    w.appended base.length = lines (G.map Prod.snd).flatten ∧
      w.files.take base.length = base := by
  unfold World.appended
  rw [h]
  constructor
  · rw [← lines_flatten]
    simp [fileOf, Function.comp_def]
  · simp

/-! ## Theorems: first in, first out -/

/-- C1.  A destination is made by `NewMlogFile` (the call returns the object `m0`; it does
for every `buffer` up to the largest capacity of a channel, and for every `buffer` that is
zero or negative, which stands for 100) and any sequence of actions runs on it, in
any order: sends of messages by callers, flushes by callers, the start of the worker, ticks
and receives of the worker.  Then `Close` runs, the worker draining the channel under any
schedule of ticks.  If no system call fails, `Close` returns without error and the bytes
appended to the files of the destination, taken in the order in which the files were
opened, are exactly the messages in the order of the sends, each followed by one line
feed; the files that were there before are unchanged. -/
theorem Write_fifo (L : Lib) (dir relPath : Bytes) (buffer : Int) (m0 : MlogFile)
    (w0 : World) (acts : List Action) (s1 : Sys) (t0 : Time) (sched : Nat → List Time)
    (hnf : w0.NoFailure)
    (hnew : NewMlogFile L dir relPath buffer = Outcome.ret m0)
    (hrun : Sys.run L ⟨m0, w0⟩ acts = some s1) :
    ∃ s2, MlogFile.Close L s1 t0 sched = Outcome.ret (false, s2) ∧
      s2.w.appended w0.files.length = lines (sent acts) ∧
      s2.w.files.take w0.files.length = w0.files := by
  have hrep := run_rep L dir relPath w0.files acts _ s1 _
    (Rep_new L dir relPath buffer m0 w0 hnf hnew) hrun
  obtain ⟨s2, c1, _, _, _, _, c6, _⟩ := Close_rep L dir relPath w0.files s1 _ t0 sched hrep
  have hwhole := Whole_run L dir relPath acts ⟨none, []⟩ [] rfl
  obtain ⟨G, g1, g2⟩ := Whole_close L dir relPath _ _ t0 sched hwhole
  rw [g1] at c6
  obtain ⟨d1, d2⟩ := appended_of_files L dir relPath s2.w w0.files G c6
  refine ⟨s2, c1, ?_, d2⟩
  rw [d1, g2]
  rfl

/-- C1, witness: the run `demoActs` of the destination `logs/cat`, then `Close`. -/
theorem Write_fifo_witness :
    ∃ s2, MlogFile.Close goLib demoState (Time.civil 2024 1 1 11 0 1) (fun _ => []) =
        Outcome.ret (false, s2) ∧
      s2.w.appended 0 = lines ["a".data, "b".data, "c".data] ∧
      s2.w.files.take 0 = [] :=
  Write_fifo goLib "logs/cat".data hourly 2 (NewMlogFile.object "logs/cat".data hourly 2)
    ⟨[], []⟩ demoActs demoState (Time.civil 2024 1 1 11 0 1) (fun _ => []) (by decide)
    (by decide) (by decide)

/-! ## Theorems: the worker and the failures -/

theorem Flush_keeps (m : MlogFile) (w : World) :
    (m.Flush w).1.worker = m.worker ∧ (m.Flush w).1.msgChan = m.msgChan ∧
      (m.Flush w).1.wg = m.wg ∧ (m.Flush w).1.fd = m.fd := by
  unfold MlogFile.Flush
  cases m.bufWrite with
  | none => exact ⟨rfl, rfl, rfl, rfl⟩
  | some b => exact ⟨rfl, rfl, rfl, rfl⟩

theorem checkFile_keeps (L : Lib) (m : MlogFile) (w : World) (now : Time) :
    (m.checkFile L w now).1.worker = m.worker ∧ (m.checkFile L w now).1.msgChan = m.msgChan ∧
      (m.checkFile L w now).1.wg = m.wg := by
  unfold MlogFile.checkFile
  split_ifs
  · rcases m.makeFile L w now with ⟨r, w1⟩
    cases r <;> exact ⟨rfl, rfl, rfl⟩
  · exact ⟨rfl, rfl, rfl⟩

theorem writeString_keeps (m : MlogFile) (s : Bytes) (w : World) :
    (m.writeString s w).1.worker = m.worker ∧ (m.writeString s w).1.msgChan = m.msgChan ∧
      (m.writeString s w).1.wg = m.wg ∧ (m.writeString s w).1.fd = m.fd := by
  unfold MlogFile.writeString
  cases m.bufWrite with
  | none => exact ⟨rfl, rfl, rfl, rfl⟩
  | some b => exact ⟨rfl, rfl, rfl, rfl⟩

theorem turn_tick_keeps (L : Lib) (s : Sys) (now : Time) :
    (MlogFile.write.turn L s (Event.tick now)).m.worker = s.m.worker ∧
      (MlogFile.write.turn L s (Event.tick now)).m.msgChan = s.m.msgChan ∧
      (MlogFile.write.turn L s (Event.tick now)).m.wg = s.m.wg := by
  by_cases h : s.m.worker = Worker.running
  · have ht : MlogFile.write.turn L s (Event.tick now) =
        ⟨((s.m.Flush s.w).1.checkFile L (s.m.Flush s.w).2 now).1,
          ((s.m.Flush s.w).1.checkFile L (s.m.Flush s.w).2 now).2.2⟩ := by
      unfold MlogFile.write.turn
      rw [if_pos h]
    rw [ht]
    have a := Flush_keeps s.m s.w
    have b := checkFile_keeps L (s.m.Flush s.w).1 (s.m.Flush s.w).2 now
    exact ⟨b.1.trans a.1, b.2.1.trans a.2.1, b.2.2.trans a.2.2.1⟩
  · rw [turn_not_running L s _ h]
    exact ⟨rfl, rfl, rfl⟩

theorem turn_recv_keeps (L : Lib) (s : Sys) (msg : Bytes) (rest : List Bytes)
    (hrun : s.m.worker = Worker.running) (hq : s.m.msgChan.queue = msg :: rest) :
    (MlogFile.write.turn L s Event.recv).m.worker = Worker.running ∧
      (MlogFile.write.turn L s Event.recv).m.msgChan = { s.m.msgChan with queue := rest } ∧
      (MlogFile.write.turn L s Event.recv).m.wg = s.m.wg := by
  unfold MlogFile.write.turn
  rw [if_pos hrun]
  simp only [hq]
  have a := writeString_keeps { s.m with msgChan := { s.m.msgChan with queue := rest } }
    (msg ++ newline) s.w
  exact ⟨a.1.trans hrun, a.2.1, a.2.2.1⟩

theorem turn_recv_returns (L : Lib) (s : Sys) (hrun : s.m.worker = Worker.running)
    (hq : s.m.msgChan.queue = []) (hc : s.m.msgChan.closed = true) :
    (MlogFile.write.turn L s Event.recv).m.worker = Worker.returned ∧
      (MlogFile.write.turn L s Event.recv).m.msgChan = s.m.msgChan ∧
      (MlogFile.write.turn L s Event.recv).m.wg = s.m.wg - 1 := by
  unfold MlogFile.write.turn
  rw [if_pos hrun]
  simp only [hq, hc, if_true]
  unfold MlogFile.write.deferred
  have a := Flush_keeps s.m s.w
  exact ⟨rfl, a.2.1, by rw [← a.2.2.1]⟩

theorem turns_alive (L : Lib) (es : List Event) :
    ∀ s : Sys, (s.m.worker = Worker.running ∨
        (s.m.worker = Worker.returned ∧ s.m.msgChan.closed = true ∧ s.m.msgChan.queue = [])) →
      ((es.foldl (MlogFile.write.turn L) s).m.worker = Worker.running ∨
        ((es.foldl (MlogFile.write.turn L) s).m.worker = Worker.returned ∧
          (es.foldl (MlogFile.write.turn L) s).m.msgChan.closed = true ∧
          (es.foldl (MlogFile.write.turn L) s).m.msgChan.queue = [])) ∧
      (es.foldl (MlogFile.write.turn L) s).m.msgChan.queue <:+ s.m.msgChan.queue := by
  induction es with
  | nil => intro s h; exact ⟨h, List.suffix_refl _⟩
  | cons e es ih =>
    intro s h
    simp only [List.foldl_cons]
    have key : ((MlogFile.write.turn L s e).m.worker = Worker.running ∨
          ((MlogFile.write.turn L s e).m.worker = Worker.returned ∧
            (MlogFile.write.turn L s e).m.msgChan.closed = true ∧
            (MlogFile.write.turn L s e).m.msgChan.queue = [])) ∧
        (MlogFile.write.turn L s e).m.msgChan.queue <:+ s.m.msgChan.queue := by
      rcases h with hrun | ⟨hret, hc, hq⟩
      · cases e with
        | tick now =>
          have a := turn_tick_keeps L s now
          rw [a.1, a.2.1]
          exact ⟨Or.inl hrun, List.suffix_refl _⟩
        | recv =>
          cases hq : s.m.msgChan.queue with
          | cons msg rest =>
            have a := turn_recv_keeps L s msg rest hrun hq
            rw [a.1, a.2.1]
            exact ⟨Or.inl rfl, List.suffix_cons msg rest⟩
          | nil =>
            cases hc : s.m.msgChan.closed with
            | false =>
              rw [turn_recv_empty L s hq hc]
              exact ⟨Or.inl hrun, by rw [hq]⟩
            | true =>
              have a := turn_recv_returns L s hrun hq hc
              rw [a.1, a.2.1]
              exact ⟨Or.inr ⟨rfl, hc, hq⟩, by rw [hq]⟩
      · rw [turn_not_running L s e (by rw [hret]; decide)]
        exact ⟨Or.inr ⟨hret, hc, hq⟩, List.suffix_refl _⟩
    obtain ⟨h1, h2⟩ := ih _ key.1
    exact ⟨h1, h2.trans key.2⟩

theorem enter_result (L : Lib) (s : Sys) (now : Time) (hsp : s.m.worker = Worker.spawned) :
    ((s.m.checkFile L s.w now).2.1 ≠ none →
      (MlogFile.write.enter L s now).m.worker = Worker.panicked) ∧
    ((s.m.checkFile L s.w now).2.1 = none →
      (MlogFile.write.enter L s now).m.worker = Worker.running) ∧
    (MlogFile.write.enter L s now).m.msgChan = s.m.msgChan := by
  unfold MlogFile.write.enter
  rw [if_pos hsp]
  have a := checkFile_keeps L s.m s.w now
  rcases hck : s.m.checkFile L s.w now with ⟨m1, e, w1⟩
  rw [hck] at a
  cases e with
  | none =>
    refine ⟨fun h => absurd rfl h, fun _ => rfl, a.2.1⟩
  | some err =>
    refine ⟨fun _ => rfl, fun h => Option.noConfusion h, ?_⟩
    simp only [MlogFile.write.deferred]
    exact (Flush_keeps m1 w1).2.1.trans a.2.1

/-- C6 (amended).  Whatever the operating system does, failures included, a worker in its
loop stays in its loop on a tick (`Flush` then `checkFile`) and on the receipt of a message
(`writeString`): it neither returns nor panics; a tick leaves the channel as it is and a
receipt removes the received message only.  It returns only on a receive that finds the
channel empty and closed.  The `checkFile` made at start-up is different: when it fails
the worker panics, and when it succeeds the worker enters its loop; the channel is left as
it is in both cases.  So a run of `write` whose first `checkFile` succeeds never panics,
and at any point of it the worker is in its loop, or has returned from a channel that is
closed and empty; what is left in the channel is a tail of what was in it. -/
theorem worker_survives_failures (L : Lib) :
    (∀ s : Sys, s.m.worker = Worker.running →
      (∀ now, (MlogFile.write.turn L s (Event.tick now)).m.worker = Worker.running ∧
        (MlogFile.write.turn L s (Event.tick now)).m.msgChan = s.m.msgChan) ∧
      (∀ msg rest, s.m.msgChan.queue = msg :: rest →
        (MlogFile.write.turn L s Event.recv).m.worker = Worker.running ∧
        (MlogFile.write.turn L s Event.recv).m.msgChan = { s.m.msgChan with queue := rest }) ∧
      (s.m.msgChan.queue = [] → s.m.msgChan.closed = false →
        MlogFile.write.turn L s Event.recv = s) ∧
      (s.m.msgChan.queue = [] → s.m.msgChan.closed = true →
        (MlogFile.write.turn L s Event.recv).m.worker = Worker.returned ∧
        (MlogFile.write.turn L s Event.recv).m.msgChan = s.m.msgChan)) ∧
    (∀ (s : Sys) (now : Time), s.m.worker = Worker.spawned →
      ((s.m.checkFile L s.w now).2.1 ≠ none →
        (MlogFile.write.enter L s now).m.worker = Worker.panicked) ∧
      ((s.m.checkFile L s.w now).2.1 = none →
        (MlogFile.write.enter L s now).m.worker = Worker.running) ∧
      (MlogFile.write.enter L s now).m.msgChan = s.m.msgChan) ∧
    (∀ (s : Sys) (t0 : Time) (es : List Event), s.m.worker = Worker.spawned →
      (s.m.checkFile L s.w t0).2.1 = none →
      ((MlogFile.write L s t0 es).m.worker = Worker.running ∨
        ((MlogFile.write L s t0 es).m.worker = Worker.returned ∧
          (MlogFile.write L s t0 es).m.msgChan.closed = true ∧
          (MlogFile.write L s t0 es).m.msgChan.queue = [])) ∧
      (MlogFile.write L s t0 es).m.msgChan.queue <:+ s.m.msgChan.queue) := by
  refine ⟨?_, ?_, ?_⟩
  · intro s hrun
    refine ⟨?_, ?_, ?_, ?_⟩
    · intro now
      have a := turn_tick_keeps L s now
      exact ⟨a.1.trans hrun, a.2.1⟩
    · intro msg rest hq
      have a := turn_recv_keeps L s msg rest hrun hq
      exact ⟨a.1, a.2.1⟩
    · intro hq hc
      exact turn_recv_empty L s hq hc
    · intro hq hc
      have a := turn_recv_returns L s hrun hq hc
      exact ⟨a.1, a.2.1⟩
  · intro s now hsp
    exact enter_result L s now hsp
  · intro s t0 es hsp hok
    have a := enter_result L s t0 hsp
    have b := turns_alive L es (MlogFile.write.enter L s t0) (Or.inl (a.2.1 hok))
    unfold MlogFile.write
    rw [a.2.2] at b
    exact b

/-- C6, witness: the file of 10 o'clock is open, `a` and `b` wait, and the tick of
11:00:01 finds an operating system that refuses to make the directory: `checkFile` returns
the error, the worker stays in its loop and the channel keeps `a` and `b`. -/
theorem worker_survives_failures_witness :
    ((failing (Time.civil 2024 1 1 10 0 0) ["a".data, "b".data]).m.checkFile goLib
        (failing (Time.civil 2024 1 1 10 0 0) ["a".data, "b".data]).w
        (Time.civil 2024 1 1 11 0 1)).2.1 = some (Error.createDir "logs/cat".data) ∧
    (MlogFile.write.turn goLib (failing (Time.civil 2024 1 1 10 0 0) ["a".data, "b".data])
        (Event.tick (Time.civil 2024 1 1 11 0 1))).m.worker = Worker.running ∧
    (MlogFile.write.turn goLib (failing (Time.civil 2024 1 1 10 0 0) ["a".data, "b".data])
        (Event.tick (Time.civil 2024 1 1 11 0 1))).m.msgChan =
      ⟨["a".data, "b".data], 100, false⟩ :=
  ⟨by decide,
    (((worker_survives_failures goLib).1
      (failing (Time.civil 2024 1 1 10 0 0) ["a".data, "b".data]) rfl).1
      (Time.civil 2024 1 1 11 0 1)).1,
    (((worker_survives_failures goLib).1
      (failing (Time.civil 2024 1 1 10 0 0) ["a".data, "b".data]) rfl).1
      (Time.civil 2024 1 1 11 0 1)).2⟩

/-- C6, counterexample: the `checkFile` made at start-up fails.  The worker panics with the
message `a` still in the channel, and a `Close` that follows does not return. -/
theorem initial_checkFile_counterexample :
    (failingNew.m.checkFile goLib failingNew.w (Time.civil 2024 1 1 10 0 0)).2.1 ≠ none ∧
    (MlogFile.write.enter goLib failingNew (Time.civil 2024 1 1 10 0 0)).m.worker =
      Worker.panicked ∧
    (MlogFile.write.enter goLib failingNew (Time.civil 2024 1 1 10 0 0)).m.msgChan.queue =
      ["a".data] ∧
    MlogFile.Close goLib failingNew (Time.civil 2024 1 1 10 0 0) (fun _ => []) =
      Outcome.panic := by
  decide

/-! ## Theorems: rotation and the messages -/

theorem hourly_eq :
    hourly = ['2', '0', '0', '6', '-', '0', '1', '-', '0', '2', '-', '1', '5', '.', 'l', 'o', 'g'] := by
  decide

theorem layoutFormat_hourly (t : Time) :
    layoutFormat t hourly =
      four t.Year ++ ['-'] ++ two t.Month ++ ['-'] ++ two t.Day ++ ['-'] ++ two t.Hour ++
        ['.', 'l', 'o', 'g'] := by
  rw [hourly_eq]
  simp [layoutFormat]

theorem two_succ_ne (h : Int) (h0 : 0 ≤ h) (h1 : h ≤ 22) : two h ≠ two (h + 1) := by
  interval_cases h <;> decide

/-- C5 (amended).  The worker makes the rotation check when it starts and on each tick, not
before each write.  (1) After any run of a fresh destination (the object `m0` that
`NewMlogFile` returns) and `Close`, with no failure,
the files are the closed files of a list of groups of messages: each file is named by the
layout at the time of the check that opened it and holds the whole lines of its group, and
the groups, in order, make up the messages sent; so every message is in exactly one file.
(2) When the worker starts at `t0`, receives `m1`, takes a tick read at `tk` whose hour of
the day differs from that of `t0`, and receives `m2`, the files are the one named at `t0`
with the line of `m1` and the one named at `tk` with the line of `m2`.  (3) With the layout
`2006-01-02-15.log`, when `t0` and `tk` are on the same day and the hour of `tk` is the
hour of `t0` plus one, the two names differ exactly in the hour field, and the two paths
are distinct. -/
theorem rotation_on_ticks :
    (∀ (L : Lib) (dir relPath : Bytes) (buffer : Int) (m0 : MlogFile) (w0 : World)
        (acts : List Action) (s1 : Sys) (t0 : Time) (sched : Nat → List Time), w0.NoFailure →
      NewMlogFile L dir relPath buffer = Outcome.ret m0 →
      Sys.run L ⟨m0, w0⟩ acts = some s1 →
      ∃ (s2 : Sys) (G : List (Time × List Bytes)),
        MlogFile.Close L s1 t0 sched = Outcome.ret (false, s2) ∧
        s2.w.files = w0.files ++ G.map (fileOf L dir relPath) ∧
        (G.map Prod.snd).flatten = sent acts) ∧
    (∀ (L : Lib) (dir relPath : Bytes) (buffer : Int) (m0 : MlogFile) (w0 : World)
        (m1 m2 : Bytes) (t0 tk t3 : Time) (s1 : Sys), w0.NoFailure → tk.Hour ≠ t0.Hour →
      NewMlogFile L dir relPath buffer = Outcome.ret m0 →
      Sys.run L ⟨m0, w0⟩
        [Action.enter t0, Action.Write m1, Action.turn Event.recv,
          Action.turn (Event.tick tk), Action.Write m2, Action.turn Event.recv] = some s1 →
      ∃ s2, MlogFile.Close L s1 t3 (fun _ => []) = Outcome.ret (false, s2) ∧
        s2.w.files = w0.files ++
          [⟨L.Join dir (L.Format t0 relPath), m1 ++ newline, true⟩,
           ⟨L.Join dir (L.Format tk relPath), m2 ++ newline, true⟩]) ∧
    (∀ (t0 tk : Time) (dir : Bytes), t0.Date = tk.Date → tk.Hour = t0.Hour + 1 →
      ∃ pre, goLib.Format t0 hourly = pre ++ two t0.Hour ++ ".log".data ∧
        goLib.Format tk hourly = pre ++ two (t0.Hour + 1) ++ ".log".data ∧
        two t0.Hour ≠ two (t0.Hour + 1) ∧
        goLib.Join dir (goLib.Format t0 hourly) ≠ goLib.Join dir (goLib.Format tk hourly)) := by
  refine ⟨?_, ?_, ?_⟩
  · intro L dir relPath buffer m0 w0 acts s1 t0 sched hnf hnew hrun
    have hrep := run_rep L dir relPath w0.files acts _ s1 _
      (Rep_new L dir relPath buffer m0 w0 hnf hnew) hrun
    obtain ⟨s2, c1, _, _, _, _, c6, _⟩ := Close_rep L dir relPath w0.files s1 _ t0 sched hrep
    have hwhole := Whole_run L dir relPath acts ⟨none, []⟩ [] rfl
    obtain ⟨G, g1, g2⟩ := Whole_close L dir relPath _ _ t0 sched hwhole
    exact ⟨s2, G, c1, by rw [c6, g1], by rw [g2]; rfl⟩
  · intro L dir relPath buffer m0 w0 m1 m2 t0 tk t3 s1 hnf hdue hnew hrun
    have hrep := run_rep L dir relPath w0.files _ _ s1 _
      (Rep_new L dir relPath buffer m0 w0 hnf hnew) hrun
    obtain ⟨s2, c1, _, _, _, _, c6, _⟩ :=
      Close_rep L dir relPath w0.files s1 _ t3 (fun _ => []) hrep
    refine ⟨s2, c1, ?_⟩
    rw [c6]
    simp [Abs.run, Abs.step, Abs.close, Ghost.init, Ghost.recv, Ghost.tick, Ghost.drain,
      Ghost.ticks, Ghost.files, closedFile, hdue]
  · intro t0 tk dir hdate hhour
    have hb : 0 ≤ t0.Hour ∧ t0.Hour ≤ 22 := by
      have h1 : tk.Hour ≤ 23 := by unfold Time.Hour; omega
      have h2 : 0 ≤ t0.Hour := by unfold Time.Hour; omega
      omega
    have hne := two_succ_ne t0.Hour hb.1 hb.2
    have hy : t0.Year = tk.Year := by unfold Time.Year; rw [hdate]
    have hm : t0.Month = tk.Month := by unfold Time.Month; rw [hdate]
    have hd : t0.Day = tk.Day := by unfold Time.Day; rw [hdate]
    have f0 : goLib.Format t0 hourly = layoutFormat t0 hourly := rfl
    have fk : goLib.Format tk hourly = layoutFormat tk hourly := rfl
    have hlog : ".log".data = ['.', 'l', 'o', 'g'] := by decide
    refine ⟨four t0.Year ++ ['-'] ++ two t0.Month ++ ['-'] ++ two t0.Day ++ ['-'], ?_, ?_,
      hne, ?_⟩
    · rw [f0, layoutFormat_hourly, hlog]
    · rw [fk, layoutFormat_hourly, hlog, ← hy, ← hm, ← hd, hhour]
    · rw [f0, fk, layoutFormat_hourly, layoutFormat_hourly, ← hy, ← hm, ← hd, hhour]
      intro heq
      apply hne
      simpa [goLib] using heq

/-- C5, witness: the run `tickActs` of the destination `logs/cat`, then `Close`. -/
theorem rotation_on_ticks_witness :
    ∃ s2, MlogFile.Close goLib tickState (Time.civil 2024 1 1 11 0 2) (fun _ => []) =
        Outcome.ret (false, s2) ∧
      s2.w.files = [] ++
        [⟨goLib.Join "logs/cat".data (goLib.Format (Time.civil 2024 1 1 10 59 58) hourly),
            "a".data ++ newline, true⟩,
         ⟨goLib.Join "logs/cat".data (goLib.Format (Time.civil 2024 1 1 11 0 0) hourly),
            "b".data ++ newline, true⟩] :=
  rotation_on_ticks.2.1 goLib "logs/cat".data hourly 100
    (NewMlogFile.object "logs/cat".data hourly 100) ⟨[], []⟩ "a".data "b".data
    (Time.civil 2024 1 1 10 59 58) (Time.civil 2024 1 1 11 0 0) (Time.civil 2024 1 1 11 0 2)
    tickState (by decide) (by decide) (by decide) (by decide)

/-- C5, counterexample: the run `lateTrace`, then `Close`.  The message `b` is received at
11:00:00.1, before the first tick of the hour, and its line goes to the file of 10
o'clock: there is no file of 11 o'clock. -/
theorem write_before_tick_counterexample :
    wellTimed lateTrace = true ∧
    NewMlogFile goLib "logs/cat".data hourly 100 =
      Outcome.ret (NewMlogFile.object "logs/cat".data hourly 100) ∧
    Sys.run goLib ⟨NewMlogFile.object "logs/cat".data hourly 100, ⟨[], []⟩⟩
      (lateTrace.map Stamped.act) = some lateState ∧
    (lateTrace.map Stamped.time).getLast? = some ((Time.civil 2024 1 1 11 0 0).plus 100) ∧
    goLib.Join "logs/cat".data (goLib.Format ((Time.civil 2024 1 1 11 0 0).plus 100) hourly) =
      "logs/cat/2024-01-01-11.log".data ∧
    MlogFile.Close goLib lateState ((Time.civil 2024 1 1 11 0 0).plus 150) (fun _ => []) =
      Outcome.ret (false,
        ⟨{ lateState.m with
            bufWrite := some ⟨0, [], false⟩, msgChan := ⟨[], 100, true⟩,
            wg := 0, worker := Worker.returned },
         ⟨[⟨"logs/cat/2024-01-01-10.log".data, "a\nb\n".data, true⟩], []⟩⟩) := by
  decide

/-! ## Theorems: the map of `Mlog` -/

theorem lookup_append_some (k : Bytes) (l : List (Bytes × Nat)) (e : Bytes × Nat) (p : Nat)
    (h : l.lookup k = some p) : (l ++ [e]).lookup k = some p := by
  induction l with
  | nil => simp at h
  | cons a l ih =>
    rcases a with ⟨a1, a2⟩
    simp only [List.cons_append, List.lookup_cons] at h ⊢
    cases hk : (k == a1) with
    | true => rw [hk] at h; exact h
    | false => rw [hk] at h; exact ih h

theorem lookup_append_none (k : Bytes) (l : List (Bytes × Nat)) (key : Bytes) (p : Nat)
    (h : l.lookup k = none) :
    (l ++ [(key, p)]).lookup k = if k = key then some p else none := by
  induction l with
  | nil =>
    by_cases hk : k = key
    · simp [List.lookup, hk]
    · have hb : (k == key) = false := by simp [hk]
      simp [List.lookup, hk, hb]
  | cons a l ih =>
    rcases a with ⟨a1, a2⟩
    simp only [List.cons_append, List.lookup_cons] at h ⊢
    cases hk : (k == a1) with
    | true => rw [hk] at h; simp at h
    | false => rw [hk] at h; exact ih h

theorem filter_of_lookup_none (k : Bytes) (l : List (Bytes × Nat)) (h : l.lookup k = none) :
    l.filter (fun e => e.1 = k) = [] := by
  induction l with
  | nil => rfl
  | cons a l ih =>
    rcases a with ⟨a1, a2⟩
    simp only [List.lookup_cons] at h
    cases hk : (k == a1) with
    | true => rw [hk] at h; simp at h
    | false =>
      rw [hk] at h
      have hne : ¬ a1 = k := fun e => by simp [e] at hk
      simp [List.filter_cons, hne, ih h]

theorem lookup_none_of_not_mem (k : Bytes) (l : List (Bytes × Nat))
    (h : k ∉ l.map Prod.fst) : l.lookup k = none := by
  induction l with
  | nil => rfl
  | cons a l ih =>
    rcases a with ⟨a1, a2⟩
    simp only [List.map_cons, List.mem_cons, not_or] at h
    simp only [List.lookup_cons]
    have hk : (k == a1) = false := by simp [h.1]
    rw [hk]
    exact ih h.2

theorem entries_of_lookup_some (k : Bytes) (l : List (Bytes × Nat)) (p : Nat)
    (hnd : (l.map Prod.fst).Nodup) (h : l.lookup k = some p) :
    (l.filter (fun e => e.1 = k)).length = 1 := by
  induction l with
  | nil => simp at h
  | cons a l ih =>
    rcases a with ⟨a1, a2⟩
    simp only [List.map_cons, List.nodup_cons] at hnd
    simp only [List.lookup_cons] at h
    cases hk : (k == a1) with
    | true =>
      have hk1 : k = a1 := by simpa using hk
      subst hk1
      have := filter_of_lookup_none k l (lookup_none_of_not_mem k l hnd.1)
      simp [List.filter_cons, this]
    | false =>
      rw [hk] at h
      have hne : ¬ a1 = k := fun e => by simp [e] at hk
      simp [List.filter_cons, hne, ih hnd.2 h]

theorem not_mem_of_lookup_none (k : Bytes) (l : List (Bytes × Nat)) (h : l.lookup k = none) :
    k ∉ l.map Prod.fst := by
  induction l with
  | nil => simp
  | cons a l ih =>
    rcases a with ⟨a1, a2⟩
    simp only [List.lookup_cons] at h
    cases hk : (k == a1) with
    | true => rw [hk] at h; simp at h
    | false =>
      rw [hk] at h
      have hne : ¬ k = a1 := fun e => by simp [e] at hk
      simp only [List.map_cons, List.mem_cons, not_or]
      exact ⟨hne, ih h⟩

theorem object_Write (dir relPath msg : Bytes) (cap : Nat) (h : 0 < cap) :
    (NewMlogFile.object dir relPath cap).Write msg =
      Outcome.ret { NewMlogFile.object dir relPath cap with
        msgChan := { (NewMlogFile.object dir relPath cap).msgChan with queue := [msg] } } := by
  unfold MlogFile.Write
  have hc : (NewMlogFile.object dir relPath cap).msgChan.closed = false := rfl
  have hq : (NewMlogFile.object dir relPath cap).msgChan.queue = [] := rfl
  have hcap : (NewMlogFile.object dir relPath cap).msgChan.cap = cap := rfl
  rw [hc, hq, hcap]
  simp only [Bool.false_eq_true, if_false, List.length_nil, ge_iff_le, List.nil_append]
  rw [if_neg (by omega)]

theorem NewMlogFile_cases (L : Lib) (dir relPath : Bytes) (buffer : Int) :
    (∃ m0, NewMlogFile L dir relPath buffer = Outcome.ret m0) ∨
      NewMlogFile L dir relPath buffer = Outcome.panic := by
  rw [NewMlogFile_eq]
  by_cases hc : (if buffer ≤ 0 then (100 : Int) else buffer).toNat ≤ L.maxChan
  · rw [if_pos hc]
    exact Or.inl ⟨_, rfl⟩
  · rw [if_neg hc]
    exact Or.inr rfl

theorem NewMlogFile_panic_iff (L : Lib) (dir relPath : Bytes) (buffer : Int) :
    NewMlogFile L dir relPath buffer ≠ Outcome.panic ↔
      (if buffer ≤ 0 then (100 : Int) else buffer) ≤ (L.maxChan : Int) := by
  rw [NewMlogFile_eq]
  have hpos : 0 < (if buffer ≤ 0 then (100 : Int) else buffer) := by
    by_cases h1 : buffer ≤ 0
    · rw [if_pos h1]
      decide
    · rw [if_neg h1]
      omega
  generalize (if buffer ≤ 0 then (100 : Int) else buffer) = c at hpos
  by_cases hc : c.toNat ≤ L.maxChan
  · rw [if_pos hc]
    constructor
    · intro _
      omega
    · intro _ x
      exact Outcome.noConfusion x
  · rw [if_neg hc]
    constructor
    · intro x
      exact absurd rfl x
    · intro x
      omega

theorem locked_hit (L : Lib) (P : Prog) (relPath : Bytes) (ptr : Nat)
    (h : P.mlog.logFile.lookup (L.Join P.mlog.logCfg.Dir relPath) = some ptr) :
    Mlog.write.locked L P relPath = Outcome.ret (P, ptr) := by
  unfold Mlog.write.locked
  simp only [h]

theorem locked_miss (L : Lib) (P : Prog) (relPath : Bytes) (m0 : MlogFile)
    (h : P.mlog.logFile.lookup (L.Join P.mlog.logCfg.Dir relPath) = none)
    (hnew : NewMlogFile L (L.Join P.mlog.logCfg.Dir relPath) P.mlog.logCfg.SubRelPath
      P.mlog.logCfg.Buffer = Outcome.ret m0) :
    Mlog.write.locked L P relPath =
      Outcome.ret
        ({ P with
            mlog := { P.mlog with logFile :=
              P.mlog.logFile ++ [(L.Join P.mlog.logCfg.Dir relPath, P.heap.length)] },
            heap := P.heap ++ [m0] },
          P.heap.length) := by
  unfold Mlog.write.locked
  simp only [h, hnew]

theorem locked_panic (L : Lib) (P : Prog) (relPath : Bytes)
    (h : P.mlog.logFile.lookup (L.Join P.mlog.logCfg.Dir relPath) = none)
    (hnew : NewMlogFile L (L.Join P.mlog.logCfg.Dir relPath) P.mlog.logCfg.SubRelPath
      P.mlog.logCfg.Buffer = Outcome.panic) :
    Mlog.write.locked L P relPath = Outcome.panic := by
  unfold Mlog.write.locked
  simp only [h, hnew]

theorem locked_panic_inv (L : Lib) (P : Prog) (relPath : Bytes)
    (h : Mlog.write.locked L P relPath = Outcome.panic) :
    P.mlog.logFile.lookup (L.Join P.mlog.logCfg.Dir relPath) = none ∧
      NewMlogFile L (L.Join P.mlog.logCfg.Dir relPath) P.mlog.logCfg.SubRelPath
        P.mlog.logCfg.Buffer = Outcome.panic := by
  cases hl : P.mlog.logFile.lookup (L.Join P.mlog.logCfg.Dir relPath) with
  | some ptr =>
    rw [locked_hit L P relPath ptr hl] at h
    exact Outcome.noConfusion h
  | none =>
    refine ⟨rfl, ?_⟩
    rcases NewMlogFile_cases L (L.Join P.mlog.logCfg.Dir relPath) P.mlog.logCfg.SubRelPath
      P.mlog.logCfg.Buffer with ⟨m0, hm⟩ | hp
    · rw [locked_miss L P relPath m0 hl hm] at h
      exact Outcome.noConfusion h
    · exact hp

theorem locked_not_blocked (L : Lib) (P : Prog) (relPath : Bytes) :
    Mlog.write.locked L P relPath ≠ Outcome.blocked := by
  intro h
  cases hl : P.mlog.logFile.lookup (L.Join P.mlog.logCfg.Dir relPath) with
  | some ptr =>
    rw [locked_hit L P relPath ptr hl] at h
    exact Outcome.noConfusion h
  | none =>
    rcases NewMlogFile_cases L (L.Join P.mlog.logCfg.Dir relPath) P.mlog.logCfg.SubRelPath
      P.mlog.logCfg.Buffer with ⟨m0, hm⟩ | hp
    · rw [locked_miss L P relPath m0 hl hm] at h
      exact Outcome.noConfusion h
    · rw [locked_panic L P relPath hl hp] at h
      exact Outcome.noConfusion h

/-- The result of `Mlog.write` when the map has the key. -/
theorem write_hit (L : Lib) (P : Prog) (relPath msg : Bytes) (ptr : Nat)
    (h : P.mlog.logFile.lookup (L.Join P.mlog.logCfg.Dir relPath) = some ptr) :
    Mlog.write L P relPath msg =
      match P.heap[ptr]? with
      | none => (P, Outcome.panic)
      | some f =>
        match f.Write msg with
        | Outcome.ret f1 => ({ P with heap := P.heap.set ptr f1 }, Outcome.ret ())
        | Outcome.blocked => (P, Outcome.blocked)
        | Outcome.panic => (P, Outcome.panic) := by
  unfold Mlog.write
  rw [locked_hit L P relPath ptr h]

/-- The result of `Mlog.write` when the map does not have the key and `NewMlogFile`
returns. -/
theorem write_miss (L : Lib) (P : Prog) (relPath msg : Bytes) (m0 : MlogFile)
    (h : P.mlog.logFile.lookup (L.Join P.mlog.logCfg.Dir relPath) = none)
    (hnew : NewMlogFile L (L.Join P.mlog.logCfg.Dir relPath) P.mlog.logCfg.SubRelPath
      P.mlog.logCfg.Buffer = Outcome.ret m0) :
    Mlog.write L P relPath msg =
      ({ P with
          mlog := { P.mlog with logFile :=
            P.mlog.logFile ++ [(L.Join P.mlog.logCfg.Dir relPath, P.heap.length)] },
          heap := P.heap ++ [{ m0 with msgChan := { m0.msgChan with queue := [msg] } }] },
        Outcome.ret ()) := by
  obtain ⟨e, hpos, _⟩ := NewMlogFile_ret L _ _ _ m0 hnew
  unfold Mlog.write
  rw [locked_miss L P relPath m0 h hnew]
  simp only [List.getElem?_concat_length]
  rw [e, object_Write _ _ _ _ hpos]
  simp

/-- The result of `Mlog.write` when the map does not have the key and `NewMlogFile`
panics. -/
theorem write_panic (L : Lib) (P : Prog) (relPath msg : Bytes)
    (h : Mlog.write.locked L P relPath = Outcome.panic) :
    Mlog.write L P relPath msg = (P, Outcome.panic) := by
  unfold Mlog.write
  rw [h]

/-- The map of `Mlog.write` after its locked part. -/
theorem write_logFile (L : Lib) (P : Prog) (relPath msg : Bytes) :
    (Mlog.write L P relPath msg).1.mlog.logFile = P.mlog.logFile ∨
      (P.mlog.logFile.lookup (L.Join P.mlog.logCfg.Dir relPath) = none ∧
        Mlog.write.locked L P relPath ≠ Outcome.panic ∧
        (Mlog.write L P relPath msg).1.mlog.logFile =
          P.mlog.logFile ++ [(L.Join P.mlog.logCfg.Dir relPath, P.heap.length)]) := by
  cases hl : P.mlog.logFile.lookup (L.Join P.mlog.logCfg.Dir relPath) with
  | some ptr =>
    left
    rw [write_hit L P relPath msg ptr hl]
    cases P.heap[ptr]? with
    | none => rfl
    | some f => cases hW : f.Write msg <;> simp only [hW]
  | none =>
    rcases NewMlogFile_cases L (L.Join P.mlog.logCfg.Dir relPath) P.mlog.logCfg.SubRelPath
      P.mlog.logCfg.Buffer with ⟨m0, hm⟩ | hp
    · right
      refine ⟨rfl, ?_, ?_⟩
      · rw [locked_miss L P relPath m0 hl hm]
        exact fun x => Outcome.noConfusion x
      · rw [write_miss L P relPath msg m0 hl hm]
    · left
      rw [write_panic L P relPath msg (locked_panic L P relPath hl hp)]

theorem write_keeps (L : Lib) (P : Prog) (relPath msg k : Bytes) (p : Nat)
    (h : P.mlog.logFile.lookup k = some p) :
    (Mlog.write L P relPath msg).1.mlog.logFile.lookup k = some p := by
  rcases write_logFile L P relPath msg with e | ⟨_, _, e⟩
  · rw [e]
    exact h
  · rw [e]
    exact lookup_append_some k _ _ p h

theorem Flush_loop_mlog (l : List (Bytes × Nat)) :
    ∀ P : Prog, (Mlog.Flush.loop l P).mlog = P.mlog ∧
      (Mlog.Flush.loop l P).heap.length = P.heap.length := by
  induction l with
  | nil => intro P; exact ⟨rfl, rfl⟩
  | cons a l ih =>
    intro P
    rcases a with ⟨k, ptr⟩
    simp only [Mlog.Flush.loop]
    cases P.heap[ptr]? with
    | none => exact ih P
    | some f =>
      simp only []
      have := ih { P with heap := P.heap.set ptr (f.Flush P.w).1, w := (f.Flush P.w).2 }
      exact ⟨this.1, by rw [this.2]; simp⟩

theorem write_call_keeps (L : Lib) (S : Prog × Mux) (relPath msg k : Bytes) (p : Nat)
    (h : S.1.mlog.logFile.lookup k = some p) :
    (Mlog.write.call L S relPath msg).1.1.mlog.logFile.lookup k = some p := by
  unfold Mlog.write.call
  cases S.2 with
  | free =>
    simp only []
    cases hlk : Mlog.write.locked L S.1 relPath with
    | ret r => exact write_keeps L S.1 relPath msg k p h
    | blocked => exact h
    | panic => exact h
  | writeHeld => exact h
  | readHeld b => exact h

theorem Flush_call_mlog (S : Prog × Mux) : (Mlog.Flush.call S).1.1.mlog = S.1.mlog := by
  unfold Mlog.Flush.call
  cases S.2 with
  | free => exact (Flush_loop_mlog _ S.1).1
  | writeHeld => rfl
  | readHeld b =>
    cases b with
    | false => exact (Flush_loop_mlog _ S.1).1
    | true => rfl

theorem step_keeps (L : Lib) (S : Prog × Mux) (op : Op) (k : Bytes) (p : Nat)
    (h : S.1.mlog.logFile.lookup k = some p) :
    (Prog.step L S op).1.mlog.logFile.lookup k = some p := by
  cases op with
  | write relPath msg => exact write_call_keeps L S relPath msg k p h
  | Flush =>
    simp only [Prog.step]
    rw [Flush_call_mlog]
    exact h
  | file ptr a =>
    simp only [Prog.step]
    cases S.1.heap[ptr]? with
    | none => exact h
    | some f =>
      simp only []
      cases Sys.step L ⟨f, S.1.w⟩ a with
      | none => exact h
      | some s => exact h

theorem run_keeps (L : Lib) (ops : List Op) :
    ∀ (S : Prog × Mux) (k : Bytes) (p : Nat), S.1.mlog.logFile.lookup k = some p →
      (Prog.run L S ops).1.mlog.logFile.lookup k = some p := by
  induction ops with
  | nil => intro S k p h; exact h
  | cons op ops ih =>
    intro S k p h
    simp only [Prog.run, List.foldl_cons]
    exact ih _ k p (step_keeps L S op k p h)

theorem run_writeHeld (L : Lib) (P : Prog) (ops : List Op) (h : ∀ op ∈ ops, op.isCall = true) :
    Prog.run L (P, Mux.writeHeld) ops = (P, Mux.writeHeld) := by
  induction ops with
  | nil => rfl
  | cons op ops ih =>
    simp only [Prog.run, List.foldl_cons]
    have hop := h op (List.mem_cons_self _ _)
    have hstep : Prog.step L (P, Mux.writeHeld) op = (P, Mux.writeHeld) := by
      cases op with
      | write relPath msg => rfl
      | Flush => rfl
      | file ptr a => exact Bool.noConfusion hop
    rw [hstep]
    exact ih (fun o ho => h o (List.mem_cons_of_mem _ ho))

theorem Write_ret (f f1 : MlogFile) (msg : Bytes) (h : f.Write msg = Outcome.ret f1) :
    f1 = { f with msgChan := { f.msgChan with queue := f.msgChan.queue ++ [msg] } } ∧
      f.msgChan.closed = false ∧ f.msgChan.queue.length < f.msgChan.cap := by
  unfold MlogFile.Write at h
  split_ifs at h with h1 h2
  simp only [Outcome.ret.injEq] at h
  exact ⟨h.symm, by simpa using h1, by omega⟩

/-- C7 (amended).  Get or create, for a call `Mlog.write(relPath, msg)` that gets the lock,
in every state of the program.  The keys of the map stay distinct, and the map has exactly
one entry under `Join(Dir, relPath)` after the call unless `NewMlogFile` has panicked.
When the key was there, the map, the number of `MlogFile` objects and the operating system
are as before (no channel and no worker is made) and the send is made on the object of the
entry: when it returns, `msg` is at the tail of the queue of that object and nothing else
has changed; it does not return when the channel is full (the caller waits) or closed
(panic).  When the key was not there and `NewMlogFile` returns, one entry is added for it,
with the new object, whose queue holds `msg`.  `NewMlogFile` returns exactly when `Buffer`
is zero or negative (and 100 is a capacity `make` accepts) or a capacity `make` accepts;
otherwise it panics in the locked part: the call panics, the program is unchanged, the map
has no entry under the key, and the lock stays held, so that every later call of `write`
and of `Flush` waits and changes nothing.  A call made while the lock is held by a call
that has panicked waits and leaves the program as it is.  The entries under the other keys
are the same, and no sequence of calls of `write` and `Flush`, and of actions of the
workers, in any state of the lock, changes the object of an entry. -/
theorem write_get_or_create (L : Lib) (P : Prog) (relPath msg : Bytes) :
    ((P.mlog.logFile.map Prod.fst).Nodup →
      ((Mlog.write L P relPath msg).1.mlog.logFile.map Prod.fst).Nodup ∧
      (Mlog.write.locked L P relPath ≠ Outcome.panic →
        (Mlog.write L P relPath msg).1.mlog.entries (L.Join P.mlog.logCfg.Dir relPath) = 1)) ∧
    (∀ ptr f, P.mlog.logFile.lookup (L.Join P.mlog.logCfg.Dir relPath) = some ptr →
      P.heap[ptr]? = some f →
      (Mlog.write L P relPath msg).1.mlog = P.mlog ∧
      (Mlog.write L P relPath msg).1.heap.length = P.heap.length ∧
      (Mlog.write L P relPath msg).1.w = P.w ∧
      ((Mlog.write L P relPath msg).2 = Outcome.ret () →
        (Mlog.write L P relPath msg).1.heap = P.heap.set ptr
          { f with msgChan := { f.msgChan with queue := f.msgChan.queue ++ [msg] } }) ∧
      ((Mlog.write L P relPath msg).2 = Outcome.ret () ↔
        (f.msgChan.closed = false ∧ f.msgChan.queue.length < f.msgChan.cap)) ∧
      ((Mlog.write L P relPath msg).2 = Outcome.panic ↔ f.msgChan.closed = true)) ∧
    (∀ m0, P.mlog.logFile.lookup (L.Join P.mlog.logCfg.Dir relPath) = none →
      NewMlogFile L (L.Join P.mlog.logCfg.Dir relPath) P.mlog.logCfg.SubRelPath
        P.mlog.logCfg.Buffer = Outcome.ret m0 →
      m0 = NewMlogFile.object (L.Join P.mlog.logCfg.Dir relPath) P.mlog.logCfg.SubRelPath
        (if P.mlog.logCfg.Buffer ≤ 0 then (100 : Int) else P.mlog.logCfg.Buffer).toNat ∧
      Mlog.write L P relPath msg =
        ({ P with
            mlog := { P.mlog with logFile :=
              P.mlog.logFile ++ [(L.Join P.mlog.logCfg.Dir relPath, P.heap.length)] },
            heap := P.heap ++
              [{ m0 with msgChan := { m0.msgChan with queue := [msg] } }] },
          Outcome.ret ())) ∧
    (NewMlogFile L (L.Join P.mlog.logCfg.Dir relPath) P.mlog.logCfg.SubRelPath
        P.mlog.logCfg.Buffer ≠ Outcome.panic ↔
      (if P.mlog.logCfg.Buffer ≤ 0 then (100 : Int) else P.mlog.logCfg.Buffer) ≤
        (L.maxChan : Int)) ∧
    (P.mlog.logFile.lookup (L.Join P.mlog.logCfg.Dir relPath) = none →
      NewMlogFile L (L.Join P.mlog.logCfg.Dir relPath) P.mlog.logCfg.SubRelPath
        P.mlog.logCfg.Buffer = Outcome.panic →
      Mlog.write L P relPath msg = (P, Outcome.panic) ∧
      P.mlog.entries (L.Join P.mlog.logCfg.Dir relPath) = 0 ∧
      Mlog.write.call L (P, Mux.free) relPath msg = ((P, Mux.writeHeld), Outcome.panic) ∧
      (∀ ops : List Op, (∀ op ∈ ops, op.isCall = true) →
        Prog.run L (P, Mux.free) (Op.write relPath msg :: ops) = (P, Mux.writeHeld))) ∧
    (Mlog.write.locked L P relPath ≠ Outcome.panic →
      Mlog.write.call L (P, Mux.free) relPath msg =
        (((Mlog.write L P relPath msg).1, Mux.free), (Mlog.write L P relPath msg).2)) ∧
    (∀ mux, mux ≠ Mux.free →
      (Mlog.write.call L (P, mux) relPath msg).1.1 = P ∧
      (Mlog.write.call L (P, mux) relPath msg).1.2 ≠ Mux.free ∧
      (Mlog.write.call L (P, mux) relPath msg).2 = Outcome.blocked) ∧
    (∀ k, k ≠ L.Join P.mlog.logCfg.Dir relPath →
      (Mlog.write L P relPath msg).1.mlog.logFile.lookup k = P.mlog.logFile.lookup k) ∧
    (∀ (mux : Mux) (ops : List Op) (k : Bytes) (ptr : Nat),
      P.mlog.logFile.lookup k = some ptr →
      (Prog.run L (P, mux) ops).1.mlog.logFile.lookup k = some ptr) := by
  refine ⟨?_, ?_, ?_, ?_, ?_, ?_, ?_, ?_, ?_⟩
  · intro hnd
    rcases write_logFile L P relPath msg with e | ⟨hl, hnp, e⟩
    · refine ⟨by rw [e]; exact hnd, ?_⟩
      intro hnp
      unfold Mlog.entries
      rw [e]
      cases hl : P.mlog.logFile.lookup (L.Join P.mlog.logCfg.Dir relPath) with
      | some ptr => exact entries_of_lookup_some _ _ ptr hnd hl
      | none =>
        exfalso
        rcases NewMlogFile_cases L (L.Join P.mlog.logCfg.Dir relPath)
          P.mlog.logCfg.SubRelPath P.mlog.logCfg.Buffer with ⟨m0, hm⟩ | hp
        · have e2 := e
          rw [write_miss L P relPath msg m0 hl hm] at e2
          simp at e2
        · exact hnp (locked_panic L P relPath hl hp)
    · constructor
      · rw [e, List.map_append, List.nodup_append]
        refine ⟨hnd, by simp, ?_⟩
        intro a ha hb
        simp only [List.map_cons, List.map_nil, List.mem_singleton] at hb
        subst hb
        exact not_mem_of_lookup_none _ _ hl ha
      · intro _
        unfold Mlog.entries
        rw [e, List.filter_append, filter_of_lookup_none _ _ hl]
        simp
  · intro ptr f hl hf
    rw [write_hit L P relPath msg ptr hl, hf]
    simp only []
    cases hW : f.Write msg with
    | ret f1 =>
      obtain ⟨e1, e2, e3⟩ := Write_ret f f1 msg hW
      refine ⟨rfl, by simp, rfl, fun _ => by rw [e1], ?_, ?_⟩
      · exact ⟨fun _ => ⟨e2, e3⟩, fun _ => rfl⟩
      · constructor
        · intro h; exact Outcome.noConfusion h
        · intro h; rw [e2] at h; exact Bool.noConfusion h
    | blocked =>
      have hb : f.msgChan.closed = false ∧ ¬ f.msgChan.queue.length < f.msgChan.cap := by
        unfold MlogFile.Write at hW
        split_ifs at hW with h1 h2
        exact ⟨by simpa using h1, by omega⟩
      refine ⟨rfl, rfl, rfl, fun h => Outcome.noConfusion h, ?_, ?_⟩
      · exact ⟨fun h => Outcome.noConfusion h, fun h => absurd h.2 hb.2⟩
      · constructor
        · intro h; exact Outcome.noConfusion h
        · intro h; rw [hb.1] at h; exact Bool.noConfusion h
    | panic =>
      have hb : f.msgChan.closed = true := by
        unfold MlogFile.Write at hW
        split_ifs at hW with h1 h2
        exact h1
      refine ⟨rfl, rfl, rfl, fun h => Outcome.noConfusion h, ?_, ?_⟩
      · constructor
        · intro h; exact Outcome.noConfusion h
        · intro h; rw [hb] at h; exact Bool.noConfusion h.1
      · exact ⟨fun _ => hb, fun _ => rfl⟩
  · intro m0 hl hnew
    exact ⟨(NewMlogFile_ret L _ _ _ m0 hnew).1, write_miss L P relPath msg m0 hl hnew⟩
  · exact NewMlogFile_panic_iff L _ _ _
  · intro hl hp
    have hlk := locked_panic L P relPath hl hp
    have hcall : Mlog.write.call L (P, Mux.free) relPath msg =
        ((P, Mux.writeHeld), Outcome.panic) := by
      unfold Mlog.write.call
      simp only [hlk]
    refine ⟨write_panic L P relPath msg hlk, ?_, hcall, ?_⟩
    · unfold Mlog.entries
      rw [filter_of_lookup_none _ _ hl]
      rfl
    · intro ops hops
      simp only [Prog.run, List.foldl_cons]
      have hstep : Prog.step L (P, Mux.free) (Op.write relPath msg) = (P, Mux.writeHeld) := by
        simp only [Prog.step, hcall]
      rw [hstep]
      exact run_writeHeld L P ops hops
  · intro hnp
    unfold Mlog.write.call
    cases hlk : Mlog.write.locked L P relPath with
    | ret r => simp only [hlk]
    | blocked => exact absurd hlk (locked_not_blocked L P relPath)
    | panic => exact absurd hlk hnp
  · intro mux hmux
    cases mux with
    | free => exact absurd rfl hmux
    | writeHeld => exact ⟨rfl, fun h => Mux.noConfusion h, rfl⟩
    | readHeld b => exact ⟨rfl, fun h => Mux.noConfusion h, rfl⟩
  · intro k hk
    rcases write_logFile L P relPath msg with e | ⟨hl, _, e⟩
    · rw [e]
    · rw [e]
      cases hk2 : P.mlog.logFile.lookup k with
      | some p => exact lookup_append_some k _ _ p hk2
      | none => rw [lookup_append_none k _ _ _ hk2, if_neg hk]
  · intro mux ops k ptr h
    exact run_keeps L ops (P, mux) k ptr h

/-- C7, witness: the program `twoFiles` logs `m` to `error/web`, which it has: the map
keeps its two entries and `m` joins `e` in the queue of the second object. -/
theorem write_get_or_create_witness :
    ((Mlog.write goLib twoFiles "error/web".data "m".data).1.mlog.logFile.map Prod.fst).Nodup ∧
    (Mlog.write goLib twoFiles "error/web".data "m".data).1.mlog.entries
        (goLib.Join twoFiles.mlog.logCfg.Dir "error/web".data) = 1 ∧
    ((Mlog.write goLib twoFiles "error/web".data "m".data).1.heap.map
        (fun f => f.msgChan.queue)) = [[], ["e".data, "m".data]] :=
  ⟨((write_get_or_create goLib twoFiles "error/web".data "m".data).1 (by decide)).1,
   ((write_get_or_create goLib twoFiles "error/web".data "m".data).1 (by decide)).2
     (by decide),
   by decide⟩

/-- C7, counterexample: the configuration asks for channels of capacity `2^62`, more than
`make` accepts, and the program logs `m` to `access/web`, which the map does not have.
`NewMlogFile` panics inside the locked part of `write`: the call panics, the map has no
entry under `logs/access/web` after it, and the lock stays held: the next call waits. -/
theorem write_huge_buffer_counterexample :
    hugeBuffer.mlog.logCfg.Buffer = 2 ^ 62 ∧
    hugeBuffer.mlog.logFile.lookup (goLib.Join hugeBuffer.mlog.logCfg.Dir "access/web".data) =
      none ∧
    NewMlogFile goLib (goLib.Join hugeBuffer.mlog.logCfg.Dir "access/web".data)
      hugeBuffer.mlog.logCfg.SubRelPath hugeBuffer.mlog.logCfg.Buffer = Outcome.panic ∧
    Mlog.write goLib hugeBuffer "access/web".data "m".data = (hugeBuffer, Outcome.panic) ∧
    (Mlog.write goLib hugeBuffer "access/web".data "m".data).1.mlog.entries
      (goLib.Join hugeBuffer.mlog.logCfg.Dir "access/web".data) = 0 ∧
    Mlog.write.call goLib (hugeBuffer, Mux.free) "access/web".data "m".data =
      ((hugeBuffer, Mux.writeHeld), Outcome.panic) ∧
    Mlog.write.call goLib (hugeBuffer, Mux.writeHeld) "access/web".data "m".data =
      ((hugeBuffer, Mux.writeHeld), Outcome.blocked) := by
  decide

/-! ## Theorems: a second `Close` -/

theorem turn_closed (L : Lib) (s : Sys) (e : Event) :
    (MlogFile.write.turn L s e).m.msgChan.closed = s.m.msgChan.closed := by
  by_cases hrun : s.m.worker = Worker.running
  · cases e with
    | tick now => rw [(turn_tick_keeps L s now).2.1]
    | recv =>
      cases hq : s.m.msgChan.queue with
      | cons msg rest => rw [(turn_recv_keeps L s msg rest hrun hq).2.1]
      | nil =>
        cases hc : s.m.msgChan.closed with
        | false => rw [turn_recv_empty L s hq hc, hc]
        | true => rw [(turn_recv_returns L s hrun hq hc).2.1, hc]
  · rw [turn_not_running L s e hrun]

theorem ticks_closed (L : Lib) (ts : List Time) :
    ∀ s : Sys, (MlogFile.write.ticks L s ts).m.msgChan.closed = s.m.msgChan.closed := by
  induction ts with
  | nil => intro s; rfl
  | cons t ts ih =>
    intro s
    unfold MlogFile.write.ticks at *
    simp only [List.foldl_cons]
    rw [ih, turn_closed]

theorem drain_closed (L : Lib) (n : Nat) :
    ∀ (s : Sys) (sched : Nat → List Time),
      (MlogFile.write.drain L n s sched).m.msgChan.closed = s.m.msgChan.closed := by
  induction n with
  | zero =>
    intro s sched
    simp only [MlogFile.write.drain]
    rw [turn_closed, ticks_closed]
  | succ n ih =>
    intro s sched
    simp only [MlogFile.write.drain]
    rw [ih, turn_closed, ticks_closed]

theorem enter_msgChan (L : Lib) (s : Sys) (t0 : Time) :
    (MlogFile.write.enter L s t0).m.msgChan = s.m.msgChan := by
  by_cases h : s.m.worker = Worker.spawned
  · exact (enter_result L s t0 h).2.2
  · rw [enter_running L s t0 h]

theorem wait_closed (L : Lib) (s : Sys) (t0 : Time) (sched : Nat → List Time) :
    (MlogFile.Close.wait L s t0 sched).m.msgChan.closed = true := by
  unfold MlogFile.Close.wait
  simp only []
  split_ifs
  · rw [enter_msgChan]
  · rw [drain_closed, enter_msgChan]

theorem Writer_Flush_quiet (b : Writer) (w : World) :
    (b.Flush w).1.err = true ∨ (b.Flush w).1.buf = [] := by
  unfold Writer.Flush
  by_cases he : b.err = true
  · rw [if_pos he]
    exact Or.inl he
  · rw [if_neg he]
    by_cases hb : b.buf.length = 0
    · rw [if_pos hb]
      exact Or.inr (List.length_eq_zero.mp hb)
    · rw [if_neg hb]
      rcases os.File.Write w b.wr b.buf with ⟨n, e, w1⟩
      simp only []
      split_ifs
      · exact Or.inl rfl
      · exact Or.inr rfl

theorem Flush_quiet (m : MlogFile) (w : World) : (m.Flush w).1.quiet := by
  unfold MlogFile.Flush MlogFile.quiet
  cases hb : m.bufWrite with
  | none =>
    intro b h
    simp only [hb] at h
    exact Option.noConfusion h
  | some b0 =>
    intro b h
    simp only [Option.some.injEq] at h
    rw [← h]
    exact Writer_Flush_quiet b0 w

theorem Flush_of_quiet (m : MlogFile) (w : World) (h : m.quiet) : m.Flush w = (m, w) := by
  unfold MlogFile.Flush
  cases hb : m.bufWrite with
  | none => rfl
  | some b =>
    have hq := h b hb
    have : b.Flush w = (b, b.err, w) := by
      unfold Writer.Flush
      rcases hq with he | hn
      · rw [if_pos he, he]
      · by_cases he : b.err = true
        · rw [if_pos he, he]
        · rw [if_neg he, if_pos (by rw [hn]; rfl)]
          simp at he
          rw [he]
    simp only [this]
    rcases m with ⟨_, bw, _, _, _, _, _, _⟩
    simp only at hb
    rw [hb]

/-- What holds when `Close` has returned: the channel was open and is closed, and the
writer has nothing left to write. -/
theorem Close_ret (L : Lib) (s : Sys) (t0 : Time) (sched : Nat → List Time) (e : Bool)
    (s2 : Sys) (h : MlogFile.Close L s t0 sched = Outcome.ret (e, s2)) :
    s.m.msgChan.closed = false ∧ s2.m.msgChan.closed = true ∧ s2.m.quiet := by
  unfold MlogFile.Close at h
  by_cases hc : s.m.msgChan.closed = true
  · rw [if_pos hc] at h
    exact Outcome.noConfusion h
  · rw [if_neg hc] at h
    simp only [] at h
    have hw := wait_closed L s t0 sched
    generalize MlogFile.Close.wait L s t0 sched = s3 at h hw
    by_cases hp : s3.m.worker = Worker.panicked
    · rw [if_pos hp] at h
      exact Outcome.noConfusion h
    · rw [if_neg hp] at h
      have hk := Flush_keeps s3.m s3.w
      have hq := Flush_quiet s3.m s3.w
      rcases hfl : s3.m.Flush s3.w with ⟨m4, w4⟩
      rw [hfl] at h hk hq
      simp only [] at h hk hq
      have hm : s2.m = m4 := by
        cases hfd : m4.fd with
        | none =>
          rw [hfd] at h
          simp only [Outcome.ret.injEq, Prod.mk.injEq] at h
          rw [← h.2]
        | some fd =>
          rw [hfd] at h
          simp only [Outcome.ret.injEq, Prod.mk.injEq] at h
          rw [← h.2]
      refine ⟨by simpa using hc, ?_, ?_⟩
      · rw [hm, hk.2.1, hw]
      · rw [hm]
        exact hq

theorem Close_closed (L : Lib) (s : Sys) (t0 : Time) (sched : Nat → List Time)
    (h : s.m.msgChan.closed = true) : MlogFile.Close L s t0 sched = Outcome.panic := by
  unfold MlogFile.Close
  rw [if_pos h]

theorem Close_loop_mlog (L : Lib) (l : List (Bytes × Nat)) :
    ∀ (P : Prog) (env : Nat → Time × (Nat → List Time)),
      (Mlog.Close.loop L l P env).1.mlog = P.mlog := by
  induction l with
  | nil => intro P env; rfl
  | cons a l ih =>
    intro P env
    rcases a with ⟨k, ptr⟩
    simp only [Mlog.Close.loop]
    cases P.heap[ptr]? with
    | none => rfl
    | some f =>
      simp only []
      cases hC : MlogFile.Close L ⟨(f.Flush P.w).1, (f.Flush P.w).2⟩ (env 0).1 (env 0).2 with
      | ret r =>
        rcases r with ⟨e, s2⟩
        simp only []
        rw [ih]
      | blocked => rfl
      | panic => rfl

theorem Close_loop_keeps (L : Lib) (l : List (Bytes × Nat)) :
    ∀ (P P1 : Prog) (env : Nat → Time × (Nat → List Time)) (ptr0 : Nat) (f0 : MlogFile),
      Mlog.Close.loop L l P env = (P1, false) → P.heap[ptr0]? = some f0 →
      f0.msgChan.closed = true → P1.heap[ptr0]? = some f0 := by
  induction l with
  | nil =>
    intro P P1 env ptr0 f0 h hf hc
    simp only [Mlog.Close.loop, Prod.mk.injEq] at h
    rw [← h.1]
    exact hf
  | cons a l ih =>
    intro P P1 env ptr0 f0 h hf hc
    rcases a with ⟨k, ptr⟩
    simp only [Mlog.Close.loop] at h
    cases hp : P.heap[ptr]? with
    | none =>
      rw [hp] at h
      simp at h
    | some f =>
      rw [hp] at h
      simp only [] at h
      cases hC : MlogFile.Close L ⟨(f.Flush P.w).1, (f.Flush P.w).2⟩ (env 0).1 (env 0).2 with
      | ret r =>
        rcases r with ⟨e, s2⟩
        rw [hC] at h
        simp only [] at h
        have hne : ptr ≠ ptr0 := by
          intro heq
          subst heq
          rw [hp] at hf
          simp only [Option.some.injEq] at hf
          subst hf
          have hcl : (f.Flush P.w).1.msgChan.closed = true := by
            rw [(Flush_keeps f P.w).2.1]
            exact hc
          rw [Close_closed L _ _ _ hcl] at hC
          exact Outcome.noConfusion hC
        apply ih _ P1 _ ptr0 f0 h _ hc
        show (P.heap.set ptr s2.m)[ptr0]? = some f0
        rw [List.getElem?_set_ne hne]
        exact hf
      | blocked => rw [hC] at h; simp at h
      | panic => rw [hC] at h; simp at h

/-- C3 (amended).  `Close` is not idempotent: it has no record of a previous call.  For
every `MlogFile`, once `Close` has returned, a second `Close` panics at its first
statement, `close(m.msgChan)` on a closed channel; before the panic nothing has changed.
For every `Mlog` with at least one destination, once `Close` has returned, a second `Close`
panics in the `Close` of the first destination it visits: the flush it makes before finds
nothing to write, so the operating system (the content of the files) and the objects are
unchanged. -/
theorem Close_twice_panics (L : Lib) :
    (∀ (s : Sys) (t0 : Time) (sched : Nat → List Time) (e : Bool) (s2 : Sys),
      MlogFile.Close L s t0 sched = Outcome.ret (e, s2) →
      ∀ (t1 : Time) (sched1 : Nat → List Time),
        MlogFile.Close L s2 t1 sched1 = Outcome.panic) ∧
    (∀ (P P1 : Prog) (env : Nat → Time × (Nat → List Time)), P.mlog.logFile ≠ [] →
      Mlog.Close L P env = (P1, false) →
      ∀ env1 : Nat → Time × (Nat → List Time),
        (Mlog.Close L P1 env1).2 = true ∧ (Mlog.Close L P1 env1).1.w = P1.w ∧
        (Mlog.Close L P1 env1).1.heap = P1.heap ∧
        (Mlog.Close L P1 env1).1.mlog = P1.mlog) := by
  constructor
  · intro s t0 sched e s2 h t1 sched1
    exact Close_closed L s2 t1 sched1 (Close_ret L s t0 sched e s2 h).2.1
  · intro P P1 env hne h env1
    have hmlog : P1.mlog = P.mlog := by
      have := Close_loop_mlog L P.mlog.logFile P env
      unfold Mlog.Close at h
      rw [h] at this
      exact this
    cases hl : P.mlog.logFile with
    | nil => exact absurd hl hne
    | cons a rest =>
      rcases a with ⟨k0, ptr0⟩
      unfold Mlog.Close at h
      rw [hl] at h
      simp only [Mlog.Close.loop] at h
      cases hp : P.heap[ptr0]? with
      | none =>
        rw [hp] at h
        simp at h
      | some f =>
        rw [hp] at h
        simp only [] at h
        cases hC : MlogFile.Close L ⟨(f.Flush P.w).1, (f.Flush P.w).2⟩ (env 0).1 (env 0).2 with
        | blocked => rw [hC] at h; simp at h
        | panic => rw [hC] at h; simp at h
        | ret r =>
          rcases r with ⟨e, s2⟩
          rw [hC] at h
          simp only [] at h
          obtain ⟨_, c2, c3⟩ := Close_ret L _ _ _ e s2 hC
          have hlt : ptr0 < P.heap.length := lt_length_of_getElem? _ _ _ hp
          have hf1 : P1.heap[ptr0]? = some s2.m := by
            apply Close_loop_keeps L rest _ P1 _ ptr0 s2.m h _ c2
            show (P.heap.set ptr0 s2.m)[ptr0]? = some s2.m
            exact List.getElem?_set_self hlt
          have hfl := Flush_of_quiet s2.m P1.w c3
          have hpan := Close_closed L ⟨s2.m, P1.w⟩ (env1 0).1 (env1 0).2 c2
          have hres : Mlog.Close L P1 env1 =
              ({ P1 with heap := P1.heap.set ptr0 s2.m, w := P1.w }, true) := by
            unfold Mlog.Close
            rw [hmlog, hl]
            simp only [Mlog.Close.loop, hf1, hfl, hpan]
            rw [hmlog]
          rw [hres]
          exact ⟨rfl, rfl, set_self _ _ _ hf1, rfl⟩

/-- C3, witness: the destination `logs/cat` with `a` and `b` in its queue is closed, and
closed again. -/
theorem Close_twice_panics_witness :
    MlogFile.Close goLib (closedOnce (Time.civil 2024 1 1 10 0 0) ["a".data, "b".data])
      (Time.civil 2024 1 1 10 0 2) (fun _ => []) = Outcome.panic :=
  (Close_twice_panics goLib).1 (queued (Time.civil 2024 1 1 10 0 0) ["a".data, "b".data])
    (Time.civil 2024 1 1 10 0 0) (fun _ => []) false
    (closedOnce (Time.civil 2024 1 1 10 0 0) ["a".data, "b".data]) (by decide)
    (Time.civil 2024 1 1 10 0 2) (fun _ => [])

/-- C3, counterexample: a first `Close` of the destination `logs/cat`, and of the `Mlog` of
`twoFiles`, returns; a second one panics. -/
theorem Close_twice_counterexample :
    (∃ s2, MlogFile.Close goLib (queued (Time.civil 2024 1 1 10 0 0) ["a".data])
        (Time.civil 2024 1 1 10 0 1) (fun _ => []) = Outcome.ret (false, s2) ∧
      MlogFile.Close goLib s2 (Time.civil 2024 1 1 10 0 2) (fun _ => []) = Outcome.panic) ∧
    (Mlog.Close goLib twoFiles noTicks).2 = false ∧
    (Mlog.Close goLib (Mlog.Close goLib twoFiles noTicks).1 noTicks).2 = true := by
  refine ⟨⟨_, rfl, ?_⟩, ?_, ?_⟩ <;> decide

/-! ## Theorems: util.go -/

theorem IP_String_ne_nil (ip : IP) : ip.String ≠ [] := by
  unfold IP.String
  split
  · simp
  · decide

theorem onlineip_ne_nil (parseIPv6 : Bytes → IP) (r : Request) :
    GetRequestIP.onlineip parseIPv6 r ≠ [] := by
  unfold GetRequestIP.onlineip ParseIPTo4
  exact IP_String_ne_nil _

theorem Split_ne_nil (c : Char) (s : Bytes) : Split c s ≠ [] := by
  cases s with
  | nil => simp [Split]
  | cons d ds =>
    simp only [Split]
    by_cases h : d = c
    · rw [if_pos h]
      exact List.cons_ne_nil _ _
    · rw [if_neg h]
      cases Split c ds with
      | nil => exact List.cons_ne_nil _ _
      | cons x xs => exact List.cons_ne_nil _ _

theorem forwards_ne_nil (r : Request) : GetRequestIP.forwards r ≠ [] := by
  unfold GetRequestIP.forwards
  by_cases h1 : (GetRequestIP.res r).contains ',' = true
  · rw [if_pos h1]
    exact Split_ne_nil _ _
  · rw [if_neg h1]
    by_cases h2 : (GetRequestIP.res r).contains ':' = true
    · rw [if_pos h2]
      exact Split_ne_nil _ _
    · rw [if_neg h2]
      exact List.cons_ne_nil _ _

theorem GetRequestIP_eq (parseIPv6 : Bytes → IP) (r : Request) :
    GetRequestIP parseIPv6 r =
      if GetRequestIP.res r = [] then GetRequestIP.onlineip parseIPv6 r
      else if IsValidateIP parseIPv6 ((GetRequestIP.forwards r).headD []) = true then
        ParseIPTo4 parseIPv6 ((GetRequestIP.forwards r).headD [])
      else if GetRequestIP.onlineip parseIPv6 r ≠ [] ∧
          IsValidateIP parseIPv6 (GetRequestIP.onlineip parseIPv6 r) = true then
        GetRequestIP.onlineip parseIPv6 r
      else
        match (GetRequestIP.forwards r).reverse.find? (IsValidateIP parseIPv6) with
        | some f => ParseIPTo4 parseIPv6 f
        | none => GetRequestIP.onlineip parseIPv6 r := rfl

/-- C8 (amended).  `GetRequestIP` looks at the first value of the `X-Forwarded-For` list,
then at the remote address, then at the other values from the last one backwards.  If the
header is empty it returns the remote address (as IPv4 text).  If the first value is
globally routable (`IsValidateIP`) it returns it.  Otherwise, if the remote address is
globally routable it returns the remote address, whatever the other values are.
Otherwise it returns the last globally routable value of the list, and the remote address
when no value is globally routable.  In every case the result is the remote address or a
globally routable value of the list. -/
theorem GetRequestIP_order (parseIPv6 : Bytes → IP) (r : Request) :
    (GetRequestIP.res r = [] →
      GetRequestIP parseIPv6 r = GetRequestIP.onlineip parseIPv6 r) ∧
    (GetRequestIP.res r ≠ [] →
      IsValidateIP parseIPv6 ((GetRequestIP.forwards r).headD []) = true →
      GetRequestIP parseIPv6 r = ParseIPTo4 parseIPv6 ((GetRequestIP.forwards r).headD [])) ∧
    (IsValidateIP parseIPv6 ((GetRequestIP.forwards r).headD []) = false →
      IsValidateIP parseIPv6 (GetRequestIP.onlineip parseIPv6 r) = true →
      GetRequestIP parseIPv6 r = GetRequestIP.onlineip parseIPv6 r) ∧
    (GetRequestIP.res r ≠ [] →
      IsValidateIP parseIPv6 ((GetRequestIP.forwards r).headD []) = false →
      IsValidateIP parseIPv6 (GetRequestIP.onlineip parseIPv6 r) = false →
      ∀ f, (GetRequestIP.forwards r).reverse.find? (IsValidateIP parseIPv6) = some f →
        GetRequestIP parseIPv6 r = ParseIPTo4 parseIPv6 f) ∧
    ((∀ f ∈ GetRequestIP.forwards r, IsValidateIP parseIPv6 f = false) →
      GetRequestIP parseIPv6 r = GetRequestIP.onlineip parseIPv6 r) ∧
    (GetRequestIP parseIPv6 r = GetRequestIP.onlineip parseIPv6 r ∨
      ∃ f ∈ GetRequestIP.forwards r, IsValidateIP parseIPv6 f = true ∧
        GetRequestIP parseIPv6 r = ParseIPTo4 parseIPv6 f) := by
  have hne := onlineip_ne_nil parseIPv6 r
  have hhead : (GetRequestIP.forwards r).headD [] ∈ GetRequestIP.forwards r := by
    have := forwards_ne_nil r
    cases hf : GetRequestIP.forwards r with
    | nil => exact absurd hf this
    | cons a as => exact List.mem_cons_self _ _
  have hfind : ∀ f, (GetRequestIP.forwards r).reverse.find? (IsValidateIP parseIPv6) = some f →
      f ∈ GetRequestIP.forwards r ∧ IsValidateIP parseIPv6 f = true := by
    intro f hf
    have h1 := List.find?_some hf
    have h2 := List.mem_of_find?_eq_some hf
    exact ⟨List.mem_reverse.mp h2, h1⟩
  have hfalse : ∀ x : Bytes, IsValidateIP parseIPv6 x = false →
      ¬ (IsValidateIP parseIPv6 x = true) := by
    intro x hx
    rw [hx]
    decide
  rw [GetRequestIP_eq]
  refine ⟨?_, ?_, ?_, ?_, ?_, ?_⟩
  · intro h
    rw [if_pos h]
  · intro h hv
    rw [if_neg h, if_pos hv]
  · intro hv ho
    by_cases h : GetRequestIP.res r = []
    · rw [if_pos h]
    · rw [if_neg h, if_neg (hfalse _ hv), if_pos ⟨hne, ho⟩]
  · intro h hv ho f hf
    rw [if_neg h, if_neg (hfalse _ hv), if_neg (fun hh => hfalse _ ho hh.2), hf]
  · intro hall
    by_cases h : GetRequestIP.res r = []
    · rw [if_pos h]
    · have hv := hall _ hhead
      have hnone : (GetRequestIP.forwards r).reverse.find? (IsValidateIP parseIPv6) = none := by
        rw [List.find?_eq_none]
        intro x hx
        exact hfalse x (hall x (List.mem_reverse.mp hx))
      rw [if_neg h, if_neg (hfalse _ hv), hnone]
      split_ifs <;> rfl
  · by_cases h : GetRequestIP.res r = []
    · rw [if_pos h]
      exact Or.inl rfl
    · rw [if_neg h]
      by_cases hv : IsValidateIP parseIPv6 ((GetRequestIP.forwards r).headD []) = true
      · rw [if_pos hv]
        exact Or.inr ⟨_, hhead, hv, rfl⟩
      · rw [if_neg hv]
        by_cases ho : GetRequestIP.onlineip parseIPv6 r ≠ [] ∧
            IsValidateIP parseIPv6 (GetRequestIP.onlineip parseIPv6 r) = true
        · rw [if_pos ho]
          exact Or.inl rfl
        · rw [if_neg ho]
          cases hf : (GetRequestIP.forwards r).reverse.find? (IsValidateIP parseIPv6) with
          | none => exact Or.inl rfl
          | some f => exact Or.inr ⟨f, (hfind f hf).1, (hfind f hf).2, rfl⟩

/-- C8, witness: `X-Forwarded-For: 10.0.0.5, 8.8.8.8` from the remote address
`203.0.113.9`.  The first value is private and the remote address is globally routable:
the remote address is returned. -/
theorem GetRequestIP_order_witness :
    GetRequestIP (fun _ => []) (request "203.0.113.9".data "10.0.0.5, 8.8.8.8".data) =
      GetRequestIP.onlineip (fun _ => [])
        (request "203.0.113.9".data "10.0.0.5, 8.8.8.8".data) :=
  (GetRequestIP_order (fun _ => [])
    (request "203.0.113.9".data "10.0.0.5, 8.8.8.8".data)).2.2.1 (by decide) (by decide)

/-- C8, counterexample: `X-Forwarded-For: 10.0.0.5, 8.8.8.8` from the remote address
`203.0.113.9`.  The value `8.8.8.8` of the list is globally routable, and the result is
`203.0.113.9`, not `8.8.8.8`. -/
theorem GetRequestIP_counterexample :
    GetRequestIP.forwards (request "203.0.113.9".data "10.0.0.5, 8.8.8.8".data) =
      ["10.0.0.5".data, " 8.8.8.8".data] ∧
    IsValidateIP (fun _ => []) "10.0.0.5".data = false ∧
    IsValidateIP (fun _ => []) " 8.8.8.8".data = true ∧
    IsValidateIP (fun _ => []) "203.0.113.9".data = true ∧
    GetRequestIP (fun _ => []) (request "203.0.113.9".data "10.0.0.5, 8.8.8.8".data) =
      "203.0.113.9".data ∧
    GetRequestIP (fun _ => []) (request "203.0.113.9:4711".data "10.0.0.5, 8.8.8.8".data) =
      "203.0.113.9".data := by
  decide

/-! ## Theorems: `Close` -/

/-- C2.  Graceful shutdown.  In every state whose worker runs with a file open (the last
file opened, with a sound writer on it), whatever the queue holds and whatever ticks fall
while the worker drains it, if no system call fails then `Close` returns without error;
the queue is then empty, the worker has returned (the wait group is at zero), the buffer is
empty, and the files hold what the open file held, then what the buffer held, then the
line of every queued message, in the order of the queue; every file is closed. -/
theorem Close_graceful (L : Lib) (s : Sys) (t0 : Time) (sched : Nat → List Time)
    (pre : List OSFile) (f : OSFile) (b : Writer)
    (hrun : s.m.worker = Worker.running) (hwg : s.m.wg = 1)
    (hopen : s.m.msgChan.closed = false)
    (hfiles : s.w.files = pre ++ [f]) (hfc : f.closed = false)
    (hfd : s.m.fd = some pre.length) (hb : s.m.bufWrite = some b) (hwr : b.wr = pre.length)
    (herr : b.err = false) (hlen : b.buf.length ≤ defaultBufSize) (hnf : s.w.NoFailure) :
    ∃ s2, MlogFile.Close L s t0 sched = Outcome.ret (false, s2) ∧
      s2.m.msgChan.queue = [] ∧ s2.m.msgChan.closed = true ∧
      s2.m.worker = Worker.returned ∧ s2.m.wg = 0 ∧
      (∃ b2, s2.m.bufWrite = some b2 ∧ b2.buf = []) ∧
      s2.w.appended pre.length = f.data ++ b.buf ++ lines s.m.msgChan.queue ∧
      s2.w.files.take pre.length = pre ∧
      ∀ g ∈ s2.w.files.drop pre.length, g.closed = true := by
  have hne : ({ s.m with msgChan := { s.m.msgChan with closed := true } } : MlogFile).worker ≠
      Worker.spawned := by
    show s.m.worker ≠ Worker.spawned
    rw [hrun]
    decide
  have hent := enter_running L
    ⟨{ s.m with msgChan := { s.m.msgChan with closed := true } }, s.w⟩ t0 hne
  have hS : Sound pre (MlogFile.write.enter L
      ⟨{ s.m with msgChan := { s.m.msgChan with closed := true } }, s.w⟩ t0)
      ⟨[], s.m.lastTime, f.path, f.data ++ b.buf⟩ := by
    rw [hent]
    refine ⟨hrun, hwg, hnf, rfl, f.data, b, ?_, hfd, hb, hwr, herr, rfl, hlen⟩
    show s.w.files = pre ++ [] ++ [⟨f.path, f.data, false⟩]
    rw [hfiles, ← hfc]
    simp
  obtain ⟨s2, c1, c2, c3, c4, c5, c6, c7⟩ := Close_of_entered L pre s _ t0 sched hopen hS
    (by rw [hent]) (by rw [hent]) (by rw [hent])
  obtain ⟨d1, d2, d3⟩ := appended_closed s2.w pre _ c6
  refine ⟨s2, c1, by rw [c4], by rw [c4], c2, c3, c5, ?_, d2, d3⟩
  rw [d1, total_drain]
  simp [Ghost.total]

/-- C2, witness: the file of 10 o'clock is open, `a` and `b` wait in the channel. -/
theorem Close_graceful_witness :
    ∃ s2, MlogFile.Close goLib (queued (Time.civil 2024 1 1 10 0 0) ["a".data, "b".data])
        (Time.civil 2024 1 1 10 0 1) (fun _ => []) = Outcome.ret (false, s2) ∧
      s2.m.msgChan.queue = [] ∧ s2.m.msgChan.closed = true ∧
      s2.m.worker = Worker.returned ∧ s2.m.wg = 0 ∧
      (∃ b2, s2.m.bufWrite = some b2 ∧ b2.buf = []) ∧
      s2.w.appended 0 = [] ++ [] ++ lines ["a".data, "b".data] ∧
      s2.w.files.take 0 = [] ∧
      ∀ g ∈ s2.w.files.drop 0, g.closed = true :=
  Close_graceful goLib (queued (Time.civil 2024 1 1 10 0 0) ["a".data, "b".data])
    (Time.civil 2024 1 1 10 0 1) (fun _ => []) []
    ⟨"logs/cat/2024-01-01-10.log".data, [], false⟩ ⟨0, [], false⟩
    rfl rfl rfl rfl rfl rfl rfl rfl rfl (by decide) (by decide)

end Mlog
